import Mathlib

/-!
# The TCP router of traefik (`pkg/tcp`)

A shallow embedding of `pkg/tcp/router.go`: the peeking connection `Conn`, the
ClientHello sniffer `clientHelloServerName` and the dispatch of `Router.ServeTCP`,
with the registration operations of the router; of `pkg/tcp/starttls/xmpp.go`: the
STARTTLS negotiation of XMPP; and of `pkg/tcp/starttls.go`: the registry of
protocols and the decorator `STARTTLSHandler`.

Conventions of the embedding.

* A byte is a `UInt8`; a Go `[]byte` that may be `nil` is an `Option (List Byte)`
  (`none` is the nil slice); the Go string returned as `peeked` is its byte list.
* The network side of a connection is a script of read events (`NetStream`): what
  each successive `Read` of the socket would deliver.  The bytes the client sent are
  the concatenation of the data of the events (`NetStream.content`).
* A method that mutates its receiver returns the new receiver next to its results.
* What the Go standard library supplies is either modelled here from its source
  (`bufio.Reader`: `Peek`, `fill`, `Buffered`) or taken as a parameter (`StdLib`:
  `strings.ToLower` and the ClientHello decoding of `crypto/tls`).
* A handler stored in the routing table is not nil; a handler field of the router
  that may be nil is an `Option Handler`.  The argument of `Peek` is a natural
  number: the code never passes a negative count.
* `ServeTCP` is embedded as the list of calls it makes on the connection (a handler's
  `ServeTCP`, or `Close`), so that "exactly one call" is a statement about that list.
-/

namespace Tcp

/-- One byte of a stream. -/
abbrev Byte := UInt8

/-- The Go error values that reach this code: `io.EOF`, `io.ErrNoProgress`,
`bufio.ErrBufferFull`, and any other (transport) error, told apart by a code. -/
inductive GoError where
  | EOF
  | ErrNoProgress
  | ErrBufferFull
  | other (code : Nat)
deriving DecidableEq, Repr

/-- One `Read` of the socket: the bytes that have arrived, and the error the
read reports with them, if any. -/
structure ReadEvent where
  data : List Byte
  err : Option GoError
deriving DecidableEq, Repr

/-- The network side of a connection: the reads still to come, in order.  When
the script is exhausted every further read returns `(0, io.EOF)`. -/
abbrev NetStream := List ReadEvent

/-- The bytes a stream still holds. -/
def NetStream.content : NetStream → List Byte
  | [] => []
  | e :: rest => e.data ++ NetStream.content rest

/-- The result of one read of the socket with room for `k` bytes. -/
structure RecvResult where
  data : List Byte
  err : Option GoError
  rest : NetStream
deriving DecidableEq, Repr

/-- A read of the socket into a buffer of `k` bytes: at most `k` bytes of the next
event; what does not fit stays for the next read, with the event's error. -/
def NetStream.recv : NetStream → Nat → RecvResult
  | [], _ => ⟨[], some GoError.EOF, []⟩
  | e :: rest, k =>
    if e.data.length ≤ k then ⟨e.data, e.err, rest⟩
    else ⟨e.data.take k, none, ⟨e.data.drop k, e.err⟩ :: rest⟩

/-- The interface `WriteCloser` as far as reading goes: a connection of the accept
loop (`net`), or the proxy `Conn` of router.go around another `WriteCloser`. -/
inductive WriteCloser where
  | net (pending : NetStream)
  | Conn (Peeked : Option (List Byte)) (WriteCloser : WriteCloser)
deriving DecidableEq, Repr

/-- The bytes a connection still delivers to its reader. -/
def WriteCloser.content : WriteCloser → List Byte
  | .net s => NetStream.content s
  | .Conn Peeked w => Peeked.getD [] ++ w.content

/-- Go `len` of a byte slice. -/
def len : Option (List Byte) → Nat
  | none => 0
  | some l => l.length

/-- Go `s[n:]`. -/
def sliceFrom (s : Option (List Byte)) (n : Nat) : Option (List Byte) :=
  s.map (fun l => l.drop n)

/-- Go `copy(dst, src)`: the new contents of `dst` and the number of bytes copied. -/
def copy (dst src : List Byte) : List Byte × Nat :=
  let n := min dst.length src.length
  (src.take n ++ dst.drop n, n)

/-- What `Read(p)` leaves behind: the contents of `p`, the results `n` and `err`,
and the connection after the call. -/
structure ReadResult where
  p : List Byte
  n : Nat
  err : Option GoError
  conn : WriteCloser
deriving DecidableEq, Repr

/-- The bytes a read delivered: `p[:n]`. -/
def ReadResult.delivered (res : ReadResult) : List Byte := res.p.take res.n

/-- `Conn.Read` (router.go 184-194).  `underlying` is the result of
`c.WriteCloser.Read(p)`, used on the pass-through path only. -/
def Conn.Read (Peeked : Option (List Byte)) (inner : WriteCloser)
    (underlying : ReadResult) (p : List Byte) : ReadResult :=
  if len Peeked > 0 then
    let cp := copy p (Peeked.getD [])
    let n := cp.2
    let Peeked := sliceFrom Peeked n
    let Peeked := if len Peeked = 0 then none else Peeked
    ⟨cp.1, n, none, .Conn Peeked inner⟩
  else
    ⟨underlying.p, underlying.n, underlying.err, .Conn Peeked underlying.conn⟩

/-- `Read` of the interface, by dynamic type. -/
def WriteCloser.Read : WriteCloser → List Byte → ReadResult
  | .net s, p =>
    let res := NetStream.recv s p.length
    ⟨(copy p res.data).1, res.data.length, res.err, .net res.rest⟩
  | .Conn Peeked inner, p => Conn.Read Peeked inner (inner.Read p) p

/-- A sequence of `Read` calls with the given buffers: the bytes delivered, in
order, and the connection afterwards. -/
def readSeq : WriteCloser → List (List Byte) → List Byte × WriteCloser
  | c, [] => ([], c)
  | c, p :: ps =>
    let res := c.Read p
    let tl := readSeq res.conn ps
    (res.delivered ++ tl.1, tl.2)

/-! ## `bufio.Reader`, as far as `Peek` goes -/

namespace bufio

/-- The fields of a `bufio.Reader`.  `buf` is the filled part `b.buf[0:b.w]` of the
buffer (so `b.w = buf.length`), `size` is `len(b.buf)`, `r` the read position. -/
structure Reader where
  buf : List Byte
  r : Nat
  size : Nat
  err : Option GoError
  rd : WriteCloser
deriving DecidableEq, Repr

/-- The buffer size `bufio.NewReader` uses. -/
def defaultBufSize : Nat := 4096

/-- The number of empty reads `fill` tolerates. -/
def maxConsecutiveEmptyReads : Nat := 100

/-- `bufio.NewReader(rd)`. -/
def NewReader (rd : WriteCloser) : Reader := ⟨[], 0, defaultBufSize, none, rd⟩

/-- `b.Buffered()`: `b.w - b.r`. -/
def Reader.Buffered (b : Reader) : Nat := b.buf.length - b.r

/-- The buffered, unread bytes `b.buf[b.r:b.w]`. -/
def Reader.unread (b : Reader) : List Byte := b.buf.drop b.r

/-- The read loop of `fill`: up to `i` reads into `b.buf[b.w:]`, stopping at the
first error or the first read that brings data, else `io.ErrNoProgress`. -/
def Reader.fillLoop : Nat → Reader → Reader
  | 0, b => { b with err := some GoError.ErrNoProgress }
  | i + 1, b =>
    let res := b.rd.Read (List.replicate (b.size - b.buf.length) 0)
    let b1 : Reader := { b with buf := b.buf ++ res.delivered, rd := res.conn }
    match res.err with
    | some e => { b1 with err := some e }
    | none => if res.n > 0 then b1 else Reader.fillLoop i b1

/-- `b.fill()`: slide the unread bytes to the front, then read new data.  (`Peek`
calls it only when the buffer is not full.) -/
def Reader.fill (b : Reader) : Reader :=
  let b0 : Reader := if b.r > 0 then { b with buf := b.buf.drop b.r, r := 0 } else b
  Reader.fillLoop maxConsecutiveEmptyReads b0

/-- `b.readErr()`: the pending error, which it clears. -/
def Reader.readErr (b : Reader) : Option GoError × Reader := (b.err, { b with err := none })

/-- The loop of `Peek`: fill while fewer than `n` bytes are buffered, the buffer
is not full and no error is pending.  Each `fill` buffers a byte or leaves an
error, so `size + 1` rounds always suffice (`peekLoop_done`). -/
def Reader.peekLoop : Nat → Nat → Reader → Reader
  | 0, _, b => b
  | fuel + 1, n, b =>
    if b.Buffered < n ∧ b.Buffered < b.size ∧ b.err = none then
      Reader.peekLoop fuel n b.fill
    else b

/-- The result of `Peek`: the bytes, the error, the reader afterwards. -/
structure PeekResult where
  bytes : List Byte
  err : Option GoError
  br : Reader
deriving DecidableEq, Repr

/-- `b.Peek(n)` for `n ≥ 0`. -/
def Reader.Peek (b : Reader) (n : Nat) : PeekResult :=
  let b1 := Reader.peekLoop (b.size + 1) n b
  if n > b1.size then ⟨b1.unread, some GoError.ErrBufferFull, b1⟩
  else if b1.Buffered < n then
    let e := b1.readErr
    ⟨b1.unread.take b1.Buffered, some (e.1.getD GoError.ErrBufferFull), e.2⟩
  else ⟨b1.unread.take n, none, b1⟩

end bufio

/-! ## The sniffer -/

/-- What the code takes from the Go standard library without this development
looking inside: `strings.ToLower`, and the server name that the `GetConfigForClient`
hook sees when `tls.Server(...).Handshake()` is run on the given bytes (the empty
string when the hook is not reached or the ClientHello carries no name). -/
structure StdLib where
  ToLower : String → String
  handshakeServerName : List Byte → String

/-- The results of `clientHelloServerName`, and the reader after the call. -/
structure SniffResult where
  serverName : String
  tls : Bool
  peeked : List Byte
  br : bufio.Reader
deriving DecidableEq, Repr

/-- `getPeeked` (router.go 240-247). -/
def getPeeked (br : bufio.Reader) : List Byte × bufio.Reader :=
  let res := br.Peek br.Buffered
  match res.err with
  | some _ => ([], res.br)
  | none => (res.bytes, res.br)

/-- The record type of a TLS handshake record. -/
def recordTypeHandshake : Byte := 0x16

/-- The length of a TLS record header. -/
def recordHeaderLen : Nat := 5

/-- `clientHelloServerName` (router.go 199-238).  `hdr[i]` is read with a default
that is never used: `Peek(k)` without error returns `k` bytes. -/
def clientHelloServerName (L : StdLib) (br : bufio.Reader) : SniffResult :=
  let p1 := br.Peek 1
  match p1.err with
  | some _ => ⟨"", false, [], p1.br⟩
  | none =>
    if p1.bytes.getD 0 0 ≠ recordTypeHandshake then
      let g := getPeeked p1.br
      ⟨"", false, g.1, g.2⟩
    else
      let p5 := p1.br.Peek recordHeaderLen
      match p5.err with
      | some _ =>
        let g := getPeeked p5.br
        ⟨"", false, g.1, g.2⟩
      | none =>
        let recLen := (p5.bytes.getD 3 0).toNat <<< 8 ||| (p5.bytes.getD 4 0).toNat
        let ph := p5.br.Peek (recordHeaderLen + recLen)
        match ph.err with
        | some _ =>
          let g := getPeeked ph.br
          ⟨"", true, g.1, g.2⟩
        | none =>
          let sni := L.handshakeServerName ph.bytes
          let g := getPeeked ph.br
          ⟨sni, true, g.1, g.2⟩

/-! ## Handlers and the router -/

/-- A `*tls.Config`, known by its identity only. -/
structure TLSConfig where
  ident : Nat
deriving DecidableEq, Repr

/-- The handlers: one supplied from outside the package (known by its identity),
a `*TLSHandler`, a `*STARTTLSHandler`. -/
inductive Handler where
  | plain (ident : Nat)
  | TLSHandler (Next : Handler) (Config : Option TLSConfig)
  | STARTTLSHandler (Next : Handler) (Config : Option TLSConfig) (Protocol : String)
deriving DecidableEq, Repr

/-- A Go `map[string]α`: `none` is the nil map, else the entries, one per key,
the most recently added key first. -/
abbrev GoMap (α : Type) := Option (List (String × α))

/-- Go `len(m)`. -/
def mapLen {α : Type} : GoMap α → Nat
  | none => 0
  | some l => l.length

/-- Go `v, ok := m[k]`. -/
def mapGet {α : Type} : GoMap α → String → Option α
  | none, _ => none
  | some l, k => l.lookup k

/-- Go `m[k] = v` on a map that is not nil. -/
def mapSet {α : Type} (m : GoMap α) (k : String) (v : α) : GoMap α :=
  some ((k, v) :: (m.getD []).filter (fun e => e.1 ≠ k))

/-- The keys of a map. -/
def mapKeys {α : Type} (m : GoMap α) : List String := (m.getD []).map Prod.fst

/-- The fields of `Router`.  A handler field is `none` when it is nil; the two
`http.Handler` fields are known by identity. -/
structure Router where
  routingTable : GoMap Handler
  httpForwarder : Option Handler
  httpsForwarder : Option Handler
  httpHandler : Option Nat
  httpsHandler : Option Nat
  httpsTLSConfig : Option TLSConfig
  catchAllNoTLS : Option Handler
  hostHTTPTLSConfig : GoMap (Option TLSConfig)
deriving DecidableEq, Repr

/-- The zero value `&Router{}`. -/
def Router.zero : Router := ⟨none, none, none, none, none, none, none, none⟩

/-- What `ServeTCP` does with the connection: it calls `ServeTCP` of a handler on
a connection, or closes the connection. -/
inductive Call where
  | ServeTCP (h : Handler) (conn : WriteCloser)
  | Close (conn : WriteCloser)
deriving DecidableEq, Repr

/-- `Router.GetConn` (router.go 122-129). -/
def Router.GetConn (_r : Router) (conn : WriteCloser) (peeked : List Byte) : WriteCloser :=
  .Conn (some peeked) conn

/-- `Router.ServeTCP` (router.go 28-81): the calls it makes, in order.  After the
sniffer has run, `conn` is the connection as the reads of the sniffer left it. -/
def Router.ServeTCP (L : StdLib) (r : Router) (conn : WriteCloser) : List Call :=
  match (if mapLen r.routingTable = 0 then r.catchAllNoTLS else none) with
  | some h => [Call.ServeTCP h conn]
  | none =>
    let wildcardHandler : Option Handler := mapGet r.routingTable "*"
    let br := bufio.NewReader conn
    let s := clientHelloServerName L br
    let conn := s.br.rd
    if !s.tls then
      match wildcardHandler with
      | some (.STARTTLSHandler nx cfg proto) =>
        [Call.ServeTCP (.STARTTLSHandler nx cfg proto) (r.GetConn conn s.peeked)]
      | _ =>
        match r.catchAllNoTLS with
        | some h => [Call.ServeTCP h (r.GetConn conn s.peeked)]
        | none =>
          match r.httpForwarder with
          | some h => [Call.ServeTCP h (r.GetConn conn s.peeked)]
          | none => [Call.Close conn]
    else
      let serverName := L.ToLower s.serverName
      match (if r.routingTable ≠ none ∧ serverName ≠ "" then
          mapGet r.routingTable serverName else none) with
      | some target => [Call.ServeTCP target (r.GetConn conn s.peeked)]
      | none =>
        match wildcardHandler with
        | some h => [Call.ServeTCP h (r.GetConn conn s.peeked)]
        | none =>
          match r.httpsForwarder with
          | some h => [Call.ServeTCP h (r.GetConn conn s.peeked)]
          | none => [Call.Close conn]

/-- `Router.AddRoute` (router.go 84-89). -/
def Router.AddRoute (L : StdLib) (r : Router) (sniHost : String) (target : Handler) : Router :=
  let r1 : Router := if r.routingTable = none then { r with routingTable := some [] } else r
  { r1 with routingTable := mapSet r1.routingTable (L.ToLower sniHost) target }

/-- `Router.AddRouteTLS` (router.go 92-97). -/
def Router.AddRouteTLS (L : StdLib) (r : Router) (sniHost : String) (target : Handler)
    (config : Option TLSConfig) : Router :=
  r.AddRoute L sniHost (.TLSHandler target config)

/-- `Router.AddRouteSTARTTLS` (router.go 100-106). -/
def Router.AddRouteSTARTTLS (L : StdLib) (r : Router) (sniHost protocol : String)
    (target : Handler) (config : Option TLSConfig) : Router :=
  r.AddRoute L sniHost (.STARTTLSHandler target config protocol)

/-- `Router.AddCatchAllNoTLS` (router.go 117-119). -/
def Router.AddCatchAllNoTLS (r : Router) (handler : Option Handler) : Router :=
  { r with catchAllNoTLS := handler }

/-- `Router.HTTPForwarder` (router.go 142-144). -/
def Router.HTTPForwarder (r : Router) (handler : Option Handler) : Router :=
  { r with httpForwarder := handler }

/-- Whether a handler is a `*STARTTLSHandler` (the type assertion of `ServeTCP`). -/
def Handler.isSTARTTLSHandler : Handler → Bool
  | .STARTTLSHandler _ _ _ => true
  | _ => false

/-- A registration call on the routing table. -/
inductive RouteOp where
  | AddRoute (sniHost : String) (target : Handler)
  | AddRouteTLS (sniHost : String) (target : Handler) (config : Option TLSConfig)
  | AddRouteSTARTTLS (sniHost protocol : String) (target : Handler) (config : Option TLSConfig)
deriving DecidableEq, Repr

/-- The host a registration call names. -/
def RouteOp.sniHost : RouteOp → String
  | .AddRoute h _ => h
  | .AddRouteTLS h _ _ => h
  | .AddRouteSTARTTLS h _ _ _ => h

/-- The router after one registration call. -/
def Router.register (L : StdLib) (r : Router) : RouteOp → Router
  | .AddRoute h t => r.AddRoute L h t
  | .AddRouteTLS h t c => r.AddRouteTLS L h t c
  | .AddRouteSTARTTLS h p t c => r.AddRouteSTARTTLS L h p t c

/-- The router after a sequence of registration calls, made in order. -/
def Router.registerAll (L : StdLib) (r : Router) (ops : List RouteOp) : Router :=
  ops.foldl (Router.register L) r

/-- The handler a registration call stores in the routing table. -/
def RouteOp.stored : RouteOp → Handler
  | .AddRoute _ t => t
  | .AddRouteTLS _ t c => Handler.TLSHandler t c
  | .AddRouteSTARTTLS _ p t c => Handler.STARTTLSHandler t c p

/-! ## Vocabulary of the statements -/

/-- A stream that delivers its bytes without fault: every read brings at least one
byte and no error, until the bytes are exhausted and reads return `io.EOF`.  The
chunking of the bytes into reads is arbitrary. -/
def NetStream.clean (s : NetStream) : Prop := ∀ e ∈ s, e.err = none ∧ e.data ≠ []

instance (s : NetStream) : Decidable (NetStream.clean s) := by
  unfold NetStream.clean; infer_instance

/-- The record length a stream declares in bytes 3 and 4 of its record header. -/
def declaredLen (stream : List Byte) : Nat :=
  (stream.getD 3 0).toNat <<< 8 ||| (stream.getD 4 0).toNat

/-- The reader has consumed nothing (`r = 0`), its buffer is within its size, and
the buffered bytes followed by what the connection still holds are `orig`. -/
def bufio.Reader.Holds (orig : List Byte) (b : bufio.Reader) : Prop :=
  b.r = 0 ∧ b.buf.length ≤ b.size ∧ b.buf ++ b.rd.content = orig

/-- A reader in the state `Holds` with no pending error, over a clean stream. -/
def bufio.Reader.Clean (orig : List Byte) (b : bufio.Reader) : Prop :=
  b.Holds orig ∧ b.err = none ∧ ∃ s, b.rd = WriteCloser.net s ∧ NetStream.clean s

/-- A reader whose connection is a clean stream. -/
def bufio.Reader.OverClean (b : bufio.Reader) : Prop :=
  ∃ s, b.rd = WriteCloser.net s ∧ NetStream.clean s

/-- A proxy `Conn` right over a clean stream. -/
def WriteCloser.CleanConn (c : WriteCloser) : Prop :=
  ∃ pk s, c = WriteCloser.Conn pk (WriteCloser.net s) ∧ NetStream.clean s

/-- Reading a connection to its end, as `io.ReadAll` does: `Read` into a 512-byte
buffer until a read reports an error; the bytes read up to there.  `none` when
`fuel` reads did not reach an error. -/
def readToEnd : Nat → WriteCloser → Option (List Byte)
  | 0, _ => none
  | fuel + 1, c =>
    let res := c.Read (List.replicate 512 0)
    match res.err with
    | some _ => some res.delivered
    | none => (readToEnd fuel res.conn).map (fun tl => res.delivered ++ tl)

/-- The results of the sniffer on a fresh `bufio.NewReader(conn)`, as `ServeTCP`
runs it (router.go 41-42). -/
def sniff (L : StdLib) (conn : WriteCloser) : SniffResult :=
  clientHelloServerName L (bufio.NewReader conn)

/-- The connection `ServeTCP` hands to the handler it chooses after sniffing:
`r.GetConn(conn, peeked)`, with `conn` as the sniffer left it. -/
def Router.handed (L : StdLib) (r : Router) (conn : WriteCloser) : WriteCloser :=
  r.GetConn (sniff L conn).br.rd (sniff L conn).peeked

/-- Whether the fast path of `ServeTCP` applies (router.go 31). -/
def Router.fastPath (r : Router) : Prop := r.catchAllNoTLS ≠ none ∧ mapLen r.routingTable = 0

instance (r : Router) : Decidable r.fastPath := by
  unfold Router.fastPath; infer_instance

/-! ## A reference instance of the library, for the examples

The theorems hold for every `StdLib`.  The examples run the code on concrete
streams, for which they need a concrete one: `strings.ToLower` on ASCII strings,
and the reading of the `server_name` extension out of a ClientHello record (RFC
8446 section 4.1.2, RFC 6066 section 3). -/

/-- Lower case of an ASCII letter. -/
def lowerChar (c : Char) : Char :=
  if 65 ≤ c.toNat ∧ c.toNat ≤ 90 then Char.ofNat (c.toNat + 32) else c

/-- `strings.ToLower` on ASCII strings. -/
def asciiLower (s : String) : String := String.mk (s.data.map lowerChar)

/-- A big-endian 16-bit number. -/
def be16 (a b : Byte) : Nat := a.toNat * 256 + b.toNat

/-- The bytes of an ASCII string, and back. -/
def bytesOf (s : String) : List Byte := s.data.map (fun c => UInt8.ofNat c.toNat)

/-- The string of ASCII bytes. -/
def stringOf (bs : List Byte) : String := String.mk (bs.map (fun b => Char.ofNat b.toNat))

/-- The first host name in the `server_name` extension of a list of extensions. -/
def sniFromExtensions : Nat → List Byte → String
  | 0, _ => ""
  | fuel + 1, t1 :: t2 :: l1 :: l2 :: rest =>
    if be16 t1 t2 = 0 then
      match rest with
      | _ :: _ :: ty :: n1 :: n2 :: name =>
        if ty = 0 then stringOf (name.take (be16 n1 n2)) else ""
      | _ => ""
    else sniFromExtensions fuel (rest.drop (be16 l1 l2))
  | _ + 1, _ => ""

/-- The server name of a ClientHello record: past the record header (5 bytes), the
handshake header (4), the version (2), the random (32), the session id, the cipher
suites and the compression methods, in the extensions. -/
def sniOfClientHello (record : List Byte) : String :=
  if record.getD 0 0 = 0x16 ∧ record.getD 5 0 = 1 then
    match record.drop 43 with
    | sidLen :: r1 =>
      match r1.drop sidLen.toNat with
      | c1 :: c2 :: r2 =>
        match r2.drop (be16 c1 c2) with
        | cmLen :: r3 =>
          match r3.drop cmLen.toNat with
          | e1 :: e2 :: exts => sniFromExtensions exts.length (exts.take (be16 e1 e2))
          | _ => ""
        | _ => ""
      | _ => ""
    | _ => ""
  else ""

/-- The reference instance. -/
def refLib : StdLib := ⟨asciiLower, sniOfClientHello⟩

/-- Two bytes, big-endian. -/
def put16 (n : Nat) : List Byte := [UInt8.ofNat (n / 256), UInt8.ofNat (n % 256)]

/-- A ClientHello record (TLS 1.2, one cipher suite) with the `server_name`
extension for `name`, followed by a padding extension (type 21) of `pad` bytes. -/
def clientHello (name : String) (pad : Nat) : List Byte :=
  let nm := bytesOf name
  let sni : List Byte :=
    [0, 0] ++ put16 (nm.length + 5) ++ put16 (nm.length + 3) ++ [0] ++ put16 nm.length ++ nm
  let padding : List Byte := [0, 21] ++ put16 pad ++ List.replicate pad 0
  let exts := sni ++ padding
  let body : List Byte :=
    [3, 3] ++ List.replicate 32 0 ++ [0] ++ [0, 2, 0, 0x2f] ++ [1, 0] ++ put16 exts.length ++ exts
  let hs : List Byte := [1, 0] ++ put16 body.length ++ body
  [0x16, 3, 1] ++ put16 hs.length ++ hs

/-- A stream that delivers `bytes` in one read. -/
def oneRead (bytes : List Byte) : WriteCloser := WriteCloser.net [⟨bytes, none⟩]

/-- Three handlers from outside the package. -/
def handlerA : Handler := Handler.plain 1

/-- The second one. -/
def handlerB : Handler := Handler.plain 2

/-- The third one. -/
def handlerC : Handler := Handler.plain 3

/-- A record header that announces an empty record: a TLS stream without a name. -/
def emptyRecord : List Byte := [0x16, 3, 1, 0, 0]

/-! ## The deferred TLS configurations -/

/-- `Router.AddRouteHTTPTLS` (router.go 109-114). -/
def Router.AddRouteHTTPTLS (r : Router) (sniHost : String) (config : Option TLSConfig) : Router :=
  let r1 : Router :=
    if r.hostHTTPTLSConfig = none then { r with hostHTTPTLSConfig := some [] } else r
  { r1 with hostHTTPTLSConfig := mapSet r1.hostHTTPTLSConfig sniHost config }

/-- `Router.HTTPSForwarder` (router.go 147-156).  `order` is the order in which
`range r.hostHTTPTLSConfig` visits the entries of the map, which Go leaves
unspecified: a permutation of the entries. -/
def Router.HTTPSForwarder (L : StdLib) (r : Router) (order : List (String × Option TLSConfig))
    (handler : Handler) : Router :=
  let r1 : Router := order.foldl (fun acc e => acc.AddRouteTLS L e.1 handler e.2) r
  { r1 with httpsForwarder := some (Handler.TLSHandler handler r1.httpsTLSConfig) }

/-- `Router.HTTPSHandler` (router.go 164-167). -/
def Router.HTTPSHandler (r : Router) (handler : Option Nat) (config : Option TLSConfig) : Router :=
  { r with httpsHandler := handler, httpsTLSConfig := config }

/-- The router after a sequence of `AddRouteHTTPTLS` calls, made in order. -/
def Router.recordAll (r : Router) (calls : List (String × Option TLSConfig)) : Router :=
  calls.foldl (fun acc e => acc.AddRouteHTTPTLS e.1 e.2) r

/-! ## The STARTTLS negotiation for XMPP (`pkg/tcp/starttls/xmpp.go`)

The decoder `xml.NewDecoder(conn)` is known by the results of its successive
`RawToken` calls; when they are exhausted the input has ended and `RawToken`
returns `io.EOF`.  The writing side of the connection is known by the outcomes of
its successive `Write` calls; the log keeps every `Write` with its outcome, and the
bytes that reached the peer are those of the writes that returned no error.
`clock k` is the reading `time.Now().UnixNano()` of the `k`-th call. -/

namespace starttls

/-- `xml.Name`. -/
structure Name where
  Space : String
  Local : String
deriving DecidableEq, Repr

/-- `xml.Attr`; `Value` is the decoded value of the attribute. -/
structure Attr where
  Name : Name
  Value : String
deriving DecidableEq, Repr

/-- `xml.StartElement`. -/
structure StartElement where
  Name : Name
  Attr : List Attr
deriving DecidableEq, Repr

/-- An `xml.Token`: a start element, or a token of another type (end element,
character data, comment, processing instruction, directive). -/
inductive Token where
  | StartElement (e : StartElement)
  | other
deriving DecidableEq, Repr

/-- One result of `dec.RawToken()`. -/
inductive RawResult where
  | token (t : Token)
  | error (e : GoError)
deriving DecidableEq, Repr

/-- The errors `StartTLS` returns: one passed on from the connection or from the
decoder, or one made by `errors.New` or `fmt.Errorf`, known by its text. -/
inductive Error where
  | conn (e : GoError)
  | New (text : String)
deriving DecidableEq, Repr

/-- One `Write` on the connection: the bytes given, and the error returned. -/
structure WriteEvent where
  data : String
  err : Option GoError
deriving DecidableEq, Repr

/-- The connection as the negotiation sees it. -/
structure PeerConn where
  tokens : List RawResult
  writeErrs : List (Option GoError)
  log : List WriteEvent
deriving DecidableEq, Repr

/-- `conn.Write([]byte(data))`: the next outcome of the script, success when the
script is exhausted. -/
def PeerConn.Write (c : PeerConn) (data : String) : Option GoError × PeerConn :=
  match c.writeErrs with
  | [] => (none, { c with log := c.log ++ [⟨data, none⟩] })
  | o :: rest => (o, { c with writeErrs := rest, log := c.log ++ [⟨data, o⟩] })

/-- The writes that reached the peer, in order. -/
def sentOf (log : List WriteEvent) : List String :=
  (log.filter (fun e => e.err = none)).map (fun e => e.data)

/-- The writes of a connection that reached the peer. -/
def PeerConn.sent (c : PeerConn) : List String := sentOf c.log

/-- The field `state` of `XMPP`. -/
structure State where
  from' : String
  streamId : Int
deriving DecidableEq, Repr

/-- The struct `XMPP`: the connection (with the decoder on it), the state, and the
number of clock readings made so far. -/
structure XMPP where
  conn : PeerConn
  state : State
  ticks : Nat
deriving DecidableEq, Repr

/-- `new(starttls.XMPP)`, before `StartTLS` sets the connection. -/
def XMPP.new : XMPP := ⟨⟨[], [], []⟩, ⟨"", 0⟩, 0⟩

/-- `x.conn.Write`, on the struct. -/
def XMPP.Write (x : XMPP) (data : String) : Option GoError × XMPP :=
  ((x.conn.Write data).1, { x with conn := (x.conn.Write data).2 })

/-- `XMPP.ServerName` (xmpp.go 61-63). -/
def XMPP.ServerName (x : XMPP) : String := x.state.from'

/-- The stream-open tag `startStream` formats, `fromAttr` being `from='...' ` or
empty (xmpp.go 75). -/
def streamOpenTag (id : Int) (fromAttr : String) : String :=
  "<stream:stream id='" ++ toString id ++
    "' version='1.0' xml:lang='en' xmlns:stream='http://etherx.jabber.org/streams' " ++
    fromAttr ++ "xmlns='jabber:client'>"

/-- The `from` attribute `startStream` formats for an identity (xmpp.go 72-74). -/
def fromAttrOf (identity : String) : String :=
  if identity ≠ "" then "from='" ++ identity ++ "' " else ""

/-- The stream-close tag (xmpp.go 89). -/
def streamCloseTag : String := "</stream:stream>"

/-- `XMPP.startStream` (xmpp.go 65-82). -/
def XMPP.startStream (clock : Nat → Int) (x : XMPP) : Option Error × XMPP :=
  if x.state.streamId ≠ 0 then (some (Error.New "stream already started"), x)
  else
    let id := clock x.ticks
    let x1 : XMPP := { x with ticks := x.ticks + 1 }
    let w := x1.Write (streamOpenTag id (fromAttrOf x1.state.from'))
    match w.1 with
    | some e => (some (Error.conn e), w.2)
    | none => (none, { w.2 with state := { w.2.state with streamId := id } })

/-- `XMPP.closeStream` (xmpp.go 84-96). -/
def XMPP.closeStream (x : XMPP) : Option Error × XMPP :=
  if x.state.streamId = 0 then (some (Error.New "stream not started"), x)
  else
    let w := x.Write streamCloseTag
    match w.1 with
    | some e => (some (Error.conn e), w.2)
    | none => (none, { w.2 with state := { w.2.state with streamId := 0 } })

/-- `XMPP.send` (xmpp.go 126-135). -/
def XMPP.send (clock : Nat → Int) (x : XMPP) (data : String) : Option Error × XMPP :=
  if x.state.streamId = 0 then
    let s := x.startStream clock
    match s.1 with
    | some e => (some e, s.2)
    | none => ((s.2.Write data).1.map Error.conn, (s.2.Write data).2)
  else ((x.Write data).1.map Error.conn, (x.Write data).2)

/-- The element `sendError` formats (xmpp.go 119). -/
def streamError (er : String) : String := "<stream:error>" ++ er ++ "</stream:error>"

/-- `XMPP.sendError` (xmpp.go 118-124). -/
def XMPP.sendError (clock : Nat → Int) (x : XMPP) (er : String) : Option Error × XMPP :=
  let s := x.send clock (streamError er)
  match s.1 with
  | some e => (some e, s.2)
  | none => s.2.closeStream

/-- The features element (xmpp.go 99). -/
def featuresElement : String :=
  "<stream:features><starttls xmlns='urn:ietf:params:xml:ns:xmpp-tls'><required/></starttls></stream:features>"

/-- The proceed element (xmpp.go 103). -/
def proceedElement : String := "<proceed xmlns='urn:ietf:params:xml:ns:xmpp-tls'/>"

/-- The condition of `sendErrorNotWellFormed` (xmpp.go 107). -/
def notWellFormed : String := "<not-well-formed xmlns='urn:ietf:params:xml:ns:xmpp-streams'/>"

/-- The condition of `sendErrorImproperAddressing` (xmpp.go 111). -/
def improperAddressing : String :=
  "<improper-addressing xmlns='urn:ietf:params:xml:ns:xmpp-streams'/><text xml:lang='en' xmlns='urn:ietf:params:xml:ns:xmpp-streams'>Missing &apos;to&apos; attribute</text>"

/-- The condition of `sendErrorPolicyViolation` (xmpp.go 115). -/
def policyViolation : String :=
  "<policy-violation xmlns='urn:ietf:params:xml:ns:xmpp-streams'/><text xml:lang='en' xmlns='urn:ietf:params:xml:ns:xmpp-streams'>Use of STARTTLS required</text>"

/-- `XMPP.sendFeatureList` (xmpp.go 98-100). -/
def XMPP.sendFeatureList (clock : Nat → Int) (x : XMPP) : Option Error × XMPP :=
  x.send clock featuresElement

/-- `XMPP.sendProceed` (xmpp.go 102-104). -/
def XMPP.sendProceed (clock : Nat → Int) (x : XMPP) : Option Error × XMPP :=
  x.send clock proceedElement

/-- `XMPP.sendErrorNotWellFormed` (xmpp.go 106-108). -/
def XMPP.sendErrorNotWellFormed (clock : Nat → Int) (x : XMPP) : Option Error × XMPP :=
  x.sendError clock notWellFormed

/-- `XMPP.sendErrorImproperAddressing` (xmpp.go 110-112). -/
def XMPP.sendErrorImproperAddressing (clock : Nat → Int) (x : XMPP) : Option Error × XMPP :=
  x.sendError clock improperAddressing

/-- `XMPP.sendErrorPolicyViolation` (xmpp.go 114-116). -/
def XMPP.sendErrorPolicyViolation (clock : Nat → Int) (x : XMPP) : Option Error × XMPP :=
  x.sendError clock policyViolation

/-- The zero `xml.StartElement`, returned with an error. -/
def StartElement.zero : StartElement := ⟨⟨"", ""⟩, []⟩

/-- The loop of `XMPP.nextElement` (xmpp.go 137-150) over the results `toks` that
`RawToken` still has to give: skip what is not a start element; on an error send
the not-well-formed stream error, whose own result is dropped, and return the
error of the decoder. -/
def XMPP.nextElementLoop (clock : Nat → Int) :
    List RawResult → XMPP → (StartElement × Option Error) × XMPP
  | [], x =>
    ((StartElement.zero, some (Error.conn GoError.EOF)),
      (XMPP.sendErrorNotWellFormed clock { x with conn := { x.conn with tokens := [] } }).2)
  | RawResult.error e :: rest, x =>
    ((StartElement.zero, some (Error.conn e)),
      (XMPP.sendErrorNotWellFormed clock { x with conn := { x.conn with tokens := rest } }).2)
  | RawResult.token (Token.StartElement e) :: rest, x =>
    ((e, none), { x with conn := { x.conn with tokens := rest } })
  | RawResult.token Token.other :: rest, x =>
    XMPP.nextElementLoop clock rest { x with conn := { x.conn with tokens := rest } }

/-- `XMPP.nextElement` (xmpp.go 137-150). -/
def XMPP.nextElement (clock : Nat → Int) (x : XMPP) : (StartElement × Option Error) × XMPP :=
  XMPP.nextElementLoop clock x.conn.tokens x

/-- The loop over the attributes (xmpp.go 36-41): the value of the first
attribute whose local name is `to`, else `from'` as it was. -/
def scanTo : List Attr → String → String
  | [], from' => from'
  | a :: rest, from' => if a.Name.Local = "to" then a.Value else scanTo rest from'

/-- `XMPP.StartTLS` (xmpp.go 22-59). -/
def XMPP.StartTLS (clock : Nat → Int) (x0 : XMPP) (conn : PeerConn) : Option Error × XMPP :=
  let x : XMPP := { x0 with conn := conn }
  let n1 := x.nextElement clock
  match n1.1.2 with
  | some err => (some err, n1.2)
  | none =>
    let e := n1.1.1
    if e.Name.Space ≠ "stream" ∨ e.Name.Local ≠ "stream" then
      (some (Error.New "client sent invalid initial stream header"),
        (n1.2.sendErrorNotWellFormed clock).2)
    else
      let element := e
      let x2 : XMPP :=
        { n1.2 with state := { n1.2.state with from' := scanTo element.Attr n1.2.state.from' } }
      if x2.state.from' = "" then
        (some (Error.New "client did not sent 'to' attribute in initial stream header"),
          (x2.sendErrorImproperAddressing clock).2)
      else
        let f := x2.sendFeatureList clock
        match f.1 with
        | some err => (some err, f.2)
        | none =>
          let n2 := f.2.nextElement clock
          match n2.1.2 with
          | some err => (some err, n2.2)
          | none =>
            if n2.1.1.Name.Local ≠ "starttls" then
              (some (Error.New ("client requested invalid feature '" ++ n2.1.1.Name.Local ++ "'")),
                (n2.2.sendErrorPolicyViolation clock).2)
            else n2.2.sendProceed clock

end starttls

/-! ## The STARTTLS decorator (`pkg/tcp/starttls.go`) -/

/-- `supportedSTARTTLSProtocols` (starttls.go 11). -/
def supportedSTARTTLSProtocols : List String := ["xmpp"]

/-- `IsSTARTTLSProtocolSupported` (starttls.go 14-21). -/
def IsSTARTTLSProtocolSupported (protocol : String) : Bool :=
  supportedSTARTTLSProtocols.any (fun p => p = protocol)

/-- A `*tls.Config` as far as the decorator uses it: the callback `GetCertificate`,
as a function of the `ServerName` of the `ClientHelloInfo` it is given.  The
callback is set: the decorator calls it without a nil check. -/
structure CertConfig (α : Type) where
  GetCertificate : String → α

/-- The fields of `STARTTLSHandler`; `Config` points to a configuration the
decorator shares between the connections it serves. -/
structure STARTTLSHandler (α : Type) where
  Next : Handler
  Config : CertConfig α
  Protocol : String

/-- What `STARTTLSHandler.ServeTCP` leaves: the decorator (with the shared
configuration as the call left it), the connection, and the calls
`s.Next.ServeTCP(tls.Server(conn, s.Config))` made, as the pairs of `Next` and the
connection. -/
structure ServeResult (α : Type) where
  handler : STARTTLSHandler α
  conn : starttls.PeerConn
  next : List (Handler × starttls.PeerConn)

/-- `STARTTLSHandler.ServeTCP` (starttls.go 39-64). -/
def STARTTLSHandler.ServeTCP {α : Type} (clock : Nat → Int) (s : STARTTLSHandler α)
    (conn : starttls.PeerConn) : ServeResult α :=
  if s.Protocol = "xmpp" then
    let protoHandler := starttls.XMPP.StartTLS clock starttls.XMPP.new conn
    match protoHandler.1 with
    | some _ => ⟨s, protoHandler.2.conn, []⟩
    | none =>
      let f := s.Config.GetCertificate
      let config : CertConfig α :=
        ⟨fun serverName =>
          f (if protoHandler.2.ServerName ≠ "" then protoHandler.2.ServerName else serverName)⟩
      ⟨{ s with Config := config }, protoHandler.2.conn, [(s.Next, protoHandler.2.conn)]⟩
  else ⟨s, conn, []⟩

/-- A decorator for XMPP whose original `GetCertificate` reports the server name
it is called with. -/
def echoDecorator : STARTTLSHandler String := ⟨Handler.plain 1, ⟨fun serverName => serverName⟩, "xmpp"⟩

/-- Serving connections one after the other with the same decorator: the
decorator after each, in order of serving. -/
def STARTTLSHandler.serveAll {α : Type} (clock : Nat → Int) :
    STARTTLSHandler α → List starttls.PeerConn → List (ServeResult α)
  | _, [] => []
  | s, c :: cs =>
    (STARTTLSHandler.ServeTCP clock s c) ::
      STARTTLSHandler.serveAll clock (STARTTLSHandler.ServeTCP clock s c).handler cs

/-! ## Vocabulary of the statements on the negotiation -/

namespace starttls

/-- A script of write outcomes in which every `Write` succeeds. -/
def AllOK (we : List (Option GoError)) : Prop := ∀ o ∈ we, o = none

instance (we : List (Option GoError)) : Decidable (AllOK we) := by
  unfold AllOK; infer_instance

/-- Results of `RawToken` that `nextElement` skips: tokens that are not start
elements. -/
def skippable (ts : List RawResult) : Prop := ∀ t ∈ ts, t = RawResult.token Token.other

instance (ts : List RawResult) : Decidable (skippable ts) := by
  unfold skippable; infer_instance

/-- Whether a write is a stream-open tag: it starts with `<stream:stream `. -/
def isStreamOpen (d : String) : Bool := "<stream:stream ".data.isPrefixOf d.data

/-- One step of reading the writes that reached the peer against the opening and
closing of the stream: `some b` when all is in order so far, the stream being open
(`b = true`) or not; `none` once a stream-open tag came while the stream was open
or a stream-close tag while it was not. -/
def bracketStep : Option Bool → String → Option Bool
  | none, _ => none
  | some isOpen, d =>
    if isStreamOpen d then (if isOpen then none else some true)
    else if d = streamCloseTag then (if isOpen then some false else none)
    else some isOpen

/-- The writes read from the start, the stream not being open. -/
def bracket (sent : List String) : Option Bool := sent.foldl bracketStep (some false)

/-- What `StartTLS` writes besides the proceed element: a stream-open tag, one of
its three stream errors, the stream-close tag, the features element. -/
def startTLSData (d : String) : Prop :=
  isStreamOpen d = true ∨ d = streamError notWellFormed ∨ d = streamError improperAddressing ∨
    d = streamError policyViolation ∨ d = streamCloseTag ∨ d = featuresElement

/-- The state of the negotiation agrees with what reached the peer: the writes
are in order, and the stream is open for the peer exactly when `streamId` is not 0. -/
def XMPP.Bracketed (x : XMPP) : Prop :=
  bracket x.conn.sent = some (decide (x.state.streamId ≠ 0))

/-- Whether a write is a stream error element: it starts with `<stream:error>`. -/
def isStreamError (d : String) : Bool := "<stream:error>".data.isPrefixOf d.data

/-- What follows the first occurrence of the marker `m`. -/
def afterMarker (m : List Char) : List Char → Option (List Char)
  | [] => none
  | c :: cs => if m.isPrefixOf (c :: cs) then some ((c :: cs).drop m.length) else afterMarker m cs

/-- The value of the `from` attribute as a reader of the tag finds it: the text
between `from='` and the next single quote (the character 39). -/
def fromValue (tag : String) : Option String :=
  (afterMarker "from='".data tag.data).map
    (fun r => String.mk (r.takeWhile (fun c => c ≠ Char.ofNat 39)))

/-- A start element as `RawToken` gives it. -/
def startTag (space loc : String) (attrs : List Attr) : RawResult :=
  RawResult.token (Token.StartElement ⟨⟨space, loc⟩, attrs⟩)

/-- The opening `<stream:stream to='...' version='1.0' xmlns='jabber:client'
xmlns:stream='...'>` of a client to `dest`, as `RawToken` gives it. -/
def streamHeader (dest : String) : RawResult :=
  startTag "stream" "stream"
    [⟨⟨"", "to"⟩, dest⟩, ⟨⟨"", "version"⟩, "1.0"⟩, ⟨⟨"", "xmlns"⟩, "jabber:client"⟩,
      ⟨⟨"xmlns", "stream"⟩, "http://etherx.jabber.org/streams"⟩]

/-- A client that opens the stream to `dest` and then asks for `starttls`, on a
connection whose writes succeed. -/
def clientFor (dest : String) : PeerConn :=
  ⟨[RawResult.token Token.other, streamHeader dest,
      startTag "" "starttls" [⟨⟨"", "xmlns"⟩, "urn:ietf:params:xml:ns:xmpp-tls"⟩]], [], []⟩

/-- A client that opens the stream without a `to` attribute. -/
def clientWithoutTo : List RawResult :=
  [startTag "stream" "stream" [⟨⟨"", "version"⟩, "1.0"⟩, ⟨⟨"", "xmlns"⟩, "jabber:client"⟩]]

/-- A client that opens the stream to `dest` and then sends an `auth` element. -/
def clientAuth (dest : String) : List RawResult :=
  [streamHeader dest, startTag "" "auth" [⟨⟨"", "mechanism"⟩, "PLAIN"⟩]]

/-- A clock for the examples. -/
def fixedClock : Nat → Int := fun _ => 1730000000000000000

/-- The `to` attribute of a start element: the attribute named `to` without a
prefix (`RawToken` gives an attribute written `p:to` the name of space `p` and local
name `to`, and a namespace declaration `xmlns:to` the name of space `xmlns` and local
name `to`); its value, when the element has one. -/
def toAttribute : List Attr → Option String
  | [] => none
  | a :: rest =>
    if a.Name.Space = "" ∧ a.Name.Local = "to" then some a.Value else toAttribute rest

/-- No attribute with a prefix has the local name `to`. -/
def noPrefixedTo (attrs : List Attr) : Prop :=
  ∀ a ∈ attrs, a.Name.Local = "to" → a.Name.Space = ""

instance (attrs : List Attr) : Decidable (noPrefixedTo attrs) := by
  unfold noPrefixedTo; infer_instance

/-- The bytes that reached the peer: the writes that returned no error, one after
the other. -/
def PeerConn.written (c : PeerConn) : List Char := (c.sent.map String.data).flatten

/-- The number of places of a text at which the text `m` starts. -/
def occurrences (m : List Char) : List Char → Nat
  | [] => 0
  | c :: cs => (if m.isPrefixOf (c :: cs) then 1 else 0) + occurrences m cs

/-- The attributes of the opening
`<stream:stream xmlns:to='urn:x' to='a.example' version='1.0' xmlns='jabber:client'
xmlns:stream='...'>`, as `RawToken` gives them: the declaration of the namespace
prefix `to` comes before the `to` attribute. -/
def attrsPrefixDeclared : List Attr :=
  [⟨⟨"xmlns", "to"⟩, "urn:x"⟩, ⟨⟨"", "to"⟩, "a.example"⟩, ⟨⟨"", "version"⟩, "1.0"⟩,
    ⟨⟨"", "xmlns"⟩, "jabber:client"⟩,
    ⟨⟨"xmlns", "stream"⟩, "http://etherx.jabber.org/streams"⟩]

/-- The attributes of the opening
`<stream:stream xmlns:to='urn:x' version='1.0' xmlns='jabber:client'
xmlns:stream='...'>`: the namespace prefix `to` is declared, and there is no `to`
attribute. -/
def attrsPrefixOnly : List Attr :=
  [⟨⟨"xmlns", "to"⟩, "urn:x"⟩, ⟨⟨"", "version"⟩, "1.0"⟩, ⟨⟨"", "xmlns"⟩, "jabber:client"⟩,
    ⟨⟨"xmlns", "stream"⟩, "http://etherx.jabber.org/streams"⟩]

/-- The attributes of the opening
`<stream:stream xmlns:x='urn:x' x:to='' to='a.example' version='1.0'
xmlns='jabber:client' xmlns:stream='...'>`: an attribute `x:to` with the empty value
comes before the `to` attribute. -/
def attrsEmptyPrefixed : List Attr :=
  [⟨⟨"xmlns", "x"⟩, "urn:x"⟩, ⟨⟨"x", "to"⟩, ""⟩, ⟨⟨"", "to"⟩, "a.example"⟩,
    ⟨⟨"", "version"⟩, "1.0"⟩, ⟨⟨"", "xmlns"⟩, "jabber:client"⟩,
    ⟨⟨"xmlns", "stream"⟩, "http://etherx.jabber.org/streams"⟩]

/-- The element `<starttls xmlns='urn:ietf:params:xml:ns:xmpp-tls'/>`, as `RawToken`
gives it. -/
def starttlsTag : RawResult :=
  startTag "" "starttls" [⟨⟨"", "xmlns"⟩, "urn:ietf:params:xml:ns:xmpp-tls"⟩]

/-- The element `<auth mechanism='PLAIN'/>`, as `RawToken` gives it. -/
def authTag : RawResult := startTag "" "auth" [⟨⟨"", "mechanism"⟩, "PLAIN"⟩]

/-- An identity that holds markup: the value of
`to='a&apos;&gt;&lt;proceed xmlns=&apos;urn:ietf:params:xml:ns:xmpp-tls&apos;/&gt;&lt;x y=&apos;'`
once the decoder has resolved the entities. -/
def identityWithProceed : String :=
  "a'><proceed xmlns='urn:ietf:params:xml:ns:xmpp-tls'/><x y='"

/-- An identity that holds markup: the value of
`to='a&apos;&gt;&lt;stream:stream x=&apos;b'` once the decoder has resolved the
entities. -/
def identityWithStreamOpen : String := "a'><stream:stream x='b"

end starttls

/-! ## Reads deliver the content of a connection, in order -/

theorem NetStream.recv_content (s : NetStream) (k : Nat) :
    (NetStream.recv s k).data ++ NetStream.content (NetStream.recv s k).rest
      = NetStream.content s := by
  cases s with
  | nil => simp [NetStream.recv, NetStream.content]
  | cons e rest =>
    by_cases h : e.data.length ≤ k
    · simp [NetStream.recv, NetStream.content, h]
    · simp only [NetStream.recv, h, if_false, NetStream.content]
      rw [← List.append_assoc, List.take_append_drop]

theorem NetStream.recv_length (s : NetStream) (k : Nat) :
    (NetStream.recv s k).data.length ≤ k := by
  cases s with
  | nil => simp [NetStream.recv]
  | cons e rest =>
    by_cases h : e.data.length ≤ k
    · simp [NetStream.recv, h]
    · simp only [NetStream.recv, h, if_false, List.length_take]
      omega

theorem Read_n_le (c : WriteCloser) (p : List Byte) : (c.Read p).n ≤ p.length := by
  induction c with
  | net s => simpa [WriteCloser.Read] using NetStream.recv_length s p.length
  | Conn pk inner ih =>
    simp only [WriteCloser.Read, Conn.Read]
    split
    · simp only [copy]; omega
    · exact ih

theorem Read_p_length (c : WriteCloser) (p : List Byte) : (c.Read p).p.length = p.length := by
  induction c with
  | net s =>
    have h := NetStream.recv_length s p.length
    simp only [WriteCloser.Read, copy, List.length_append, List.length_take, List.length_drop]
    omega
  | Conn pk inner ih =>
    simp only [WriteCloser.Read, Conn.Read]
    split
    · simp only [copy, List.length_append, List.length_take, List.length_drop]; omega
    · exact ih

theorem delivered_length (c : WriteCloser) (p : List Byte) :
    (c.Read p).delivered.length = (c.Read p).n := by
  have h1 := Read_n_le c p
  have h2 := Read_p_length c p
  simp only [ReadResult.delivered, List.length_take]
  omega

theorem Read_content (c : WriteCloser) (p : List Byte) :
    (c.Read p).delivered ++ (c.Read p).conn.content = c.content := by
  induction c with
  | net s =>
    have h := NetStream.recv_length s p.length
    have hc := NetStream.recv_content s p.length
    simp only [WriteCloser.Read, ReadResult.delivered, copy, WriteCloser.content]
    rw [Nat.min_eq_right h, List.take_of_length_le (le_refl _), List.take_left']
    · exact hc
    · rfl
  | Conn pk inner ih =>
    simp only [WriteCloser.Read, Conn.Read]
    split
    · rename_i hpos
      cases pk with
      | none => simp [len] at hpos
      | some l =>
        simp only [ReadResult.delivered, copy, Option.getD_some, sliceFrom, Option.map_some',
          len, WriteCloser.content]
        rw [List.take_left']
        · split <;> rename_i h0
          · have : l.drop (min p.length l.length) = [] := List.length_eq_zero.mp h0
            rw [← List.append_assoc]
            conv_rhs => rw [← List.take_append_drop (min p.length l.length) l]
            simp [this]
          · simp only [Option.getD_some]
            rw [← List.append_assoc, List.take_append_drop]
        · simp only [List.length_take]; omega
    · rename_i hpos
      have hl : pk.getD [] = [] := by
        cases pk with
        | none => rfl
        | some l =>
          simp only [len, gt_iff_lt, not_lt, Nat.le_zero] at hpos
          simpa using List.length_eq_zero.mp hpos
      simp only [ReadResult.delivered, WriteCloser.content, hl, List.nil_append]
      exact ih

theorem readSeq_content (ps : List (List Byte)) (c : WriteCloser) :
    (readSeq c ps).1 ++ (readSeq c ps).2.content = c.content := by
  induction ps generalizing c with
  | nil => simp [readSeq]
  | cons p ps ih =>
    simp only [readSeq, List.append_assoc]
    rw [ih, Read_content]


namespace bufio

theorem Holds_err {orig : List Byte} {b : Reader} (e : Option GoError)
    (h : b.Holds orig) : ({ b with err := e } : Reader).Holds orig := h

theorem Holds_step {orig : List Byte} {b : Reader} (h : b.Holds orig) :
    ({ b with
        buf := b.buf ++ (b.rd.Read (List.replicate (b.size - b.buf.length) 0)).delivered,
        rd := (b.rd.Read (List.replicate (b.size - b.buf.length) 0)).conn } : Reader).Holds orig := by
  obtain ⟨h0, h1, h2⟩ := h
  have hn := Read_n_le b.rd (List.replicate (b.size - b.buf.length) 0)
  have hd := delivered_length b.rd (List.replicate (b.size - b.buf.length) 0)
  have hc := Read_content b.rd (List.replicate (b.size - b.buf.length) 0)
  simp only [List.length_replicate] at hn
  refine ⟨h0, ?_, ?_⟩
  · simp only [List.length_append]; omega
  · simp only [List.append_assoc]; rw [hc]; exact h2

theorem fillLoop_size (i : Nat) (b : Reader) : (Reader.fillLoop i b).size = b.size := by
  induction i generalizing b with
  | zero => rfl
  | succ i ih =>
    simp only [Reader.fillLoop]
    split
    · rfl
    · split
      · rfl
      · rw [ih]

theorem fillLoop_holds {orig : List Byte} (i : Nat) (b : Reader) (h : b.Holds orig) :
    (Reader.fillLoop i b).Holds orig := by
  induction i generalizing b with
  | zero => exact h
  | succ i ih =>
    simp only [Reader.fillLoop]
    split
    · exact Holds_step h
    · split
      · exact Holds_step h
      · exact ih _ (Holds_step h)

theorem fillLoop_progress (i : Nat) (b : Reader) :
    (Reader.fillLoop i b).err ≠ none ∨ b.buf.length < (Reader.fillLoop i b).buf.length := by
  induction i generalizing b with
  | zero => left; simp [Reader.fillLoop]
  | succ i ih =>
    simp only [Reader.fillLoop]
    split
    · left; simp
    · split
      · rename_i hpos
        right
        have hd := delivered_length b.rd (List.replicate (b.size - b.buf.length) 0)
        simp only [List.length_append]; omega
      · rcases ih { b with
            buf := b.buf ++ (b.rd.Read (List.replicate (b.size - b.buf.length) 0)).delivered,
            rd := (b.rd.Read (List.replicate (b.size - b.buf.length) 0)).conn } with h | h
        · left; exact h
        · right
          simp only [List.length_append] at h
          omega

theorem fill_eq {orig : List Byte} {b : Reader} (h : b.Holds orig) :
    b.fill = Reader.fillLoop maxConsecutiveEmptyReads b := by
  simp [Reader.fill, h.1]

theorem fill_holds {orig : List Byte} {b : Reader} (h : b.Holds orig) : b.fill.Holds orig := by
  rw [fill_eq h]; exact fillLoop_holds _ _ h

theorem fill_size {orig : List Byte} {b : Reader} (h : b.Holds orig) : b.fill.size = b.size := by
  rw [fill_eq h]; exact fillLoop_size _ _

theorem peekLoop_holds {orig : List Byte} (fuel n : Nat) (b : Reader) (h : b.Holds orig) :
    (Reader.peekLoop fuel n b).Holds orig ∧ (Reader.peekLoop fuel n b).size = b.size := by
  induction fuel generalizing b with
  | zero => exact ⟨h, rfl⟩
  | succ fuel ih =>
    simp only [Reader.peekLoop]
    split
    · have := ih _ (fill_holds h)
      exact ⟨this.1, this.2.trans (fill_size h)⟩
    · exact ⟨h, rfl⟩

/-- The fuel of `peekLoop` is never exhausted: when the loop returns, the condition of the
Go loop is false. -/
theorem peekLoop_done {orig : List Byte} (fuel n : Nat) (b : Reader) (h : b.Holds orig)
    (hf : b.size - b.buf.length < fuel) :
    ¬ ((Reader.peekLoop fuel n b).Buffered < n ∧
        (Reader.peekLoop fuel n b).Buffered < (Reader.peekLoop fuel n b).size ∧
        (Reader.peekLoop fuel n b).err = none) := by
  induction fuel generalizing b with
  | zero => omega
  | succ fuel ih =>
    simp only [Reader.peekLoop]
    split
    · rename_i hc
      have hs := fill_size h
      have hh := fill_holds h
      rcases (fill_eq h ▸ fillLoop_progress maxConsecutiveEmptyReads b :
          b.fill.err ≠ none ∨ b.buf.length < b.fill.buf.length) with he | hl
      · cases fuel with
        | zero => simp only [Reader.peekLoop]; intro hcon; exact he hcon.2.2
        | succ f =>
          simp only [Reader.peekLoop]
          have : ¬ (b.fill.Buffered < n ∧ b.fill.Buffered < b.fill.size ∧ b.fill.err = none) :=
            fun hcon => he hcon.2.2
          rw [if_neg this]
          exact this
      · apply ih _ hh
        have hb : b.Buffered < b.size := hc.2.1
        simp only [Reader.Buffered, h.1, Nat.sub_zero] at hb
        omega
    · rename_i hc; exact hc

end bufio

namespace bufio

theorem Holds_unread {orig : List Byte} {b : Reader} (h : b.Holds orig) : b.unread = b.buf := by
  simp [Reader.unread, h.1]

theorem Holds_Buffered {orig : List Byte} {b : Reader} (h : b.Holds orig) :
    b.Buffered = b.buf.length := by
  simp [Reader.Buffered, h.1]

theorem Peek_holds {orig : List Byte} (n : Nat) (b : Reader) (h : b.Holds orig) :
    (b.Peek n).br.Holds orig ∧ (b.Peek n).br.size = b.size := by
  have hl := peekLoop_holds (b.size + 1) n b h
  simp only [Reader.Peek]
  split
  · exact hl
  · split
    · exact hl
    · exact hl

theorem Peek_ok {orig : List Byte} (n : Nat) (b : Reader) (h : b.Holds orig)
    (hok : (b.Peek n).err = none) :
    (b.Peek n).bytes = orig.take n ∧ n ≤ (b.Peek n).br.buf.length ∧ n ≤ orig.length := by
  have hl := (peekLoop_holds (b.size + 1) n b h).1
  have hu := Holds_unread hl
  have hb := Holds_Buffered hl
  simp only [Reader.Peek] at hok ⊢
  split
  · rename_i h1; simp [h1] at hok
  · rename_i h1
    split
    · rename_i h2; simp [h1, h2] at hok
    · rename_i h2
      rw [hb] at h2
      have hlen : n ≤ (Reader.peekLoop (b.size + 1) n b).buf.length := by omega
      refine ⟨?_, hlen, ?_⟩
      · rw [hu, ← hl.2.2, List.take_append_of_le_length hlen]
      · rw [← hl.2.2, List.length_append]; omega

theorem Peek_fail_one {orig : List Byte} (b : Reader) (h : b.Holds orig)
    (hf : (b.Peek 1).err ≠ none) : (b.Peek 1).br.buf = [] := by
  have hl := (peekLoop_holds (b.size + 1) 1 b h).1
  have hb := Holds_Buffered hl
  simp only [Reader.Peek] at hf ⊢
  split
  · rename_i h1
    have := hl.2.1
    show (Reader.peekLoop (b.size + 1) 1 b).buf = []
    exact List.length_eq_zero.mp (by omega)
  · rename_i h1
    split
    · rename_i h2
      rw [hb] at h2
      show (Reader.peekLoop (b.size + 1) 1 b).buf = []
      exact List.length_eq_zero.mp (by omega)
    · rename_i h2; simp [h1, h2] at hf

end bufio

open bufio

theorem getPeeked_eq {orig : List Byte} {b : Reader} (h : b.Holds orig) :
    getPeeked b = (b.buf, b) := by
  have hb := Holds_Buffered h
  have hu := Holds_unread h
  have hloop : Reader.peekLoop (b.size + 1) b.Buffered b = b := by
    simp [Reader.peekLoop]
  have hs := h.2.1
  have hP : b.Peek b.Buffered = ⟨b.buf, none, b⟩ := by
    simp only [Reader.Peek, hloop]
    rw [if_neg (by omega), if_neg (by omega), hu, hb, List.take_of_length_le (le_refl _)]
  simp only [getPeeked, hP]

/-- On every return path the sniffer leaves the reader with the same unread bytes
ahead, none consumed, and returns what is buffered. -/
theorem sniff_holds (L : StdLib) {orig : List Byte} (b : Reader) (h : b.Holds orig) :
    (clientHelloServerName L b).br.Holds orig ∧
      (clientHelloServerName L b).peeked = (clientHelloServerName L b).br.buf := by
  have h1 := (Peek_holds 1 b h).1
  simp only [clientHelloServerName]
  split
  · rename_i e he
    refine ⟨h1, ?_⟩
    exact (Peek_fail_one b h (by simp [he])).symm
  · split
    · rw [getPeeked_eq h1]; exact ⟨h1, rfl⟩
    · have h5 := (Peek_holds recordHeaderLen _ h1).1
      split
      · rw [getPeeked_eq h5]; exact ⟨h5, rfl⟩
      · have hh := fun n => (Peek_holds n _ h5).1
        split
        · rw [getPeeked_eq (hh _)]; exact ⟨hh _, rfl⟩
        · rw [getPeeked_eq (hh _)]; exact ⟨hh _, rfl⟩

theorem NewReader_holds (conn : WriteCloser) : (NewReader conn).Holds conn.content := by
  refine ⟨rfl, ?_, ?_⟩
  · simp [NewReader]
  · simp [NewReader]



theorem clean_nil : NetStream.clean [] := by
  intro e he; cases he

theorem clean_content_nil {s : NetStream} (hs : NetStream.clean s)
    (h : NetStream.content s = []) : s = [] := by
  cases s with
  | nil => rfl
  | cons e rest =>
    have := (hs e (List.mem_cons_self _ _)).2
    simp only [NetStream.content, List.append_eq_nil] at h
    exact absurd h.1 this

theorem recv_clean {e : ReadEvent} {rest : NetStream} (hs : NetStream.clean (e :: rest))
    {k : Nat} (hk : 0 < k) :
    (NetStream.recv (e :: rest) k).err = none ∧ 0 < (NetStream.recv (e :: rest) k).data.length ∧
      NetStream.clean (NetStream.recv (e :: rest) k).rest := by
  have he := hs e (List.mem_cons_self _ _)
  have hpos : 0 < e.data.length := List.length_pos.mpr he.2
  have hrest : NetStream.clean rest := fun x hx => hs x (List.mem_cons_of_mem _ hx)
  by_cases h : e.data.length ≤ k
  · simp only [NetStream.recv, h, if_true]
    exact ⟨he.1, hpos, hrest⟩
  · simp only [NetStream.recv, h, if_false, List.length_take]
    refine ⟨trivial, by omega, ?_⟩
    intro x hx
    rcases List.mem_cons.mp hx with rfl | hx
    · refine ⟨he.1, ?_⟩
      apply List.ne_nil_of_length_pos
      simp only [List.length_drop]; omega
    · exact hrest x hx

namespace bufio

theorem fillLoop_clean {orig : List Byte} (k : Nat) (b : Reader) (h : b.Clean orig)
    (hroom : b.buf.length < b.size) (hk0 : 0 < k) :
    ((Reader.fillLoop k b).Clean orig ∧
        b.buf.length < (Reader.fillLoop k b).buf.length) ∨
      ((Reader.fillLoop k b).err = some GoError.EOF ∧
        (Reader.fillLoop k b).buf = b.buf ∧ b.buf = orig ∧
        (Reader.fillLoop k b).Holds orig ∧
        (Reader.fillLoop k b).rd = WriteCloser.net []) := by
  obtain ⟨i, rfl⟩ : ∃ i, k = i + 1 := ⟨k - 1, by omega⟩
  obtain ⟨hh, herr, s, hrd, hs⟩ := h
  have hH := fillLoop_holds (i + 1) b hh
  cases s with
  | nil =>
    right
    have hbuf : b.buf = orig := by
      have := hh.2.2
      rw [hrd] at this
      simpa [WriteCloser.content, NetStream.content] using this
    refine ⟨?_, ?_, hbuf, hH, ?_⟩ <;>
      simp [Reader.fillLoop, hrd, WriteCloser.Read, NetStream.recv, ReadResult.delivered]
  | cons e rest =>
    left
    have hk : 0 < b.size - b.buf.length := by omega
    obtain ⟨r1, r2, r3⟩ := recv_clean hs hk
    have hn : (b.rd.Read (List.replicate (b.size - b.buf.length) 0)).n
        = (NetStream.recv (e :: rest) (b.size - b.buf.length)).data.length := by
      simp [hrd, WriteCloser.Read]
    have he : (b.rd.Read (List.replicate (b.size - b.buf.length) 0)).err = none := by
      simp [hrd, WriteCloser.Read, r1]
    have hc : (b.rd.Read (List.replicate (b.size - b.buf.length) 0)).conn
        = WriteCloser.net (NetStream.recv (e :: rest) (b.size - b.buf.length)).rest := by
      simp [hrd, WriteCloser.Read]
    have hd := delivered_length b.rd (List.replicate (b.size - b.buf.length) 0)
    have hfl : Reader.fillLoop (i + 1) b = { b with
        buf := b.buf ++ (b.rd.Read (List.replicate (b.size - b.buf.length) 0)).delivered,
        rd := (b.rd.Read (List.replicate (b.size - b.buf.length) 0)).conn } := by
      simp only [Reader.fillLoop, he]
      rw [if_pos (by omega)]
    rw [hfl] at hH ⊢
    refine ⟨⟨hH, herr, _, hc, r3⟩, ?_⟩
    simp only [List.length_append]; omega

theorem peekLoop_clean {orig : List Byte} (fuel n : Nat) (b : Reader) (h : b.Clean orig)
    (hf : b.size - b.buf.length < fuel) :
    ((Reader.peekLoop fuel n b).Clean orig ∧
        (n ≤ (Reader.peekLoop fuel n b).buf.length ∨
          (Reader.peekLoop fuel n b).size ≤ (Reader.peekLoop fuel n b).buf.length)) ∨
      ((Reader.peekLoop fuel n b).err = some GoError.EOF ∧
        (Reader.peekLoop fuel n b).buf = orig ∧ (Reader.peekLoop fuel n b).buf.length < n ∧
        (Reader.peekLoop fuel n b).Holds orig ∧
        (Reader.peekLoop fuel n b).rd = WriteCloser.net []) := by
  induction fuel generalizing b with
  | zero => omega
  | succ fuel ih =>
    have hB := Holds_Buffered h.1
    simp only [Reader.peekLoop]
    split
    · rename_i hc
      rw [hB] at hc
      have hfe := fill_eq h.1
      rcases fillLoop_clean maxConsecutiveEmptyReads b h hc.2.1 (by decide) with ⟨hcl, hgrow⟩ | ⟨he, hb, hbo, hH, hrd⟩
      · rw [hfe]
        have hsz : (Reader.fillLoop maxConsecutiveEmptyReads b).size = b.size := fillLoop_size _ _
        apply ih _ hcl
        have : b.buf.length < (Reader.fillLoop maxConsecutiveEmptyReads b).buf.length := hgrow
        omega
      · right
        rw [hfe]
        have hstop : Reader.peekLoop fuel n (Reader.fillLoop maxConsecutiveEmptyReads b)
            = Reader.fillLoop maxConsecutiveEmptyReads b := by
          have he2 : (Reader.fillLoop maxConsecutiveEmptyReads b).err = some GoError.EOF := he
          cases fuel with
          | zero => rfl
          | succ f => simp [Reader.peekLoop, he2]
        rw [hstop]
        have hb2 : (Reader.fillLoop maxConsecutiveEmptyReads b).buf = b.buf := hb
        refine ⟨he, hb2.trans hbo, ?_, hH, hrd⟩
        rw [hb2]; exact hc.1
    · rename_i hc
      left
      refine ⟨h, ?_⟩
      rw [hB] at hc
      have := h.2.1
      by_cases h1 : n ≤ b.buf.length
      · exact Or.inl h1
      · right
        by_contra h2
        exact hc ⟨by omega, by omega, this⟩

theorem Peek_clean {orig : List Byte} (n : Nat) (b : Reader) (h : b.Clean orig)
    (hn : n ≤ b.size) :
    (b.Peek n).br.Clean orig ∧
      (n ≤ orig.length → (b.Peek n).err = none ∧ (b.Peek n).bytes = orig.take n) ∧
      (orig.length < n → (b.Peek n).err = some GoError.EOF ∧ (b.Peek n).br.buf = orig) := by
  have hsz := (peekLoop_holds (b.size + 1) n b h.1).2
  rcases peekLoop_clean (b.size + 1) n b h (by omega) with ⟨hcl, hlen⟩ | ⟨he, hb, hlt, hH, hrd⟩
  · have hB := Holds_Buffered hcl.1
    have hge : n ≤ (Reader.peekLoop (b.size + 1) n b).buf.length := by
      rcases hlen with h1 | h1
      · exact h1
      · omega
    have hP : b.Peek n = ⟨(Reader.peekLoop (b.size + 1) n b).unread.take n, none,
        Reader.peekLoop (b.size + 1) n b⟩ := by
      simp only [Reader.Peek]
      rw [if_neg (by omega), if_neg (by omega)]
    have hol : n ≤ orig.length := by
      rw [← hcl.1.2.2, List.length_append]; omega
    refine ⟨by rw [hP]; exact hcl, fun _ => ⟨by rw [hP], ?_⟩, fun hlt => by omega⟩
    exact (Peek_ok n b h.1 (by rw [hP])).1
  · have hB := Holds_Buffered hH
    have hP : b.Peek n = ⟨(Reader.peekLoop (b.size + 1) n b).unread.take
          (Reader.peekLoop (b.size + 1) n b).Buffered, some GoError.EOF,
        { Reader.peekLoop (b.size + 1) n b with err := none }⟩ := by
      simp only [Reader.Peek, Reader.readErr]
      rw [if_neg (by omega), if_pos (by omega), he]
      rfl
    have hol : orig.length < n := by rw [← hb]; exact hlt
    refine ⟨?_, fun hle => by omega, fun _ => ⟨by rw [hP], by rw [hP]; exact hb⟩⟩
    rw [hP]
    exact ⟨Holds_err none hH, rfl, [], hrd, clean_nil⟩

theorem Peek_too_big {orig : List Byte} (n : Nat) (b : Reader) (h : b.Holds orig)
    (hn : b.size < n) : (b.Peek n).err = some GoError.ErrBufferFull := by
  have hsz := (peekLoop_holds (b.size + 1) n b h).2
  simp only [Reader.Peek]
  rw [if_pos (by omega)]

theorem NewReader_clean {s : NetStream} (hs : NetStream.clean s) :
    (NewReader (.net s)).Clean (NetStream.content s) :=
  ⟨NewReader_holds (.net s), rfl, s, rfl, hs⟩

end bufio

open bufio

theorem getD_take5 (l : List Byte) (i : Nat) (hi : i < 5) :
    (l.take 5).getD i 0 = l.getD i 0 := by
  simp [List.getD_eq_getElem?_getD, List.getElem?_take, hi]

theorem sniff_clean_empty (L : StdLib) (b : Reader) (h : b.Clean []) (hsz : 5 ≤ b.size) :
    (clientHelloServerName L b).serverName = "" ∧ (clientHelloServerName L b).tls = false ∧
      (clientHelloServerName L b).peeked = [] := by
  have h1 := (Peek_clean 1 b h (by omega)).2.2 (by simp)
  have e : clientHelloServerName L b = ⟨"", false, [], (b.Peek 1).br⟩ := by
    simp only [clientHelloServerName, h1.1]
  rw [e]; exact ⟨rfl, rfl, rfl⟩

theorem sniff_clean_not16 (L : StdLib) (b : Reader) (x : Byte) (t : List Byte)
    (h : b.Clean (x :: t)) (hsz : 5 ≤ b.size) (hx : x ≠ recordTypeHandshake) :
    (clientHelloServerName L b).serverName = "" ∧ (clientHelloServerName L b).tls = false ∧
      (clientHelloServerName L b).peeked ≠ [] := by
  have h1 := (Peek_clean 1 b h (by omega)).2.1 (by simp)
  have hk := Peek_ok 1 b h.1 h1.1
  have hH := (Peek_holds 1 b h.1).1
  have hb : (b.Peek 1).bytes.getD 0 0 ≠ recordTypeHandshake := by
    rw [h1.2]; simpa using hx
  have e : clientHelloServerName L b = ⟨"", false, (b.Peek 1).br.buf, (b.Peek 1).br⟩ := by
    simp only [clientHelloServerName, h1.1, getPeeked_eq hH]
    rw [if_pos hb]
  rw [e]
  refine ⟨rfl, rfl, ?_⟩
  apply List.ne_nil_of_length_pos
  exact hk.2.1

theorem sniff_clean_short (L : StdLib) (b : Reader) (t : List Byte)
    (h : b.Clean (recordTypeHandshake :: t)) (hsz : 5 ≤ b.size) (hlen : t.length < 4) :
    (clientHelloServerName L b).serverName = "" ∧ (clientHelloServerName L b).tls = false ∧
      (clientHelloServerName L b).peeked = recordTypeHandshake :: t := by
  have h1c := (Peek_clean 1 b h (by omega)).1
  have h1 := (Peek_clean 1 b h (by omega)).2.1 (by simp)
  have h1sz := (Peek_holds 1 b h.1).2
  have hb : ¬ (b.Peek 1).bytes.getD 0 0 ≠ recordTypeHandshake := by
    rw [h1.2]; simp
  have h5 := (Peek_clean 5 _ h1c (by omega)).2.2 (by simp only [List.length_cons]; omega)
  have h5H := (Peek_holds 5 _ h1c.1).1
  have e : clientHelloServerName L b
      = ⟨"", false, ((b.Peek 1).br.Peek 5).br.buf, ((b.Peek 1).br.Peek 5).br⟩ := by
    simp only [clientHelloServerName, h1.1]
    rw [if_neg hb]
    simp only [recordHeaderLen, h5.1, getPeeked_eq h5H]
  rw [e]
  exact ⟨rfl, rfl, h5.2⟩

theorem sniff_clean_tls (L : StdLib) (b : Reader) (t : List Byte)
    (h : b.Clean (recordTypeHandshake :: t)) (hsz : 5 ≤ b.size) (hlen : 4 ≤ t.length) :
    (clientHelloServerName L b).tls = true ∧
      (5 + declaredLen (recordTypeHandshake :: t) ≤ b.size →
        5 + declaredLen (recordTypeHandshake :: t) ≤ t.length + 1 →
        (clientHelloServerName L b).serverName = L.handshakeServerName
          ((recordTypeHandshake :: t).take (5 + declaredLen (recordTypeHandshake :: t)))) ∧
      (b.size < 5 + declaredLen (recordTypeHandshake :: t) ∨
          t.length + 1 < 5 + declaredLen (recordTypeHandshake :: t) →
        (clientHelloServerName L b).serverName = "") := by
  have h1c := (Peek_clean 1 b h (by omega)).1
  have h1 := (Peek_clean 1 b h (by omega)).2.1 (by simp)
  have h1sz := (Peek_holds 1 b h.1).2
  have hb : ¬ (b.Peek 1).bytes.getD 0 0 ≠ recordTypeHandshake := by
    rw [h1.2]; simp
  have h5c := (Peek_clean 5 _ h1c (by omega)).1
  have h5 := (Peek_clean 5 _ h1c (by omega)).2.1 (by simp only [List.length_cons]; omega)
  have h5sz := (Peek_holds 5 _ h1c.1).2
  have hrl : ((((b.Peek 1).br.Peek 5).bytes.getD 3 0).toNat <<< 8 |||
        (((b.Peek 1).br.Peek 5).bytes.getD 4 0).toNat)
      = declaredLen (recordTypeHandshake :: t) := by
    rw [h5.2]
    simp only [declaredLen]
    rw [getD_take5 _ 3 (by omega), getD_take5 _ 4 (by omega)]
  have e : clientHelloServerName L b =
      match (((b.Peek 1).br.Peek 5).br.Peek (5 + declaredLen (recordTypeHandshake :: t))).err with
      | some _ => ⟨"", true,
          (getPeeked (((b.Peek 1).br.Peek 5).br.Peek
            (5 + declaredLen (recordTypeHandshake :: t))).br).1,
          (getPeeked (((b.Peek 1).br.Peek 5).br.Peek
            (5 + declaredLen (recordTypeHandshake :: t))).br).2⟩
      | none => ⟨L.handshakeServerName (((b.Peek 1).br.Peek 5).br.Peek
            (5 + declaredLen (recordTypeHandshake :: t))).bytes, true,
          (getPeeked (((b.Peek 1).br.Peek 5).br.Peek
            (5 + declaredLen (recordTypeHandshake :: t))).br).1,
          (getPeeked (((b.Peek 1).br.Peek 5).br.Peek
            (5 + declaredLen (recordTypeHandshake :: t))).br).2⟩ := by
    simp only [clientHelloServerName, h1.1]
    rw [if_neg hb]
    simp only [recordHeaderLen, h5.1, hrl]
  rw [e]
  refine ⟨?_, ?_, ?_⟩
  · split <;> rfl
  · intro hfit hall
    have hp := (Peek_clean (5 + declaredLen (recordTypeHandshake :: t)) _ h5c
      (by omega)).2.1 (by simp only [List.length_cons]; omega)
    simp only [hp.1, hp.2]
  · intro hbad
    have hne : (((b.Peek 1).br.Peek 5).br.Peek
        (5 + declaredLen (recordTypeHandshake :: t))).err ≠ none := by
      rcases hbad with hbig | hshort
      · rw [Peek_too_big _ _ h5c.1 (by omega)]; simp
      · by_cases hfit : 5 + declaredLen (recordTypeHandshake :: t) ≤ b.size
        · have hp := (Peek_clean (5 + declaredLen (recordTypeHandshake :: t)) _
            h5c (by omega)).2.2 (by simp only [List.length_cons]; omega)
          rw [hp.1]; simp
        · rw [Peek_too_big _ _ h5c.1 (by omega)]; simp
    split
    · rfl
    · rename_i hnone; exact absurd hnone hne

/-! ## The routing table -/

theorem lookup_filter_ne {α : Type} (k k' : String) (hne : k' ≠ k) (l : List (String × α)) :
    List.lookup k' (l.filter (fun e => e.1 ≠ k)) = List.lookup k' l := by
  induction l with
  | nil => rfl
  | cons e l ih =>
    obtain ⟨a, v⟩ := e
    by_cases ha : a = k
    · subst ha
      have hk : (k' == a) = false := by simpa using hne
      simpa [List.filter_cons, List.lookup_cons, hk] using ih
    · by_cases hk : k' = a
      · subst hk
        simp [List.filter_cons, List.lookup_cons, ha]
      · have hk2 : (k' == a) = false := by simpa using hk
        simpa [List.filter_cons, List.lookup_cons, ha, hk2] using ih

theorem mapGet_mapSet {α : Type} (m : GoMap α) (k k' : String) (v : α) :
    mapGet (mapSet m k v) k' = if k' = k then some v else mapGet m k' := by
  by_cases h : k' = k
  · subst h; simp [mapGet, mapSet, List.lookup_cons]
  · have hk : (k' == k) = false := by simpa using h
    rw [if_neg h]
    cases m with
    | none => simp [mapGet, mapSet, List.lookup_cons, hk]
    | some l =>
      simp only [mapGet, mapSet, List.lookup_cons, hk, Option.getD_some]
      exact lookup_filter_ne k k' h l

theorem mapKeys_mapSet {α : Type} (m : GoMap α) (k : String) (v : α) (x : String)
    (hx : x ∈ mapKeys (mapSet m k v)) : x = k ∨ x ∈ mapKeys m := by
  simp only [mapKeys, mapSet, Option.getD_some, List.map_cons, List.mem_cons, List.mem_map,
    List.mem_filter] at hx ⊢
  rcases hx with h | ⟨e, ⟨he, _⟩, rfl⟩
  · exact Or.inl h
  · exact Or.inr ⟨e, he, rfl⟩

theorem mapLen_pos_of_get {α : Type} (m : GoMap α) (k : String) (v : α)
    (h : mapGet m k = some v) : mapLen m ≠ 0 := by
  cases m with
  | none => simp [mapGet] at h
  | some l =>
    cases l with
    | nil => simp [mapGet] at h
    | cons e l => simp [mapLen]

theorem AddRoute_table (L : StdLib) (r : Router) (h : String) (t : Handler) :
    (r.AddRoute L h t).routingTable = mapSet r.routingTable (L.ToLower h) t := by
  cases hr : r.routingTable with
  | none => simp [Router.AddRoute, hr, mapSet]
  | some l => simp [Router.AddRoute, hr]

theorem register_table (L : StdLib) (r : Router) (op : RouteOp) :
    (r.register L op).routingTable = mapSet r.routingTable (L.ToLower op.sniHost) op.stored := by
  cases op <;>
    simp [Router.register, Router.AddRouteTLS, Router.AddRouteSTARTTLS, AddRoute_table,
      RouteOp.sniHost, RouteOp.stored]

theorem registerAll_get_other (L : StdLib) (ops : List RouteOp) (r : Router) (k : String)
    (hk : ∀ op ∈ ops, L.ToLower op.sniHost ≠ k) :
    mapGet (r.registerAll L ops).routingTable k = mapGet r.routingTable k := by
  induction ops generalizing r with
  | nil => rfl
  | cons op ops ih =>
    simp only [Router.registerAll, List.foldl_cons]
    have := ih (r.register L op) (fun o ho => hk o (List.mem_cons_of_mem _ ho))
    simp only [Router.registerAll] at this
    rw [this, register_table, mapGet_mapSet, if_neg]
    exact fun h => hk op (List.mem_cons_self _ _) h.symm

theorem registerAll_append (L : StdLib) (r : Router) (xs ys : List RouteOp) :
    r.registerAll L (xs ++ ys) = (r.registerAll L xs).registerAll L ys := by
  simp [Router.registerAll, List.foldl_append]

theorem registerAll_last_kept (L : StdLib) (r : Router) (pre post : List RouteOp) (op : RouteOp)
    (hpost : ∀ o ∈ post, L.ToLower o.sniHost ≠ L.ToLower op.sniHost) :
    mapGet (r.registerAll L (pre ++ op :: post)).routingTable (L.ToLower op.sniHost)
      = some op.stored := by
  rw [registerAll_append]
  have : (r.registerAll L pre).registerAll L (op :: post)
      = ((r.registerAll L pre).register L op).registerAll L post := by
    simp [Router.registerAll]
  rw [this, registerAll_get_other L post _ _ hpost, register_table, mapGet_mapSet, if_pos rfl]

theorem registerAll_keys_lower (L : StdLib)
    (hidem : ∀ s, L.ToLower (L.ToLower s) = L.ToLower s) (ops : List RouteOp) (r : Router)
    (hr : ∀ k ∈ mapKeys r.routingTable, L.ToLower k = k) :
    ∀ k ∈ mapKeys (r.registerAll L ops).routingTable, L.ToLower k = k := by
  induction ops generalizing r with
  | nil => exact hr
  | cons op ops ih =>
    simp only [Router.registerAll, List.foldl_cons]
    apply ih (r.register L op)
    intro k hk
    rw [register_table] at hk
    rcases mapKeys_mapSet _ _ _ _ hk with h | h
    · rw [h]; exact hidem _
    · exact hr k h

/-! ## The dispatch of `ServeTCP` -/

theorem fast_none {r : Router} (h : ¬ r.fastPath) :
    (if mapLen r.routingTable = 0 then r.catchAllNoTLS else none) = none := by
  unfold Router.fastPath at h
  by_cases h0 : mapLen r.routingTable = 0
  · rw [if_pos h0]
    by_contra hc
    exact h ⟨hc, h0⟩
  · rw [if_neg h0]

theorem lookup_guard (r : Router) (n : String) :
    (if r.routingTable ≠ none ∧ n ≠ "" then mapGet r.routingTable n else none)
      = if n = "" then none else mapGet r.routingTable n := by
  by_cases hn : n = ""
  · simp [hn]
  · cases hr : r.routingTable with
    | none => simp [hn, mapGet]
    | some l => simp [hn]

theorem ServeTCP_fast (L : StdLib) (r : Router) (conn : WriteCloser) (h : Handler)
    (hc : r.catchAllNoTLS = some h) (h0 : mapLen r.routingTable = 0) :
    r.ServeTCP L conn = [Call.ServeTCP h conn] := by
  simp [Router.ServeTCP, hc, h0]

theorem ServeTCP_tls_eq (L : StdLib) (r : Router) (conn : WriteCloser) (hfast : ¬ r.fastPath)
    (htls : (sniff L conn).tls = true) :
    r.ServeTCP L conn =
      match (if L.ToLower (sniff L conn).serverName = "" then none
          else mapGet r.routingTable (L.ToLower (sniff L conn).serverName)) with
      | some target => [Call.ServeTCP target (r.handed L conn)]
      | none =>
        match mapGet r.routingTable "*" with
        | some h => [Call.ServeTCP h (r.handed L conn)]
        | none =>
          match r.httpsForwarder with
          | some h => [Call.ServeTCP h (r.handed L conn)]
          | none => [Call.Close (sniff L conn).br.rd] := by
  unfold sniff at htls
  simp only [Router.ServeTCP, fast_none hfast, htls, lookup_guard, Router.handed, sniff]
  rfl

theorem ServeTCP_plain_eq (L : StdLib) (r : Router) (conn : WriteCloser) (hfast : ¬ r.fastPath)
    (htls : (sniff L conn).tls = false) :
    r.ServeTCP L conn =
      match mapGet r.routingTable "*" with
      | some (.STARTTLSHandler nx cfg proto) =>
        [Call.ServeTCP (.STARTTLSHandler nx cfg proto) (r.handed L conn)]
      | _ =>
        match r.catchAllNoTLS with
        | some h => [Call.ServeTCP h (r.handed L conn)]
        | none =>
          match r.httpForwarder with
          | some h => [Call.ServeTCP h (r.handed L conn)]
          | none => [Call.Close (sniff L conn).br.rd] := by
  unfold sniff at htls
  simp only [Router.ServeTCP, fast_none hfast, htls, Router.handed, sniff]
  rfl



/-! ## Reading a handed connection to its end -/

theorem read_cleanConn (c : WriteCloser) (hc : c.CleanConn) (p : List Byte) (hp : 0 < p.length) :
    ((c.Read p).err = none ∧ 0 < (c.Read p).delivered.length ∧ (c.Read p).conn.CleanConn) ∨
      ((c.Read p).err ≠ none ∧ c.content = [] ∧ (c.Read p).delivered = []) := by
  obtain ⟨pk, s, rfl, hs⟩ := hc
  have hd := delivered_length (WriteCloser.Conn pk (WriteCloser.net s)) p
  by_cases hpos : len pk > 0
  · left
    cases pk with
    | none => simp [len] at hpos
    | some l =>
      simp only [len] at hpos
      have hn : ((WriteCloser.Conn (some l) (WriteCloser.net s)).Read p).n
          = min p.length l.length := by
        simp [WriteCloser.Read, Conn.Read, len, hpos, copy]
      refine ⟨?_, ?_, ?_⟩
      · simp [WriteCloser.Read, Conn.Read, len, hpos]
      · rw [hd, hn]; omega
      · simp only [WriteCloser.Read, Conn.Read, len, hpos, gt_iff_lt, if_true]
        exact ⟨_, s, rfl, hs⟩
  · have hl : pk.getD [] = [] := by
      cases pk with
      | none => rfl
      | some l =>
        simp only [len, gt_iff_lt, not_lt, Nat.le_zero] at hpos
        simpa using List.length_eq_zero.mp hpos
    cases s with
    | nil =>
      right
      refine ⟨?_, ?_, ?_⟩
      · simp [WriteCloser.Read, Conn.Read, hpos, NetStream.recv]
      · simp [WriteCloser.content, hl, NetStream.content]
      · simp [WriteCloser.Read, Conn.Read, hpos, NetStream.recv, ReadResult.delivered]
    | cons e rest =>
      left
      obtain ⟨r1, r2, r3⟩ := recv_clean hs hp
      have hn : ((WriteCloser.Conn pk (WriteCloser.net (e :: rest))).Read p).n
          = (NetStream.recv (e :: rest) p.length).data.length := by
        simp [WriteCloser.Read, Conn.Read, hpos]
      refine ⟨?_, ?_, ?_⟩
      · simp [WriteCloser.Read, Conn.Read, hpos, r1]
      · rw [hd, hn]; exact r2
      · simp only [WriteCloser.Read, Conn.Read, hpos, if_false]
        exact ⟨_, _, rfl, r3⟩

theorem readToEnd_cleanConn (fuel : Nat) (c : WriteCloser) (hc : c.CleanConn)
    (hf : c.content.length < fuel) : readToEnd fuel c = some c.content := by
  induction fuel generalizing c with
  | zero => omega
  | succ fuel ih =>
    have hcont := Read_content c (List.replicate 512 0)
    rcases read_cleanConn c hc (List.replicate 512 0)
        (by rw [List.length_replicate]; omega) with ⟨he, hpos, hcl⟩ | ⟨he, h0, hd⟩
    · have hlen : (c.Read (List.replicate 512 0)).conn.content.length < fuel := by
        have := congrArg List.length hcont
        simp only [List.length_append] at this
        omega
      simp only [readToEnd, he]
      rw [ih _ hcl hlen, Option.map_some', hcont]
    · simp only [readToEnd]
      split
      · rw [hd, h0]
      · rename_i hnone; exact absurd hnone he

theorem recv_rest_clean (s : NetStream) (hs : NetStream.clean s) (k : Nat) :
    NetStream.clean (NetStream.recv s k).rest := by
  cases s with
  | nil => exact clean_nil
  | cons e rest =>
    have he := hs e (List.mem_cons_self _ _)
    have hrest : NetStream.clean rest := fun x hx => hs x (List.mem_cons_of_mem _ hx)
    by_cases h : e.data.length ≤ k
    · simp only [NetStream.recv, h, if_true]; exact hrest
    · simp only [NetStream.recv, h, if_false]
      intro x hx
      rcases List.mem_cons.mp hx with rfl | hx
      · refine ⟨he.1, ?_⟩
        apply List.ne_nil_of_length_pos
        simp only [List.length_drop]; omega
      · exact hrest x hx

namespace bufio

theorem fillLoop_overClean (i : Nat) (b : Reader) (h : b.OverClean) :
    (Reader.fillLoop i b).OverClean := by
  induction i generalizing b with
  | zero => exact h
  | succ i ih =>
    obtain ⟨s, hrd, hs⟩ := h
    have hstep : ({ b with
        buf := b.buf ++ (b.rd.Read (List.replicate (b.size - b.buf.length) 0)).delivered,
        rd := (b.rd.Read (List.replicate (b.size - b.buf.length) 0)).conn } : Reader).OverClean := by
      refine ⟨(NetStream.recv s (List.replicate (b.size - b.buf.length) (0 : Byte)).length).rest,
        ?_, recv_rest_clean s hs _⟩
      simp [hrd, WriteCloser.Read]
    simp only [Reader.fillLoop]
    split
    · exact hstep
    · split
      · exact hstep
      · exact ih _ hstep

theorem fill_overClean (b : Reader) (h : b.OverClean) : b.fill.OverClean := by
  simp only [Reader.fill]
  apply fillLoop_overClean
  split
  · exact h
  · exact h

theorem peekLoop_overClean (fuel n : Nat) (b : Reader) (h : b.OverClean) :
    (Reader.peekLoop fuel n b).OverClean := by
  induction fuel generalizing b with
  | zero => exact h
  | succ fuel ih =>
    simp only [Reader.peekLoop]
    split
    · exact ih _ (fill_overClean b h)
    · exact h

theorem Peek_overClean (n : Nat) (b : Reader) (h : b.OverClean) : (b.Peek n).br.OverClean := by
  have hl := peekLoop_overClean (b.size + 1) n b h
  simp only [Reader.Peek]
  split
  · exact hl
  · split
    · exact hl
    · exact hl

end bufio

theorem getPeeked_overClean (b : Reader) (h : b.OverClean) : (getPeeked b).2.OverClean := by
  have := Peek_overClean b.Buffered b h
  simp only [getPeeked]
  split
  · exact this
  · exact this

theorem clientHello_overClean (L : StdLib) (b : Reader) (h0 : b.OverClean) :
    (clientHelloServerName L b).br.OverClean := by
  have h1 := Peek_overClean 1 _ h0
  simp only [clientHelloServerName]
  split
  · exact h1
  · split
    · exact getPeeked_overClean _ h1
    · have h5 := Peek_overClean recordHeaderLen _ h1
      split
      · exact getPeeked_overClean _ h5
      · have hh := fun n => getPeeked_overClean _ (Peek_overClean n _ h5)
        split
        · exact hh _
        · exact hh _

theorem sniff_overClean (L : StdLib) (s : NetStream) (hs : NetStream.clean s) :
    (sniff L (WriteCloser.net s)).br.OverClean :=
  clientHello_overClean L _ ⟨s, rfl, hs⟩

theorem handed_content (L : StdLib) (r : Router) (conn : WriteCloser) :
    (r.handed L conn).content = conn.content := by
  have h := sniff_holds L (NewReader conn) (NewReader_holds conn)
  simp only [Router.handed, Router.GetConn, WriteCloser.content, Option.getD_some, sniff]
  rw [h.2]; exact h.1.2.2

theorem handed_cleanConn (L : StdLib) (r : Router) (s : NetStream) (hs : NetStream.clean s) :
    (r.handed L (WriteCloser.net s)).CleanConn := by
  obtain ⟨s1, h1, h2⟩ := sniff_overClean L s hs
  exact ⟨some (sniff L (WriteCloser.net s)).peeked, s1,
    by simp only [Router.handed, Router.GetConn, h1], h2⟩

/-! ## The sniffer on streams that deliver their bytes -/

theorem lowerChar_idem (c : Char) : lowerChar (lowerChar c) = lowerChar c := by
  unfold lowerChar
  by_cases h : 65 ≤ c.toNat ∧ c.toNat ≤ 90
  · rw [if_pos h]
    obtain ⟨h1, h2⟩ := h
    generalize c.toNat = n at h1 h2
    interval_cases n <;> decide
  · rw [if_neg h, if_neg h]

theorem asciiLower_idem (s : String) : asciiLower (asciiLower s) = asciiLower s := by
  simp only [asciiLower, List.map_map]
  congr 1
  apply List.map_congr_left
  intro c _
  exact lowerChar_idem c

theorem NewReader_size (conn : WriteCloser) : (NewReader conn).size = 4096 := rfl

theorem sniff_record (L : StdLib) (s : NetStream) (t : List Byte) (hs : NetStream.clean s)
    (hc : NetStream.content s = recordTypeHandshake :: t) (hlen : 4 ≤ t.length) :
    (sniff L (WriteCloser.net s)).tls = true ∧
      (5 + declaredLen (recordTypeHandshake :: t) ≤ 4096 →
        5 + declaredLen (recordTypeHandshake :: t) ≤ t.length + 1 →
        (sniff L (WriteCloser.net s)).serverName = L.handshakeServerName
          ((recordTypeHandshake :: t).take (5 + declaredLen (recordTypeHandshake :: t)))) ∧
      (4096 < 5 + declaredLen (recordTypeHandshake :: t) ∨
          t.length + 1 < 5 + declaredLen (recordTypeHandshake :: t) →
        (sniff L (WriteCloser.net s)).serverName = "") := by
  have hcl := NewReader_clean hs
  rw [hc] at hcl
  have h := sniff_clean_tls L _ t hcl (by rw [NewReader_size]; omega) hlen
  rw [NewReader_size] at h
  exact h

theorem sniff_prefix (L : StdLib) (conn : WriteCloser) :
    (sniff L conn).peeked <+: conn.content := by
  have h := sniff_holds L (NewReader conn) (NewReader_holds conn)
  refine ⟨(sniff L conn).br.rd.content, ?_⟩
  simp only [sniff]
  rw [h.2]; exact h.1.2.2

theorem sniff_tls_true (L : StdLib) {orig : List Byte} (b : Reader) (h : b.Holds orig)
    (ht : (clientHelloServerName L b).tls = true) :
    orig.head? = some recordTypeHandshake ∧ 5 ≤ orig.length := by
  have h1 := (Peek_holds 1 b h).1
  simp only [clientHelloServerName] at ht
  split at ht
  · simp at ht
  · rename_i he1
    have hk1 := Peek_ok 1 b h he1
    split at ht
    · simp at ht
    · rename_i hb
      split at ht
      · simp at ht
      · rename_i he5
        have hk5 := Peek_ok recordHeaderLen _ h1 he5
        refine ⟨?_, hk5.2.2⟩
        rw [hk1.1] at hb
        cases orig with
        | nil => simp at hk1
        | cons x t =>
          simp only [List.take_succ_cons, List.take_zero, List.getD_cons_zero, ne_eq,
            not_not] at hb
          simp [hb]

theorem sniff_plain_noname (L : StdLib) (b : Reader)
    (ht : (clientHelloServerName L b).tls = false) :
    (clientHelloServerName L b).serverName = "" := by
  simp only [clientHelloServerName] at ht ⊢
  split
  · rfl
  · split
    · rfl
    · split
      · rfl
      · split
        · rfl
        · rename_i _ he1 hb _ he5 _ hep
          simp only [he1, hb, he5, hep, if_false] at ht
          simp at ht

theorem ServeTCP_tls_cases (L : StdLib) (r : Router) (conn : WriteCloser)
    (hfast : ¬ r.fastPath) (htls : (sniff L conn).tls = true) :
    (∀ t, L.ToLower (sniff L conn).serverName ≠ "" →
        mapGet r.routingTable (L.ToLower (sniff L conn).serverName) = some t →
        r.ServeTCP L conn = [Call.ServeTCP t (r.handed L conn)]) ∧
      (∀ w, (L.ToLower (sniff L conn).serverName = "" ∨
          mapGet r.routingTable (L.ToLower (sniff L conn).serverName) = none) →
        mapGet r.routingTable "*" = some w →
        r.ServeTCP L conn = [Call.ServeTCP w (r.handed L conn)]) ∧
      (∀ f, (L.ToLower (sniff L conn).serverName = "" ∨
          mapGet r.routingTable (L.ToLower (sniff L conn).serverName) = none) →
        mapGet r.routingTable "*" = none → r.httpsForwarder = some f →
        r.ServeTCP L conn = [Call.ServeTCP f (r.handed L conn)]) ∧
      ((L.ToLower (sniff L conn).serverName = "" ∨
          mapGet r.routingTable (L.ToLower (sniff L conn).serverName) = none) →
        mapGet r.routingTable "*" = none → r.httpsForwarder = none →
        r.ServeTCP L conn = [Call.Close (sniff L conn).br.rd]) := by
  have heq := ServeTCP_tls_eq L r conn hfast htls
  have hnone : (L.ToLower (sniff L conn).serverName = "" ∨
      mapGet r.routingTable (L.ToLower (sniff L conn).serverName) = none) →
      (if L.ToLower (sniff L conn).serverName = "" then none
        else mapGet r.routingTable (L.ToLower (sniff L conn).serverName)) = none := by
    intro h
    by_cases h0 : L.ToLower (sniff L conn).serverName = ""
    · rw [if_pos h0]
    · rw [if_neg h0]; exact h.resolve_left h0
  refine ⟨?_, ?_, ?_, ?_⟩
  · intro t hne hget
    rw [heq, if_neg hne, hget]
  · intro w h hw
    rw [heq, hnone h, hw]
  · intro f h hw hf
    rw [heq, hnone h, hw, hf]
  · intro h hw hf
    rw [heq, hnone h, hw, hf]

/-! ## The claims -/

/-- C1: on every return path of `clientHelloServerName`, for every connection, the
reader has consumed no byte (its read position is still 0), the returned `peeked`
is exactly what the reader has buffered, and `peeked` followed by the bytes still
unread on the connection is the original stream. -/
theorem clientHelloServerName_consumes_nothing (L : StdLib) (conn : WriteCloser) :
    (clientHelloServerName L (NewReader conn)).br.r = (NewReader conn).r ∧
      (clientHelloServerName L (NewReader conn)).peeked
        = (clientHelloServerName L (NewReader conn)).br.unread ∧
      (clientHelloServerName L (NewReader conn)).peeked.length
        = (clientHelloServerName L (NewReader conn)).br.Buffered ∧
      (clientHelloServerName L (NewReader conn)).peeked
          ++ (clientHelloServerName L (NewReader conn)).br.rd.content
        = conn.content := by
  have h := sniff_holds L (NewReader conn) (NewReader_holds conn)
  refine ⟨h.1.1, ?_, ?_, ?_⟩
  · rw [Holds_unread h.1]; exact h.2
  · rw [Holds_Buffered h.1, h.2]
  · rw [h.2]; exact h.1.2.2

/-- C2: `Conn.Read` on a `Conn` whose `Peeked` is the non-empty `x :: xs` copies the
first `n = min(len(p), len(Peeked))` peeked bytes into `p`, returns `(n, nil)`,
leaves `Peeked` equal to the remaining suffix (nil when nothing remains) and leaves
the underlying connection as it was; with `Peeked` nil or empty it returns what the
`Read` of the underlying connection returns. -/
theorem Conn_Read_spec (x : Byte) (xs : List Byte) (inner : WriteCloser) (p : List Byte) :
    ((WriteCloser.Conn (some (x :: xs)) inner).Read p).n = min p.length (x :: xs).length ∧
      ((WriteCloser.Conn (some (x :: xs)) inner).Read p).err = none ∧
      ((WriteCloser.Conn (some (x :: xs)) inner).Read p).p
        = (x :: xs).take (min p.length (x :: xs).length)
            ++ p.drop (min p.length (x :: xs).length) ∧
      ((WriteCloser.Conn (some (x :: xs)) inner).Read p).conn
        = WriteCloser.Conn
            (if (x :: xs).drop (min p.length (x :: xs).length) = [] then none
              else some ((x :: xs).drop (min p.length (x :: xs).length))) inner ∧
      (WriteCloser.Conn none inner).Read p
        = ⟨(inner.Read p).p, (inner.Read p).n, (inner.Read p).err,
            WriteCloser.Conn none (inner.Read p).conn⟩ ∧
      (WriteCloser.Conn (some []) inner).Read p
        = ⟨(inner.Read p).p, (inner.Read p).n, (inner.Read p).err,
            WriteCloser.Conn (some []) (inner.Read p).conn⟩ := by
  refine ⟨?_, ?_, ?_, ?_, ?_, ?_⟩
  · simp [WriteCloser.Read, Conn.Read, len, copy]
  · simp [WriteCloser.Read, Conn.Read, len]
  · simp [WriteCloser.Read, Conn.Read, len, copy]
  · simp only [WriteCloser.Read, Conn.Read, len, List.length_cons, gt_iff_lt,
      Nat.zero_lt_succ, if_true, copy, Option.getD_some, sliceFrom, Option.map_some',
      List.length_eq_zero]
  · simp [WriteCloser.Read, Conn.Read, len]
  · simp [WriteCloser.Read, Conn.Read, len]

/-- C3: whatever the peeked bytes `b`, the connection `conn` and the buffers of a
sequence of `Read` calls on `GetConn(conn, b)` (empty buffers included), the bytes
returned, concatenated, are a prefix of `b` followed by the bytes of `conn`, and
what was returned followed by what the connection still holds is `b` followed by
the bytes of `conn`: the peeked bytes come first, in order, once. -/
theorem GetConn_reads_replay (r : Router) (conn : WriteCloser) (b : List Byte)
    (ps : List (List Byte)) :
    (readSeq (r.GetConn conn b) ps).1 <+: b ++ conn.content ∧
      (readSeq (r.GetConn conn b) ps).1 ++ (readSeq (r.GetConn conn b) ps).2.content
        = b ++ conn.content := by
  have h := readSeq_content ps (r.GetConn conn b)
  have hc : (r.GetConn conn b).content = b ++ conn.content := by
    simp [Router.GetConn, WriteCloser.content]
  rw [hc] at h
  exact ⟨⟨_, h⟩, h⟩

/-- C4 (the code loses the name of a large ClientHello): the 4097-byte stream made of
one complete, valid ClientHello record for "example.com" (declared length 4092)
decodes to "example.com", and yet, whatever the library instance, the sniffer
classifies it as TLS and returns the empty server name: `Peek(5 + 4092)` exceeds the
4096-byte buffer of `bufio.NewReader` and fails before the decoder is run. -/
theorem large_ClientHello_name_lost :
    sniOfClientHello (clientHello "example.com" 4021) = "example.com" ∧
      (clientHello "example.com" 4021).length = 4097 ∧
      5 + declaredLen (clientHello "example.com" 4021) = 4097 ∧
      (sniff refLib (oneRead (clientHello "example.com" 4021))).serverName = "" ∧
      ∀ L : StdLib, (sniff L (oneRead (clientHello "example.com" 4021))).tls = true ∧
        (sniff L (oneRead (clientHello "example.com" 4021))).serverName = "" := by
  have hc : NetStream.content [⟨clientHello "example.com" 4021, none⟩]
      = recordTypeHandshake :: (clientHello "example.com" 4021).tail := by decide!
  have hcl : NetStream.clean [⟨clientHello "example.com" 4021, none⟩] := by decide!
  have hlen : 4 ≤ (clientHello "example.com" 4021).tail.length := by decide!
  have hbig : 4096 < 5 + declaredLen
      (recordTypeHandshake :: (clientHello "example.com" 4021).tail) := by decide!
  refine ⟨by decide!, by decide!, by decide!, by decide!, fun L => ?_⟩
  have h := sniff_record L _ _ hcl hc hlen
  exact ⟨h.1, h.2.2 (Or.inl hbig)⟩

/-- C5 (as stated, refuted): with routes "" -> A and "*" -> B, a TLS stream without a
server name is classified as TLS with the name "", the key lowercase("") = "" is in
the routing table with handler A, and `ServeTCP` calls the wildcard handler B and
not A. -/
theorem empty_name_skips_exact_route :
    (sniff refLib (oneRead emptyRecord)).tls = true ∧
      (sniff refLib (oneRead emptyRecord)).serverName = "" ∧
      mapGet ((Router.zero.AddRoute refLib "" handlerA).AddRoute refLib "*" handlerB).routingTable
          (refLib.ToLower "") = some handlerA ∧
      ((Router.zero.AddRoute refLib "" handlerA).AddRoute refLib "*" handlerB).ServeTCP refLib
          (oneRead emptyRecord)
        = [Call.ServeTCP handlerB (WriteCloser.Conn (some emptyRecord) (WriteCloser.net []))] ∧
      handlerB ≠ handlerA := by
  refine ⟨by decide!, by decide!, by decide!, by decide!, by decide⟩

/-- C5 (amended): for a connection that the sniffer classifies as TLS (the fast
path not applying) with sniffed name `n`, `ServeTCP` makes exactly one call: to the
handler registered under lowercase(n) when lowercase(n) is not empty and is a key
of the routing table; otherwise to the wildcard handler when one is registered;
otherwise to the HTTPS forwarder when one is installed; otherwise it closes the
connection. -/
theorem ServeTCP_tls_dispatch (L : StdLib) (r : Router) (conn : WriteCloser)
    (hfast : ¬ r.fastPath) (htls : (sniff L conn).tls = true) :
    (∀ t, L.ToLower (sniff L conn).serverName ≠ "" →
        mapGet r.routingTable (L.ToLower (sniff L conn).serverName) = some t →
        r.ServeTCP L conn = [Call.ServeTCP t (r.handed L conn)]) ∧
      (∀ w, (L.ToLower (sniff L conn).serverName = "" ∨
          mapGet r.routingTable (L.ToLower (sniff L conn).serverName) = none) →
        mapGet r.routingTable "*" = some w →
        r.ServeTCP L conn = [Call.ServeTCP w (r.handed L conn)]) ∧
      (∀ f, (L.ToLower (sniff L conn).serverName = "" ∨
          mapGet r.routingTable (L.ToLower (sniff L conn).serverName) = none) →
        mapGet r.routingTable "*" = none → r.httpsForwarder = some f →
        r.ServeTCP L conn = [Call.ServeTCP f (r.handed L conn)]) ∧
      ((L.ToLower (sniff L conn).serverName = "" ∨
          mapGet r.routingTable (L.ToLower (sniff L conn).serverName) = none) →
        mapGet r.routingTable "*" = none → r.httpsForwarder = none →
        r.ServeTCP L conn = [Call.Close (sniff L conn).br.rd]) :=
  ServeTCP_tls_cases L r conn hfast htls

/-- C5, an instance: with route "a.example" -> A and the HTTPS forwarder C, the
ClientHello for "A.Example" goes to A. -/
theorem ServeTCP_tls_dispatch_witness :
    ({ Router.zero.AddRoute refLib "a.example" handlerA with httpsForwarder := some handlerC }
        : Router).ServeTCP refLib (oneRead (clientHello "A.Example" 0))
      = [Call.ServeTCP handlerA
          (({ Router.zero.AddRoute refLib "a.example" handlerA with
            httpsForwarder := some handlerC } : Router).handed refLib
            (oneRead (clientHello "A.Example" 0)))] :=
  (ServeTCP_tls_dispatch refLib _ (oneRead (clientHello "A.Example" 0)) (by decide)
    (by decide!)).1 handlerA (by decide!) (by decide!)

/-- C6: for a connection that the sniffer classifies as not TLS (the fast path not
applying), `ServeTCP` makes exactly one call: to the wildcard handler when there is
one and it is a `*STARTTLSHandler`; otherwise to the no-TLS catch-all when
installed; otherwise to the HTTP forwarder when installed; otherwise it closes the
connection.  So a handler it calls is the STARTTLS wildcard, the catch-all or the
HTTP forwarder: no other wildcard and no exact-host route is called as such. -/
theorem ServeTCP_plain_dispatch (L : StdLib) (r : Router) (conn : WriteCloser)
    (hfast : ¬ r.fastPath) (htls : (sniff L conn).tls = false) :
    (∀ w, mapGet r.routingTable "*" = some w → w.isSTARTTLSHandler = true →
        r.ServeTCP L conn = [Call.ServeTCP w (r.handed L conn)]) ∧
      (∀ h, (∀ w, mapGet r.routingTable "*" = some w → w.isSTARTTLSHandler = false) →
        r.catchAllNoTLS = some h →
        r.ServeTCP L conn = [Call.ServeTCP h (r.handed L conn)]) ∧
      (∀ h, (∀ w, mapGet r.routingTable "*" = some w → w.isSTARTTLSHandler = false) →
        r.catchAllNoTLS = none → r.httpForwarder = some h →
        r.ServeTCP L conn = [Call.ServeTCP h (r.handed L conn)]) ∧
      ((∀ w, mapGet r.routingTable "*" = some w → w.isSTARTTLSHandler = false) →
        r.catchAllNoTLS = none → r.httpForwarder = none →
        r.ServeTCP L conn = [Call.Close (sniff L conn).br.rd]) ∧
      (∀ h c, Call.ServeTCP h c ∈ r.ServeTCP L conn →
        (mapGet r.routingTable "*" = some h ∧ h.isSTARTTLSHandler = true) ∨
          r.catchAllNoTLS = some h ∨ r.httpForwarder = some h) := by
  have heq := ServeTCP_plain_eq L r conn hfast htls
  have hrest : (∀ w, mapGet r.routingTable "*" = some w → w.isSTARTTLSHandler = false) →
      r.ServeTCP L conn =
        match r.catchAllNoTLS with
        | some h => [Call.ServeTCP h (r.handed L conn)]
        | none =>
          match r.httpForwarder with
          | some h => [Call.ServeTCP h (r.handed L conn)]
          | none => [Call.Close (sniff L conn).br.rd] := by
    intro hw
    rw [heq]
    split
    · rename_i nx cfg proto hget
      have := hw _ hget
      simp [Handler.isSTARTTLSHandler] at this
    · rfl
  refine ⟨?_, ?_, ?_, ?_, ?_⟩
  · intro w hw hs
    rw [heq, hw]
    cases w with
    | plain i => simp [Handler.isSTARTTLSHandler] at hs
    | TLSHandler nx cfg => simp [Handler.isSTARTTLSHandler] at hs
    | STARTTLSHandler nx cfg proto => rfl
  · intro h hw hc
    rw [hrest hw, hc]
  · intro h hw hc hf
    rw [hrest hw, hc, hf]
  · intro hw hc hf
    rw [hrest hw, hc, hf]
  · intro h c hmem
    rw [heq] at hmem
    split at hmem
    · rename_i nx cfg proto hget
      simp only [List.mem_singleton, Call.ServeTCP.injEq] at hmem
      left
      rw [hmem.1]
      exact ⟨hget, rfl⟩
    · right
      cases hc : r.catchAllNoTLS with
      | some x =>
        rw [hc] at hmem
        simp only [List.mem_singleton, Call.ServeTCP.injEq] at hmem
        left; rw [hmem.1]
      | none =>
        rw [hc] at hmem
        cases hf : r.httpForwarder with
        | some x =>
          rw [hf] at hmem
          simp only [List.mem_singleton, Call.ServeTCP.injEq] at hmem
          right; rw [hmem.1]
        | none =>
          rw [hf] at hmem
          simp at hmem

/-- C6, an instance: with a TLS-terminating wildcard, an exact-host route and the
HTTP forwarder C, a plain HTTP request goes to C. -/
theorem ServeTCP_plain_dispatch_witness :
    (((Router.zero.AddRouteTLS refLib "*" handlerA none).AddRoute refLib "a.example"
        handlerB).HTTPForwarder (some handlerC)).ServeTCP refLib (oneRead (bytesOf "GET / "))
      = [Call.ServeTCP handlerC
          ((((Router.zero.AddRouteTLS refLib "*" handlerA none).AddRoute refLib "a.example"
            handlerB).HTTPForwarder (some handlerC)).handed refLib
              (oneRead (bytesOf "GET / ")))] :=
  (ServeTCP_plain_dispatch refLib _ (oneRead (bytesOf "GET / ")) (by decide)
    (by decide!)).2.2.1 handlerC (by decide) (by decide) (by decide)

/-- C7: after sniffing, every call `ServeTCP` makes to a handler is on the
connection `GetConn(conn, peeked)`; that connection holds exactly the bytes of the
original stream, the sniffed bytes first; whatever reads are made on it, the bytes
read followed by the bytes left are the original bytes; and on a stream that
delivers its bytes without fault, reading it to the end yields exactly the original
bytes.  In particular a router with the routes "a.example" -> A and "*" -> B (and
any fallbacks), given a stream that starts with a complete ClientHello record for
"b.example", calls B, once, on a connection whose bytes start with that record. -/
theorem handed_conn_replays (L : StdLib) (r : Router) (conn : WriteCloser) :
    (¬ r.fastPath → ∀ h c, Call.ServeTCP h c ∈ r.ServeTCP L conn → c = r.handed L conn) ∧
      r.handed L conn = WriteCloser.Conn (some (sniff L conn).peeked) (sniff L conn).br.rd ∧
      (r.handed L conn).content = conn.content ∧
      (sniff L conn).peeked <+: (r.handed L conn).content ∧
      (∀ ps, (readSeq (r.handed L conn) ps).1 ++ (readSeq (r.handed L conn) ps).2.content
        = conn.content) ∧
      (∀ s, conn = WriteCloser.net s → NetStream.clean s →
        readToEnd (conn.content.length + 1) (r.handed L conn) = some conn.content) ∧
      (∀ (r0 : Router) (A B : Handler) (s : NetStream) (t : List Byte),
        (∀ x ∈ ["a.example", "b.example", "*", ""], L.ToLower x = x) →
        mapLen r0.routingTable = 0 →
        r = (r0.AddRoute L "a.example" A).AddRoute L "*" B →
        conn = WriteCloser.net s → NetStream.clean s →
        NetStream.content s = recordTypeHandshake :: t →
        5 + declaredLen (NetStream.content s) ≤ (NetStream.content s).length →
        L.handshakeServerName
          ((NetStream.content s).take (5 + declaredLen (NetStream.content s))) = "b.example" →
        r.ServeTCP L conn = [Call.ServeTCP B (r.handed L conn)] ∧
          (NetStream.content s).take (5 + declaredLen (NetStream.content s))
            <+: (r.handed L conn).content) := by
  have hcont := handed_content L r conn
  refine ⟨?_, rfl, hcont, ?_, ?_, ?_, ?_⟩
  · intro hfast h c hmem
    cases htls : (sniff L conn).tls with
    | true =>
      rw [ServeTCP_tls_eq L r conn hfast htls] at hmem
      split at hmem
      · simp only [List.mem_singleton, Call.ServeTCP.injEq] at hmem; exact hmem.2
      · split at hmem
        · simp only [List.mem_singleton, Call.ServeTCP.injEq] at hmem; exact hmem.2
        · split at hmem
          · simp only [List.mem_singleton, Call.ServeTCP.injEq] at hmem; exact hmem.2
          · simp at hmem
    | false =>
      rw [ServeTCP_plain_eq L r conn hfast htls] at hmem
      split at hmem
      · simp only [List.mem_singleton, Call.ServeTCP.injEq] at hmem; exact hmem.2
      · split at hmem
        · simp only [List.mem_singleton, Call.ServeTCP.injEq] at hmem; exact hmem.2
        · split at hmem
          · simp only [List.mem_singleton, Call.ServeTCP.injEq] at hmem; exact hmem.2
          · simp at hmem
  · rw [hcont]; exact sniff_prefix L conn
  · intro ps
    rw [readSeq_content, hcont]
  · intro s hs hclean
    subst hs
    rw [← hcont]
    exact readToEnd_cleanConn _ _ (handed_cleanConn L r s hclean) (Nat.lt_succ_self _)
  · intro r0 A B s t hlow h0 hr hconn hclean hc hcomplete hname
    subst hconn
    have hla : L.ToLower "a.example" = "a.example" := hlow _ (by simp)
    have hlb : L.ToLower "b.example" = "b.example" := hlow _ (by simp)
    have hls : L.ToLower "*" = "*" := hlow _ (by simp)
    have hle : L.ToLower "" = "" := hlow _ (by simp)
    have hget0 : ∀ k, mapGet r0.routingTable k = none := by
      intro k
      cases hm : r0.routingTable with
      | none => rfl
      | some l =>
        cases l with
        | nil => rfl
        | cons e l => rw [hm] at h0; simp [mapLen] at h0
    have htab : ∀ k, mapGet r.routingTable k
        = if k = "*" then some B else if k = "a.example" then some A else none := by
      intro k
      rw [hr, AddRoute_table, AddRoute_table, mapGet_mapSet, mapGet_mapSet, hget0, hls, hla]
    have hstar : mapGet r.routingTable "*" = some B := by rw [htab]; rfl
    have hnf : ¬ r.fastPath := fun hf => mapLen_pos_of_get _ _ _ hstar hf.2
    rw [hc] at hcomplete hname ⊢
    have hlen : 4 ≤ t.length := by
      simp only [List.length_cons] at hcomplete; omega
    have hrec := sniff_record L s t hclean hc hlen
    have hsn : (sniff L (WriteCloser.net s)).serverName = "b.example" ∨
        (sniff L (WriteCloser.net s)).serverName = "" := by
      by_cases hfit : 5 + declaredLen (recordTypeHandshake :: t) ≤ 4096
      · left
        rw [hrec.2.1 hfit (by simpa using hcomplete), hname]
      · right
        exact hrec.2.2 (Or.inl (by omega))
    have hdisp := (ServeTCP_tls_cases L r (WriteCloser.net s) hnf hrec.1).2.1 B
    refine ⟨hdisp ?_ hstar, ?_⟩
    · rcases hsn with h | h
      · right
        rw [h, hlb, htab, if_neg (by decide), if_neg (by decide)]
      · left
        rw [h, hle]
    · rw [hcont]
      simp only [WriteCloser.content, hc]
      exact ⟨_, List.take_append_drop _ _⟩

/-- C7, an instance: the router with the routes "a.example" -> A and "*" -> B,
given the ClientHello for "b.example" in one read, calls B on a connection that
reads back, to its end, as that ClientHello. -/
theorem handed_conn_replays_witness :
    ((Router.zero.AddRoute refLib "a.example" handlerA).AddRoute refLib "*" handlerB).ServeTCP
          refLib (oneRead (clientHello "b.example" 0))
        = [Call.ServeTCP handlerB
            (((Router.zero.AddRoute refLib "a.example" handlerA).AddRoute refLib "*"
              handlerB).handed refLib (oneRead (clientHello "b.example" 0)))] ∧
      readToEnd ((oneRead (clientHello "b.example" 0)).content.length + 1)
          (((Router.zero.AddRoute refLib "a.example" handlerA).AddRoute refLib "*"
            handlerB).handed refLib (oneRead (clientHello "b.example" 0)))
        = some (oneRead (clientHello "b.example" 0)).content :=
  ⟨((handed_conn_replays refLib
      ((Router.zero.AddRoute refLib "a.example" handlerA).AddRoute refLib "*" handlerB)
      (oneRead (clientHello "b.example" 0))).2.2.2.2.2.2 Router.zero handlerA handlerB
      [⟨clientHello "b.example" 0, none⟩] (clientHello "b.example" 0).tail
      (by decide) (by decide) rfl rfl (by decide) (by decide) (by decide) (by decide)).1,
    (handed_conn_replays refLib
      ((Router.zero.AddRoute refLib "a.example" handlerA).AddRoute refLib "*" handlerB)
      (oneRead (clientHello "b.example" 0))).2.2.2.2.2.1 [⟨clientHello "b.example" 0, none⟩]
      rfl (by decide)⟩

/-- C8 (as stated, refuted): the hosts "" and "" have the same lower case, the
route "" -> A is registered and nothing is registered after it, a TLS stream
arrives whose sniffed name is "", and `ServeTCP` calls no handler: it closes the
connection. -/
theorem empty_host_route_not_taken :
    refLib.ToLower "" = refLib.ToLower "" ∧
      (sniff refLib (oneRead emptyRecord)).tls = true ∧
      (sniff refLib (oneRead emptyRecord)).serverName = "" ∧
      (Router.zero.AddRoute refLib "" handlerA).ServeTCP refLib (oneRead emptyRecord)
        = [Call.Close (WriteCloser.net [])] := by
  refine ⟨rfl, by decide!, by decide!, by decide!⟩

/-- C8 (amended): for hosts `h` and `n` of the same lower case, that lower case not
being the empty string, after `AddRoute(h, H)` and any later registrations for other
hosts, a TLS connection whose sniffed name is `n` is dispatched to `H`; after any
sequence of `AddRoute`, `AddRouteTLS` and `AddRouteSTARTTLS` calls on a table whose
keys are lower case every key is lower case (`ToLower` being idempotent); and the
table holds, under the lower case of a host, the handler of the last registration
for that lower case. -/
theorem routing_case_insensitive (L : StdLib) :
    (∀ (r : Router) (h n : String) (H : Handler) (ops : List RouteOp) (conn : WriteCloser),
        L.ToLower h = L.ToLower n → L.ToLower n ≠ "" →
        (∀ op ∈ ops, L.ToLower op.sniHost ≠ L.ToLower h) →
        (sniff L conn).tls = true → (sniff L conn).serverName = n →
        ((r.AddRoute L h H).registerAll L ops).ServeTCP L conn
          = [Call.ServeTCP H (((r.AddRoute L h H).registerAll L ops).handed L conn)]) ∧
      ((∀ s, L.ToLower (L.ToLower s) = L.ToLower s) →
        ∀ (r : Router) (ops : List RouteOp),
          (∀ k ∈ mapKeys r.routingTable, L.ToLower k = k) →
          ∀ k ∈ mapKeys (r.registerAll L ops).routingTable, L.ToLower k = k) ∧
      (∀ (r : Router) (pre post : List RouteOp) (op : RouteOp),
        (∀ o ∈ post, L.ToLower o.sniHost ≠ L.ToLower op.sniHost) →
        mapGet (r.registerAll L (pre ++ op :: post)).routingTable (L.ToLower op.sniHost)
          = some op.stored) := by
  refine ⟨?_, ?_, ?_⟩
  · intro r h n H ops conn hhn hne hops htls hname
    have hget : mapGet ((r.AddRoute L h H).registerAll L ops).routingTable (L.ToLower h)
        = some H := by
      rw [registerAll_get_other L ops _ _ hops, AddRoute_table, mapGet_mapSet, if_pos rfl]
    have hnf : ¬ ((r.AddRoute L h H).registerAll L ops).fastPath :=
      fun hf => mapLen_pos_of_get _ _ _ hget hf.2
    apply (ServeTCP_tls_cases L _ conn hnf htls).1 H
    · rw [hname]; exact hne
    · rw [hname, ← hhn]; exact hget
  · intro hidem r ops hr
    exact registerAll_keys_lower L hidem ops r hr
  · intro r pre post op hpost
    exact registerAll_last_kept L r pre post op hpost

/-- C8, an instance: "Example.COM" is registered, then another host; the ClientHello
for "example.com" goes to the handler of "Example.COM", and the keys of the table
are lower case. -/
theorem routing_case_insensitive_witness :
    ((Router.zero.AddRoute refLib "Example.COM" handlerA).registerAll refLib
          [RouteOp.AddRouteTLS "Other.Example" handlerB none]).ServeTCP refLib
          (oneRead (clientHello "example.com" 0))
        = [Call.ServeTCP handlerA
            (((Router.zero.AddRoute refLib "Example.COM" handlerA).registerAll refLib
              [RouteOp.AddRouteTLS "Other.Example" handlerB none]).handed refLib
              (oneRead (clientHello "example.com" 0)))] ∧
      ∀ k ∈ mapKeys (Router.zero.registerAll refLib
          [RouteOp.AddRoute "Example.COM" handlerA,
            RouteOp.AddRouteTLS "Other.Example" handlerB none]).routingTable,
        refLib.ToLower k = k :=
  ⟨(routing_case_insensitive refLib).1 Router.zero "Example.COM" "example.com" handlerA
      [RouteOp.AddRouteTLS "Other.Example" handlerB none] (oneRead (clientHello "example.com" 0))
      (by decide) (by decide) (by decide) (by decide!) (by decide!),
    (routing_case_insensitive refLib).2.1 asciiLower_idem Router.zero _ (by decide)⟩

/-- C9: when the routing table has no entries and the no-TLS catch-all is set,
`ServeTCP` makes one call, to the catch-all, on the connection it was given: not
wrapped, and as it was, no read made on it; whatever the stream holds, whatever
forwarders are installed, whatever the library would decode. -/
theorem ServeTCP_fast_path (L : StdLib) (r : Router) (conn : WriteCloser) (h : Handler)
    (hc : r.catchAllNoTLS = some h) (h0 : mapLen r.routingTable = 0) :
    r.ServeTCP L conn = [Call.ServeTCP h conn] :=
  ServeTCP_fast L r conn h hc h0

/-- C9, an instance: no routes, the catch-all C and an HTTP forwarder; a ClientHello
arrives and goes to C unread. -/
theorem ServeTCP_fast_path_witness :
    ((Router.zero.AddCatchAllNoTLS (some handlerC)).HTTPForwarder (some handlerA)).ServeTCP refLib
        (oneRead (clientHello "example.com" 0))
      = [Call.ServeTCP handlerC (oneRead (clientHello "example.com" 0))] :=
  ServeTCP_fast_path refLib _ _ handlerC (by decide) (by decide)

/-- C10: for every connection, when the sniffer answers `isTLS = true` the first byte
of the stream is 0x16 and the stream has the 5 bytes of a record header; when the
first byte is not 0x16 it returns `("", false, peeked)` with `peeked` a prefix of
the stream; on the empty stream it returns `("", false, "")`; when the stream
starts with 0x16 and ends before 5 bytes it returns `("", false, peeked)` with
`peeked` all that is buffered.  On a stream that delivers its bytes without fault,
moreover, `isTLS = true` exactly when the first byte is 0x16 and the stream has 5
bytes, `peeked` is not empty when the first byte is not 0x16, and `peeked` is the
whole stream when it starts with 0x16 and ends before 5 bytes. -/
theorem sniff_classification (L : StdLib) (conn : WriteCloser) :
    ((sniff L conn).tls = true →
        conn.content.head? = some recordTypeHandshake ∧ 5 ≤ conn.content.length) ∧
      (∀ x t, conn.content = x :: t → x ≠ recordTypeHandshake →
        (sniff L conn).serverName = "" ∧ (sniff L conn).tls = false ∧
          (sniff L conn).peeked <+: conn.content) ∧
      (conn.content = [] →
        (sniff L conn).serverName = "" ∧ (sniff L conn).tls = false ∧
          (sniff L conn).peeked = []) ∧
      (∀ t, conn.content = recordTypeHandshake :: t → conn.content.length < 5 →
        (sniff L conn).serverName = "" ∧ (sniff L conn).tls = false ∧
          (sniff L conn).peeked = (sniff L conn).br.unread) ∧
      (∀ s, conn = WriteCloser.net s → NetStream.clean s →
        ((sniff L conn).tls = true ↔
          conn.content.head? = some recordTypeHandshake ∧ 5 ≤ conn.content.length) ∧
        (∀ x t, conn.content = x :: t → x ≠ recordTypeHandshake →
          (sniff L conn).peeked ≠ []) ∧
        (∀ t, conn.content = recordTypeHandshake :: t → conn.content.length < 5 →
          (sniff L conn).peeked = conn.content)) := by
  have hpre := sniff_prefix L conn
  have hH := sniff_holds L (NewReader conn) (NewReader_holds conn)
  have htrue := sniff_tls_true L (NewReader conn) (NewReader_holds conn)
  have hplain : (sniff L conn).tls = false → (sniff L conn).serverName = "" :=
    sniff_plain_noname L (NewReader conn)
  have hfalse : ¬ (conn.content.head? = some recordTypeHandshake ∧ 5 ≤ conn.content.length) →
      (sniff L conn).tls = false := by
    intro hn
    cases ht : (sniff L conn).tls with
    | false => rfl
    | true => exact absurd (htrue ht) hn
  refine ⟨htrue, ?_, ?_, ?_, ?_⟩
  · intro x t hc hx
    have hf := hfalse (by rw [hc]; simpa using fun h => absurd h hx)
    exact ⟨hplain hf, hf, hpre⟩
  · intro hc
    have hf := hfalse (by rw [hc]; simp)
    refine ⟨hplain hf, hf, ?_⟩
    rw [hc] at hpre
    exact List.eq_nil_of_length_eq_zero (by
      obtain ⟨u, hu⟩ := hpre
      have := congrArg List.length hu
      simp only [List.length_append, List.length_nil] at this
      omega)
  · intro t hc hlen
    have hf := hfalse (by omega)
    exact ⟨hplain hf, hf, hH.2.trans (Holds_unread hH.1).symm⟩
  · intro s hconn hs
    subst hconn
    have hcl := NewReader_clean hs
    have hsz : 5 ≤ (NewReader (WriteCloser.net s)).size := by rw [NewReader_size]; omega
    refine ⟨⟨htrue, ?_⟩, ?_, ?_⟩
    · intro hh
      cases hc : NetStream.content s with
      | nil =>
        have h5 := hh.2
        simp only [WriteCloser.content, hc, List.length_nil] at h5
        omega
      | cons x t =>
        have h1 := hh.1
        have h5 := hh.2
        simp only [WriteCloser.content, hc, List.head?_cons, Option.some.injEq,
          List.length_cons] at h1 h5
        subst h1
        exact (sniff_record L s t hs hc (by omega)).1
    · intro x t hc hx
      have hc2 : NetStream.content s = x :: t := hc
      rw [hc2] at hcl
      exact (sniff_clean_not16 L _ x t hcl hsz hx).2.2
    · intro t hc hlen
      have hc2 : NetStream.content s = recordTypeHandshake :: t := hc
      rw [hc] at hlen ⊢
      rw [hc2] at hcl
      exact (sniff_clean_short L _ t hcl hsz
        (by simp only [List.length_cons] at hlen; omega)).2.2

/-- C10, an instance: a plain HTTP request arriving in two reads is not TLS, and
the bytes of the first read are returned as peeked. -/
theorem sniff_classification_witness :
    NetStream.clean [⟨bytesOf "GET", none⟩, ⟨bytesOf " / ", none⟩] ∧
      (sniff refLib (WriteCloser.net [⟨bytesOf "GET", none⟩, ⟨bytesOf " / ", none⟩])).tls = false ∧
      (sniff refLib (WriteCloser.net [⟨bytesOf "GET", none⟩, ⟨bytesOf " / ", none⟩])).peeked
        ≠ [] :=
  ⟨by decide,
    ((sniff_classification refLib
      (WriteCloser.net [⟨bytesOf "GET", none⟩, ⟨bytesOf " / ", none⟩])).2.1 _ _ rfl
      (by decide)).2.1,
    ((sniff_classification refLib
      (WriteCloser.net [⟨bytesOf "GET", none⟩, ⟨bytesOf " / ", none⟩])).2.2.2.2 _ rfl
      (by decide)).2.1 _ _ rfl (by decide)⟩

/-! ## The negotiation: what each step writes -/

namespace starttls

theorem isStreamOpen_openTag (id : Int) (fa : String) :
    isStreamOpen (streamOpenTag id fa) = true := by
  simp only [isStreamOpen, streamOpenTag, String.data_append]
  rfl

theorem openTag_ne_close (id : Int) (fa : String) : streamOpenTag id fa ≠ streamCloseTag := by
  intro h
  have h1 := isStreamOpen_openTag id fa
  rw [h] at h1
  exact absurd h1 (by decide)

theorem sentOf_append (l1 l2 : List WriteEvent) : sentOf (l1 ++ l2) = sentOf l1 ++ sentOf l2 := by
  simp [sentOf]

theorem Write_log (c : PeerConn) (d : String) :
    (c.Write d).2.log = c.log ++ [⟨d, (c.Write d).1⟩] ∧ (c.Write d).2.tokens = c.tokens := by
  cases h : c.writeErrs with
  | nil => simp [PeerConn.Write, h]
  | cons o rest => simp [PeerConn.Write, h]

theorem XWrite_log (x : XMPP) (d : String) :
    (x.Write d).2.conn.log = x.conn.log ++ [⟨d, (x.Write d).1⟩] ∧
      (x.Write d).2.conn.tokens = x.conn.tokens ∧
      (x.Write d).2.state = x.state ∧ (x.Write d).2.ticks = x.ticks := by
  have h := Write_log x.conn d
  exact ⟨h.1, h.2, rfl, rfl⟩

theorem startStream_log (clock : Nat → Int) (x : XMPP) :
    ∀ e ∈ (x.startStream clock).2.conn.log, e ∈ x.conn.log ∨ isStreamOpen e.data = true := by
  intro e he
  simp only [XMPP.startStream] at he
  split at he
  · exact Or.inl he
  · have hw := XWrite_log { x with ticks := x.ticks + 1 }
      (streamOpenTag (clock x.ticks) (fromAttrOf x.state.from'))
    have hmem : e ∈ x.conn.log ++ [⟨streamOpenTag (clock x.ticks) (fromAttrOf x.state.from'),
        (XMPP.Write { x with ticks := x.ticks + 1 }
          (streamOpenTag (clock x.ticks) (fromAttrOf x.state.from'))).1⟩] := by
      split at he
      · rw [← hw.1]; exact he
      · rw [← hw.1]; exact he
    rcases List.mem_append.mp hmem with h | h
    · exact Or.inl h
    · right
      rw [List.mem_singleton.mp h]
      exact isStreamOpen_openTag _ _

theorem closeStream_log (x : XMPP) :
    ∀ e ∈ x.closeStream.2.conn.log, e ∈ x.conn.log ∨ e.data = streamCloseTag := by
  intro e he
  simp only [XMPP.closeStream] at he
  split at he
  · exact Or.inl he
  · have hw := XWrite_log x streamCloseTag
    have hmem : e ∈ x.conn.log ++ [⟨streamCloseTag, (x.Write streamCloseTag).1⟩] := by
      split at he
      · rw [← hw.1]; exact he
      · rw [← hw.1]; exact he
    rcases List.mem_append.mp hmem with h | h
    · exact Or.inl h
    · right
      rw [List.mem_singleton.mp h]

theorem send_log (clock : Nat → Int) (x : XMPP) (d : String) :
    ∀ e ∈ (x.send clock d).2.conn.log, e ∈ x.conn.log ∨ isStreamOpen e.data = true ∨
      (e.data = d ∧ (e.err = none → (x.send clock d).1 = none)) := by
  intro e he
  simp only [XMPP.send] at he ⊢
  split at he
  · rename_i h0
    rw [if_pos h0]
    split at he
    · rename_i err herr
      rcases startStream_log clock x e he with h | h
      · exact Or.inl h
      · exact Or.inr (Or.inl h)
    · rename_i herr
      have hw := XWrite_log (x.startStream clock).2 d
      rw [hw.1] at he
      rcases List.mem_append.mp he with h | h
      · rcases startStream_log clock x e h with h | h
        · exact Or.inl h
        · exact Or.inr (Or.inl h)
      · right; right
        rw [List.mem_singleton.mp h]
        refine ⟨rfl, fun hn => ?_⟩
        simp only at hn
        simp [herr, hn]
  · rename_i h0
    rw [if_neg h0]
    have hw := XWrite_log x d
    rw [hw.1] at he
    rcases List.mem_append.mp he with h | h
    · exact Or.inl h
    · right; right
      rw [List.mem_singleton.mp h]
      refine ⟨rfl, fun hn => ?_⟩
      simp only at hn
      simp [hn]

theorem sendError_log (clock : Nat → Int) (x : XMPP) (er : String) :
    ∀ e ∈ (x.sendError clock er).2.conn.log, e ∈ x.conn.log ∨ isStreamOpen e.data = true ∨
      e.data = streamError er ∨ e.data = streamCloseTag := by
  intro e he
  have hs := send_log clock x (streamError er)
  simp only [XMPP.sendError] at he
  split at he
  · rcases hs e he with h | h | h
    · exact Or.inl h
    · exact Or.inr (Or.inl h)
    · exact Or.inr (Or.inr (Or.inl h.1))
  · rcases closeStream_log _ e he with h | h
    · rcases hs e h with h | h | h
      · exact Or.inl h
      · exact Or.inr (Or.inl h)
      · exact Or.inr (Or.inr (Or.inl h.1))
    · exact Or.inr (Or.inr (Or.inr h))

theorem nextElementLoop_log (clock : Nat → Int) (toks : List RawResult) (x : XMPP) :
    ∀ e ∈ (XMPP.nextElementLoop clock toks x).2.conn.log,
      e ∈ x.conn.log ∨ isStreamOpen e.data = true ∨
        e.data = streamError notWellFormed ∨ e.data = streamCloseTag := by
  induction toks generalizing x with
  | nil =>
    intro e he
    exact sendError_log clock { x with conn := { x.conn with tokens := [] } } notWellFormed e he
  | cons t rest ih =>
    intro e he
    cases t with
    | error g =>
      exact sendError_log clock { x with conn := { x.conn with tokens := rest } }
        notWellFormed e he
    | token tk =>
      cases tk with
      | StartElement el => exact Or.inl he
      | other => exact ih { x with conn := { x.conn with tokens := rest } } e he

theorem log_trans {Q : WriteEvent → Prop} {l1 l2 l3 : List WriteEvent}
    (h12 : ∀ e ∈ l2, e ∈ l1 ∨ Q e) (h23 : ∀ e ∈ l3, e ∈ l2 ∨ Q e) :
    ∀ e ∈ l3, e ∈ l1 ∨ Q e := by
  intro e he
  rcases h23 e he with h | h
  · exact h12 e h
  · exact Or.inr h

theorem log_weaken {Q R : WriteEvent → Prop} {l0 l : List WriteEvent}
    (h : ∀ e ∈ l, e ∈ l0 ∨ Q e) : ∀ e ∈ l, e ∈ l0 ∨ Q e ∨ R e := by
  intro e he
  rcases h e he with h | h
  · exact Or.inl h
  · exact Or.inr (Or.inl h)

theorem sendError_data (clock : Nat → Int) (x : XMPP) (er : String)
    (her : startTLSData (streamError er)) :
    ∀ e ∈ (x.sendError clock er).2.conn.log, e ∈ x.conn.log ∨ startTLSData e.data := by
  intro e he
  rcases sendError_log clock x er e he with h | h | h | h
  · exact Or.inl h
  · exact Or.inr (Or.inl h)
  · right; rw [h]; exact her
  · right; rw [h]; exact Or.inr (Or.inr (Or.inr (Or.inr (Or.inl rfl))))

theorem nextElement_data (clock : Nat → Int) (x : XMPP) :
    ∀ e ∈ (x.nextElement clock).2.conn.log, e ∈ x.conn.log ∨ startTLSData e.data := by
  intro e he
  rcases nextElementLoop_log clock x.conn.tokens x e he with h | h | h | h
  · exact Or.inl h
  · exact Or.inr (Or.inl h)
  · right; rw [h]; exact Or.inr (Or.inl rfl)
  · right; rw [h]; exact Or.inr (Or.inr (Or.inr (Or.inr (Or.inl rfl))))

theorem sendFeatureList_data (clock : Nat → Int) (x : XMPP) :
    ∀ e ∈ (x.sendFeatureList clock).2.conn.log, e ∈ x.conn.log ∨ startTLSData e.data := by
  intro e he
  rcases send_log clock x featuresElement e he with h | h | h
  · exact Or.inl h
  · exact Or.inr (Or.inl h)
  · right; rw [h.1]; exact Or.inr (Or.inr (Or.inr (Or.inr (Or.inr rfl))))

theorem StartTLS_log (clock : Nat → Int) (x0 : XMPP) (conn : PeerConn) :
    ∀ e ∈ (XMPP.StartTLS clock x0 conn).2.conn.log,
      e ∈ conn.log ∨ startTLSData e.data ∨
        (e.data = proceedElement ∧ (e.err = none → (XMPP.StartTLS clock x0 conn).1 = none)) := by
  have hn1 := nextElement_data clock { x0 with conn := conn }
  simp only [XMPP.StartTLS]
  split
  · exact log_weaken hn1
  · split
    · exact log_weaken (log_trans hn1
        (sendError_data clock _ notWellFormed (Or.inr (Or.inl rfl))))
    · split
      · exact log_weaken (log_trans hn1
          (sendError_data clock _ improperAddressing (Or.inr (Or.inr (Or.inl rfl)))))
      · have hf := log_trans hn1 (sendFeatureList_data clock
          { (XMPP.nextElement clock { x0 with conn := conn }).2 with
            state := { (XMPP.nextElement clock { x0 with conn := conn }).2.state with
              from' := scanTo (XMPP.nextElement clock { x0 with conn := conn }).1.1.Attr
                (XMPP.nextElement clock { x0 with conn := conn }).2.state.from' } })
        split
        · exact log_weaken hf
        · have hn2 := log_trans hf (nextElement_data clock _)
          split
          · exact log_weaken hn2
          · split
            · exact log_weaken (log_trans hn2
                (sendError_data clock _ policyViolation
                  (Or.inr (Or.inr (Or.inr (Or.inl rfl))))))
            · intro e he
              rcases send_log clock _ proceedElement e he with h | h | h
              · rcases hn2 e h with h | h
                · exact Or.inl h
                · exact Or.inr (Or.inl h)
              · exact Or.inr (Or.inl (Or.inl h))
              · exact Or.inr (Or.inr h)

theorem bracket_snoc (l : List String) (d : String) :
    bracket (l ++ [d]) = bracketStep (bracket l) d := by
  simp [bracket, List.foldl_append]

theorem sentOf_snoc (log : List WriteEvent) (d : String) (o : Option GoError) :
    sentOf (log ++ [⟨d, o⟩]) = if o = none then sentOf log ++ [d] else sentOf log := by
  cases o with
  | none => simp [sentOf]
  | some g => simp [sentOf]

theorem XWrite_sent (x : XMPP) (d : String) :
    (x.Write d).2.conn.sent
      = if (x.Write d).1 = none then x.conn.sent ++ [d] else x.conn.sent := by
  simp only [PeerConn.sent, (XWrite_log x d).1, sentOf_snoc]

theorem XWrite_bracketed (x : XMPP) (d : String) (h : x.Bracketed)
    (hopen : isStreamOpen d = false) (hclose : d ≠ streamCloseTag) : (x.Write d).2.Bracketed := by
  simp only [XMPP.Bracketed] at h ⊢
  rw [XWrite_sent, (XWrite_log x d).2.2.1]
  split
  · rw [bracket_snoc, h]
    simp [bracketStep, hopen, hclose]
  · exact h

theorem startStream_bracketed (clock : Nat → Int) (hclock : ∀ n, clock n ≠ 0) (x : XMPP)
    (h : x.Bracketed) : (x.startStream clock).2.Bracketed := by
  simp only [XMPP.startStream]
  split
  · exact h
  · rename_i h0
    have h0' : x.state.streamId = 0 := by simpa using h0
    have hs := XWrite_sent { x with ticks := x.ticks + 1 }
      (streamOpenTag (clock x.ticks) (fromAttrOf x.state.from'))
    have hst := (XWrite_log { x with ticks := x.ticks + 1 }
      (streamOpenTag (clock x.ticks) (fromAttrOf x.state.from'))).2.2.1
    simp only [XMPP.Bracketed] at h
    split
    · rename_i g hg
      simp only [XMPP.Bracketed]
      rw [hs, hg, if_neg (by simp), hst]
      exact h
    · rename_i hg
      simp only [XMPP.Bracketed]
      rw [hs, hg, if_pos rfl, bracket_snoc]
      rw [h0'] at h
      simp only [ne_eq, not_true_eq_false, decide_False] at h
      rw [h]
      simp [bracketStep, isStreamOpen_openTag, hclock]

theorem closeStream_bracketed (x : XMPP) (h : x.Bracketed) : x.closeStream.2.Bracketed := by
  simp only [XMPP.closeStream]
  split
  · exact h
  · rename_i h0
    have hs := XWrite_sent x streamCloseTag
    simp only [XMPP.Bracketed] at h
    split
    · rename_i g hg
      simp only [XMPP.Bracketed]
      rw [hs, hg, if_neg (by simp)]
      exact h
    · rename_i hg
      simp only [XMPP.Bracketed]
      rw [hs, hg, if_pos rfl, bracket_snoc, h]
      have hno : isStreamOpen streamCloseTag = false := by decide
      simp [bracketStep, hno, h0]

theorem send_bracketed (clock : Nat → Int) (hclock : ∀ n, clock n ≠ 0) (x : XMPP) (d : String)
    (h : x.Bracketed) (hopen : isStreamOpen d = false) (hclose : d ≠ streamCloseTag) :
    (x.send clock d).2.Bracketed := by
  simp only [XMPP.send]
  split
  · split
    · exact startStream_bracketed clock hclock x h
    · exact XWrite_bracketed _ d (startStream_bracketed clock hclock x h) hopen hclose
  · exact XWrite_bracketed x d h hopen hclose

theorem sendError_bracketed (clock : Nat → Int) (hclock : ∀ n, clock n ≠ 0) (x : XMPP)
    (er : String) (h : x.Bracketed) (hopen : isStreamOpen (streamError er) = false)
    (hclose : streamError er ≠ streamCloseTag) : (x.sendError clock er).2.Bracketed := by
  have hs := send_bracketed clock hclock x (streamError er) h hopen hclose
  simp only [XMPP.sendError]
  split
  · exact hs
  · exact closeStream_bracketed _ hs

theorem nextElementLoop_bracketed (clock : Nat → Int) (hclock : ∀ n, clock n ≠ 0)
    (toks : List RawResult) (x : XMPP) (h : x.Bracketed) :
    (XMPP.nextElementLoop clock toks x).2.Bracketed := by
  induction toks generalizing x with
  | nil =>
    exact sendError_bracketed clock hclock { x with conn := { x.conn with tokens := [] } }
      notWellFormed h (by decide) (by decide)
  | cons t rest ih =>
    cases t with
    | error g =>
      exact sendError_bracketed clock hclock { x with conn := { x.conn with tokens := rest } }
        notWellFormed h (by decide) (by decide)
    | token tk =>
      cases tk with
      | StartElement el => exact h
      | other => exact ih { x with conn := { x.conn with tokens := rest } } h

theorem nextElement_bracketed (clock : Nat → Int) (hclock : ∀ n, clock n ≠ 0) (x : XMPP)
    (h : x.Bracketed) : (x.nextElement clock).2.Bracketed :=
  nextElementLoop_bracketed clock hclock x.conn.tokens x h

theorem StartTLS_bracketed (clock : Nat → Int) (hclock : ∀ n, clock n ≠ 0) (x0 : XMPP)
    (conn : PeerConn) (h : ({ x0 with conn := conn } : XMPP).Bracketed) :
    (XMPP.StartTLS clock x0 conn).2.Bracketed := by
  have hn1 := nextElement_bracketed clock hclock { x0 with conn := conn } h
  simp only [XMPP.StartTLS]
  split
  · exact hn1
  · split
    · exact sendError_bracketed clock hclock _ notWellFormed hn1 (by decide) (by decide)
    · have hx2 : ({ (XMPP.nextElement clock { x0 with conn := conn }).2 with
          state := { (XMPP.nextElement clock { x0 with conn := conn }).2.state with
            from' := scanTo (XMPP.nextElement clock { x0 with conn := conn }).1.1.Attr
              (XMPP.nextElement clock { x0 with conn := conn }).2.state.from' } } : XMPP).Bracketed :=
        hn1
      split
      · exact sendError_bracketed clock hclock _ improperAddressing hx2 (by decide) (by decide)
      · have hf := send_bracketed clock hclock _ featuresElement hx2 (by decide) (by decide)
        split
        · exact hf
        · have hn2 := nextElement_bracketed clock hclock _ hf
          split
          · exact hn2
          · split
            · exact sendError_bracketed clock hclock _ policyViolation hn2 (by decide) (by decide)
            · exact send_bracketed clock hclock _ proceedElement hn2 (by decide) (by decide)

theorem AllOK_tail {we : List (Option GoError)} (h : AllOK we) : AllOK we.tail := by
  intro o ho
  exact h o (List.mem_of_mem_tail ho)

theorem Write_ok (toks : List RawResult) (we : List (Option GoError)) (log : List WriteEvent)
    (d : String) (h : AllOK we) :
    PeerConn.Write ⟨toks, we, log⟩ d = (none, ⟨toks, we.tail, log ++ [⟨d, none⟩]⟩) := by
  cases we with
  | nil => rfl
  | cons o rest =>
    have : o = none := h o (List.mem_cons_self _ _)
    subst this
    rfl

theorem Write_cons_none (toks : List RawResult) (we : List (Option GoError))
    (log : List WriteEvent) (d : String) :
    PeerConn.Write ⟨toks, none :: we, log⟩ d = (none, ⟨toks, we, log ++ [⟨d, none⟩]⟩) := rfl

theorem nextElementLoop_skip (clock : Nat → Int) (skip : List RawResult) (hs : skippable skip)
    (e : StartElement) (rest : List RawResult) (x : XMPP) :
    XMPP.nextElementLoop clock (skip ++ RawResult.token (Token.StartElement e) :: rest) x
      = ((e, none), { x with conn := { x.conn with tokens := rest } }) := by
  induction skip generalizing x with
  | nil => rfl
  | cons t ts ih =>
    have ht : t = RawResult.token Token.other := hs t (List.mem_cons_self _ _)
    subst ht
    have := ih (fun u hu => hs u (List.mem_cons_of_mem _ hu))
      { x with conn := { x.conn with tokens := ts ++ RawResult.token (Token.StartElement e) :: rest } }
    simpa [XMPP.nextElementLoop] using this

theorem scanTo_absent (attrs : List Attr) (from' : String)
    (h : ∀ a ∈ attrs, a.Name.Local ≠ "to") : scanTo attrs from' = from' := by
  induction attrs with
  | nil => rfl
  | cons a rest ih =>
    have ha := h a (List.mem_cons_self _ _)
    simp only [scanTo, ha, if_false]
    exact ih (fun b hb => h b (List.mem_cons_of_mem _ hb))

/-- The success path, writes succeeding. -/
theorem StartTLS_ok (clock : Nat → Int) (hclock : clock 0 ≠ 0)
    (skip1 skip2 rest : List RawResult) (attrs : List Attr) (e2 : StartElement) (v : String)
    (we : List (Option GoError))
    (h1 : skippable skip1) (h2 : skippable skip2)
    (hv : scanTo attrs "" = v) (hne : v ≠ "") (hst : e2.Name.Local = "starttls")
    (hw : AllOK we) :
    XMPP.StartTLS clock XMPP.new
        ⟨skip1 ++ startTag "stream" "stream" attrs ::
          (skip2 ++ RawResult.token (Token.StartElement e2) :: rest), we, []⟩
      = (none, ⟨⟨rest, we.tail.tail.tail,
          [⟨streamOpenTag (clock 0) ("from='" ++ v ++ "' "), none⟩, ⟨featuresElement, none⟩,
            ⟨proceedElement, none⟩]⟩, ⟨v, clock 0⟩, 1⟩) := by
  simp only [XMPP.StartTLS, XMPP.nextElement, XMPP.new, startTag, nextElementLoop_skip _ _ h1,
    nextElementLoop_skip _ _ h2, hv, hne, hst,
    XMPP.sendFeatureList, XMPP.sendProceed, XMPP.send, XMPP.startStream, XMPP.Write,
    Write_ok _ _ _ _ hw, Write_ok _ _ _ _ (AllOK_tail hw),
    Write_ok _ _ _ _ (AllOK_tail (AllOK_tail hw)),
    fromAttrOf, ne_eq, not_true_eq_false, or_self, if_false, if_true, hclock,
    not_false_eq_true, Option.map_none', List.nil_append, List.cons_append, Nat.zero_add]

/-- The path of the missing `to`, writes succeeding. -/
theorem StartTLS_noTo (clock : Nat → Int) (hclock : clock 0 ≠ 0)
    (skip1 rest : List RawResult) (attrs : List Attr) (we : List (Option GoError))
    (h1 : skippable skip1) (hv : scanTo attrs "" = "") (hw : AllOK we) :
    XMPP.StartTLS clock XMPP.new ⟨skip1 ++ startTag "stream" "stream" attrs :: rest, we, []⟩
      = (some (Error.New "client did not sent 'to' attribute in initial stream header"),
          ⟨⟨rest, we.tail.tail.tail,
            [⟨streamOpenTag (clock 0) "", none⟩, ⟨streamError improperAddressing, none⟩,
              ⟨streamCloseTag, none⟩]⟩, ⟨"", 0⟩, 1⟩) := by
  simp only [XMPP.StartTLS, XMPP.nextElement, XMPP.new, startTag, nextElementLoop_skip _ _ h1,
    hv, XMPP.sendErrorImproperAddressing, XMPP.sendError, XMPP.closeStream,
    XMPP.send, XMPP.startStream, XMPP.Write,
    Write_ok _ _ _ _ hw, Write_ok _ _ _ _ (AllOK_tail hw),
    Write_ok _ _ _ _ (AllOK_tail (AllOK_tail hw)),
    fromAttrOf, ne_eq, not_true_eq_false, or_self, if_false, if_true, hclock,
    not_false_eq_true, Option.map_none', List.nil_append, List.cons_append, Nat.zero_add]

/-- The path of the element that is not `starttls`, writes succeeding. -/
theorem StartTLS_notStartTLS (clock : Nat → Int) (hclock : clock 0 ≠ 0)
    (skip1 skip2 rest : List RawResult) (attrs : List Attr) (e2 : StartElement) (v : String)
    (we : List (Option GoError))
    (h1 : skippable skip1) (h2 : skippable skip2)
    (hv : scanTo attrs "" = v) (hne : v ≠ "") (hst : e2.Name.Local ≠ "starttls")
    (hw : AllOK we) :
    XMPP.StartTLS clock XMPP.new
        ⟨skip1 ++ startTag "stream" "stream" attrs ::
          (skip2 ++ RawResult.token (Token.StartElement e2) :: rest), we, []⟩
      = (some (Error.New ("client requested invalid feature '" ++ e2.Name.Local ++ "'")),
          ⟨⟨rest, we.tail.tail.tail.tail,
            [⟨streamOpenTag (clock 0) ("from='" ++ v ++ "' "), none⟩, ⟨featuresElement, none⟩,
              ⟨streamError policyViolation, none⟩, ⟨streamCloseTag, none⟩]⟩, ⟨v, 0⟩, 1⟩) := by
  simp only [XMPP.StartTLS, XMPP.nextElement, XMPP.new, startTag, nextElementLoop_skip _ _ h1,
    nextElementLoop_skip _ _ h2, hv, hne, hst,
    XMPP.sendFeatureList, XMPP.sendErrorPolicyViolation, XMPP.sendError, XMPP.closeStream,
    XMPP.send, XMPP.startStream, XMPP.Write,
    Write_ok _ _ _ _ hw, Write_ok _ _ _ _ (AllOK_tail hw),
    Write_ok _ _ _ _ (AllOK_tail (AllOK_tail hw)),
    Write_ok _ _ _ _ (AllOK_tail (AllOK_tail (AllOK_tail hw))),
    fromAttrOf, ne_eq, not_true_eq_false, or_self, if_false, if_true, hclock,
    not_false_eq_true, Option.map_none', List.nil_append, List.cons_append, Nat.zero_add]

/-- The error returned on the three paths of a protocol violation, whatever the
writes do. -/
theorem StartTLS_err_badHeader (clock : Nat → Int) (skip1 rest : List RawResult)
    (e : StartElement) (we : List (Option GoError)) (h1 : skippable skip1)
    (hbad : e.Name.Space ≠ "stream" ∨ e.Name.Local ≠ "stream") :
    (XMPP.StartTLS clock XMPP.new
        ⟨skip1 ++ RawResult.token (Token.StartElement e) :: rest, we, []⟩).1
      = some (Error.New "client sent invalid initial stream header") := by
  simp only [XMPP.StartTLS, XMPP.nextElement, XMPP.new, nextElementLoop_skip _ _ h1]
  rw [if_pos hbad]

theorem StartTLS_err_noTo (clock : Nat → Int) (skip1 rest : List RawResult)
    (attrs : List Attr) (we : List (Option GoError)) (h1 : skippable skip1)
    (hv : scanTo attrs "" = "") :
    (XMPP.StartTLS clock XMPP.new
        ⟨skip1 ++ startTag "stream" "stream" attrs :: rest, we, []⟩).1
      = some (Error.New "client did not sent 'to' attribute in initial stream header") ∧
    (XMPP.StartTLS clock XMPP.new
        ⟨skip1 ++ startTag "stream" "stream" attrs :: rest, we, []⟩).2
      = (XMPP.sendErrorImproperAddressing clock ⟨⟨rest, we, []⟩, ⟨"", 0⟩, 0⟩).2 := by
  simp only [XMPP.StartTLS, XMPP.nextElement, XMPP.new, startTag, nextElementLoop_skip _ _ h1,
    hv, ne_eq, not_true_eq_false, or_self, if_false, if_true, and_self]

theorem StartTLS_err_notStartTLS (clock : Nat → Int)
    (skip1 skip2 rest : List RawResult) (attrs : List Attr) (e2 : StartElement) (v : String)
    (we : List (Option GoError))
    (h1 : skippable skip1) (h2 : skippable skip2)
    (hv : scanTo attrs "" = v) (hne : v ≠ "") (hst : e2.Name.Local ≠ "starttls") :
    (XMPP.StartTLS clock XMPP.new
        ⟨skip1 ++ startTag "stream" "stream" attrs ::
          (skip2 ++ RawResult.token (Token.StartElement e2) :: rest), none :: none :: we, []⟩).1
      = some (Error.New ("client requested invalid feature '" ++ e2.Name.Local ++ "'")) := by
  simp only [XMPP.StartTLS, XMPP.nextElement, XMPP.new, startTag, nextElementLoop_skip _ _ h1,
    nextElementLoop_skip _ _ h2, hv, hne, hst,
    XMPP.sendFeatureList, XMPP.send, XMPP.startStream, XMPP.Write, Write_cons_none,
    ne_eq, not_true_eq_false, or_self, if_false, if_true,
    not_false_eq_true, Option.map_none', List.nil_append, List.cons_append, Nat.zero_add]

theorem startStream_from' (clock : Nat → Int) (x : XMPP) :
    (x.startStream clock).2.state.from' = x.state.from' := by
  simp only [XMPP.startStream]
  split
  · rfl
  · split <;> rfl

theorem closeStream_from' (x : XMPP) : x.closeStream.2.state.from' = x.state.from' := by
  simp only [XMPP.closeStream]
  split
  · rfl
  · split <;> rfl

theorem send_from' (clock : Nat → Int) (x : XMPP) (d : String) :
    (x.send clock d).2.state.from' = x.state.from' := by
  simp only [XMPP.send]
  split
  · split
    · exact startStream_from' clock x
    · exact startStream_from' clock x
  · rfl

theorem sendError_from' (clock : Nat → Int) (x : XMPP) (er : String) :
    (x.sendError clock er).2.state.from' = x.state.from' := by
  simp only [XMPP.sendError]
  split
  · exact send_from' clock x _
  · rw [closeStream_from']; exact send_from' clock x _

theorem isStreamError_streamError (er : String) : isStreamError (streamError er) = true := by
  simp [isStreamError, streamError, String.data_append, List.isPrefixOf]

theorem isStreamError_openTag (id : Int) (fa : String) :
    isStreamError (streamOpenTag id fa) = false := by
  simp only [isStreamError, streamOpenTag, String.data_append]
  rfl

theorem mem_sentOf {log : List WriteEvent} {d : String} (h : d ∈ sentOf log) :
    ∃ e ∈ log, e.data = d ∧ e.err = none := by
  simp only [sentOf, List.mem_map, List.mem_filter, decide_eq_true_eq] at h
  obtain ⟨e, ⟨he, herr⟩, hd⟩ := h
  exact ⟨e, he, hd, herr⟩

theorem closeStream_ok_log (x : XMPP) (h : x.closeStream.1 = none) :
    x.closeStream.2.conn.log = x.conn.log ++ [⟨streamCloseTag, none⟩] ∧
      x.closeStream.2.state.streamId = 0 := by
  have hw := XWrite_log x streamCloseTag
  by_cases h0 : x.state.streamId = 0
  · simp [XMPP.closeStream, h0] at h
  · cases hg : (x.Write streamCloseTag).1 with
    | some g => simp [XMPP.closeStream, h0, hg] at h
    | none =>
      have e : x.closeStream = (none, { (x.Write streamCloseTag).2 with
          state := { (x.Write streamCloseTag).2.state with streamId := 0 } }) := by
        simp only [XMPP.closeStream, h0, if_false, hg]
      rw [e]
      refine ⟨?_, rfl⟩
      show (x.Write streamCloseTag).2.conn.log = _
      rw [hw.1, hg]

theorem startStream_ok_log (clock : Nat → Int) (x : XMPP) (h0 : x.state.streamId = 0)
    (h : (x.startStream clock).1 = none) :
    (x.startStream clock).2.conn.log
      = x.conn.log ++ [⟨streamOpenTag (clock x.ticks) (fromAttrOf x.state.from'), none⟩] := by
  have hw := XWrite_log { x with ticks := x.ticks + 1 }
    (streamOpenTag (clock x.ticks) (fromAttrOf x.state.from'))
  cases hg : (XMPP.Write { x with ticks := x.ticks + 1 }
      (streamOpenTag (clock x.ticks) (fromAttrOf x.state.from'))).1 with
  | some g => simp [XMPP.startStream, h0, hg] at h
  | none =>
    have e : x.startStream clock = (none,
        { (XMPP.Write { x with ticks := x.ticks + 1 }
            (streamOpenTag (clock x.ticks) (fromAttrOf x.state.from'))).2 with
          state := { (XMPP.Write { x with ticks := x.ticks + 1 }
            (streamOpenTag (clock x.ticks) (fromAttrOf x.state.from'))).2.state with
              streamId := clock x.ticks } }) := by
      simp only [XMPP.startStream, h0, ne_eq, not_true_eq_false, if_false, hg]
    rw [e]
    show (XMPP.Write { x with ticks := x.ticks + 1 }
      (streamOpenTag (clock x.ticks) (fromAttrOf x.state.from'))).2.conn.log = _
    rw [hw.1, hg]

theorem send_closed_ok_log (clock : Nat → Int) (x : XMPP) (d : String)
    (h0 : x.state.streamId = 0) (hok : (x.send clock d).1 = none) :
    (x.send clock d).2.conn.log
      = x.conn.log ++ [⟨streamOpenTag (clock x.ticks) (fromAttrOf x.state.from'), none⟩,
          ⟨d, none⟩] := by
  cases hs : (x.startStream clock).1 with
  | some e => simp [XMPP.send, h0, hs] at hok
  | none =>
    have e : x.send clock d = (((x.startStream clock).2.Write d).1.map Error.conn,
        ((x.startStream clock).2.Write d).2) := by
      simp only [XMPP.send, h0, if_true, hs]
    rw [e] at hok ⊢
    have hw := XWrite_log (x.startStream clock).2 d
    have hnone : ((x.startStream clock).2.Write d).1 = none := by
      cases hc : ((x.startStream clock).2.Write d).1 with
      | none => rfl
      | some g => rw [hc] at hok; simp at hok
    show ((x.startStream clock).2.Write d).2.conn.log = _
    rw [hw.1, hnone, startStream_ok_log clock x h0 hs]
    simp

theorem XWrite_ok (x : XMPP) (d : String) (h : AllOK x.conn.writeErrs) :
    (x.Write d).1 = none ∧ AllOK (x.Write d).2.conn.writeErrs ∧
      (x.Write d).2.state = x.state := by
  obtain ⟨⟨toks, we, log⟩, st, t⟩ := x
  simp only [XMPP.Write]
  rw [Write_ok toks we log d h]
  exact ⟨rfl, AllOK_tail h, trivial⟩

/-- With the writes succeeding, `startStream` on a stream that is not open succeeds
and sets `streamId` to the clock reading. -/
theorem startStream_ok (clock : Nat → Int) (x : XMPP) (h0 : x.state.streamId = 0)
    (h : AllOK x.conn.writeErrs) :
    (x.startStream clock).1 = none ∧ AllOK (x.startStream clock).2.conn.writeErrs ∧
      (x.startStream clock).2.state.streamId = clock x.ticks := by
  have hw := XWrite_ok { x with ticks := x.ticks + 1 }
    (streamOpenTag (clock x.ticks) (fromAttrOf x.state.from')) h
  simp only [XMPP.startStream, h0, ne_eq, not_true_eq_false, if_false]
  rw [hw.1]
  exact ⟨rfl, hw.2.1, rfl⟩

/-- With the writes succeeding, `closeStream` on an open stream succeeds. -/
theorem closeStream_ok (x : XMPP) (h0 : x.state.streamId ≠ 0)
    (h : AllOK x.conn.writeErrs) : x.closeStream.1 = none := by
  have hw := XWrite_ok x streamCloseTag h
  simp only [XMPP.closeStream, h0, if_false]
  rw [hw.1]

/-- With the writes succeeding, `send` on a stream that is not open succeeds. -/
theorem send_closed_ok (clock : Nat → Int) (x : XMPP) (d : String)
    (h0 : x.state.streamId = 0) (h : AllOK x.conn.writeErrs) :
    (x.send clock d).1 = none := by
  have hs := startStream_ok clock x h0 h
  have hw := XWrite_ok (x.startStream clock).2 d hs.2.1
  simp only [XMPP.send, h0, if_true]
  rw [hs.1]
  simp only [hw.1, Option.map_none']

/-- When no prefixed attribute has the local name `to`, the scan of the attributes
finds the value of the `to` attribute. -/
theorem scanTo_toAttribute (attrs : List Attr) (h : noPrefixedTo attrs) :
    scanTo attrs "" = (toAttribute attrs).getD "" := by
  induction attrs with
  | nil => rfl
  | cons a rest ih =>
    have hrest : noPrefixedTo rest := fun b hb => h b (List.mem_cons_of_mem _ hb)
    by_cases hl : a.Name.Local = "to"
    · have hs : a.Name.Space = "" := h a (List.mem_cons_self _ _) hl
      simp [scanTo, toAttribute, hl, hs]
    · simp [scanTo, toAttribute, hl, ih hrest]

end starttls

/-! ## The deferred configurations and the declared length -/

theorem declaredLen_eq (c : List Byte) :
    declaredLen c = 256 * (c.getD 3 0).toNat + (c.getD 4 0).toNat := by
  have h4 : (c.getD 4 0).toNat < 2 ^ 8 := (c.getD 4 0).toNat_lt
  simp only [declaredLen]
  rw [Nat.shiftLeft_eq, Nat.mul_comm, ← Nat.mul_add_lt_is_or h4]

theorem AddRouteHTTPTLS_table (r : Router) (k : String) (c : Option TLSConfig) :
    (r.AddRouteHTTPTLS k c).hostHTTPTLSConfig = mapSet r.hostHTTPTLSConfig k c := by
  cases hr : r.hostHTTPTLSConfig with
  | none => simp [Router.AddRouteHTTPTLS, hr, mapSet]
  | some l => simp [Router.AddRouteHTTPTLS, hr]

theorem recordAll_get_other (calls : List (String × Option TLSConfig)) (r : Router)
    (k : String) (hk : ∀ e ∈ calls, e.1 ≠ k) :
    mapGet (r.recordAll calls).hostHTTPTLSConfig k = mapGet r.hostHTTPTLSConfig k := by
  induction calls generalizing r with
  | nil => rfl
  | cons e calls ih =>
    simp only [Router.recordAll, List.foldl_cons]
    have := ih (r.AddRouteHTTPTLS e.1 e.2) (fun o ho => hk o (List.mem_cons_of_mem _ ho))
    simp only [Router.recordAll] at this
    rw [this, AddRouteHTTPTLS_table, mapGet_mapSet, if_neg]
    exact fun h => hk e (List.mem_cons_self _ _) h.symm

theorem recordAll_last_kept (r : Router) (pre post : List (String × Option TLSConfig))
    (k : String) (c : Option TLSConfig) (hpost : ∀ e ∈ post, e.1 ≠ k) :
    mapGet (r.recordAll (pre ++ (k, c) :: post)).hostHTTPTLSConfig k = some c := by
  have : r.recordAll (pre ++ (k, c) :: post)
      = ((r.recordAll pre).AddRouteHTTPTLS k c).recordAll post := by
    simp [Router.recordAll, List.foldl_append]
  rw [this, recordAll_get_other post _ _ hpost, AddRouteHTTPTLS_table, mapGet_mapSet, if_pos rfl]

theorem HTTPSForwarder_loop (L : StdLib) (order : List (String × Option TLSConfig))
    (h : Handler) (r : Router) :
    order.foldl (fun acc e => acc.AddRouteTLS L e.1 h e.2) r
      = r.registerAll L (order.map (fun e => RouteOp.AddRouteTLS e.1 h e.2)) := by
  induction order generalizing r with
  | nil => rfl
  | cons e order ih =>
    simp only [List.foldl_cons, List.map_cons, Router.registerAll]
    rw [ih]
    rfl

theorem register_httpsTLSConfig (L : StdLib) (r : Router) (op : RouteOp) :
    (r.register L op).httpsTLSConfig = r.httpsTLSConfig := by
  cases op <;>
    (simp only [Router.register, Router.AddRouteTLS, Router.AddRouteSTARTTLS, Router.AddRoute]
     split <;> rfl)

theorem registerAll_httpsTLSConfig (L : StdLib) (ops : List RouteOp) (r : Router) :
    (r.registerAll L ops).httpsTLSConfig = r.httpsTLSConfig := by
  induction ops generalizing r with
  | nil => rfl
  | cons op ops ih =>
    simp only [Router.registerAll, List.foldl_cons]
    have := ih (r.register L op)
    simp only [Router.registerAll] at this
    rw [this, register_httpsTLSConfig]

theorem registerAll_some_kept (L : StdLib) (ops : List RouteOp) (r : Router) (key : String)
    (hex : ∃ op ∈ ops, L.ToLower op.sniHost = key) :
    ∃ op ∈ ops, L.ToLower op.sniHost = key ∧
      mapGet (r.registerAll L ops).routingTable key = some op.stored := by
  induction ops generalizing r with
  | nil =>
    obtain ⟨op, hop, _⟩ := hex
    cases hop
  | cons op ops ih =>
    by_cases htail : ∃ o ∈ ops, L.ToLower o.sniHost = key
    · obtain ⟨o, ho, hk, hget⟩ := ih (r.register L op) htail
      refine ⟨o, List.mem_cons_of_mem _ ho, hk, ?_⟩
      simpa [Router.registerAll] using hget
    · have hhead : L.ToLower op.sniHost = key := by
        obtain ⟨o, ho, hk⟩ := hex
        rcases List.mem_cons.mp ho with rfl | ho
        · exact hk
        · exact absurd ⟨o, ho, hk⟩ htail
      refine ⟨op, List.mem_cons_self _ _, hhead, ?_⟩
      have hother : ∀ o ∈ ops, L.ToLower o.sniHost ≠ key :=
        fun o ho hk => htail ⟨o, ho, hk⟩
      have := registerAll_get_other L ops (r.register L op) key hother
      simp only [Router.registerAll, List.foldl_cons] at this ⊢
      rw [this, register_table, mapGet_mapSet, if_pos hhead.symm]

theorem HTTPSForwarder_table (L : StdLib) (r : Router)
    (order : List (String × Option TLSConfig)) (h : Handler) (k : String)
    (c : Option TLSConfig) (hmem : (k, c) ∈ order) :
    ∃ e ∈ order, L.ToLower e.1 = L.ToLower k ∧
      mapGet (r.HTTPSForwarder L order h).routingTable (L.ToLower k)
        = some (Handler.TLSHandler h e.2) := by
  have hex : ∃ op ∈ order.map (fun e => RouteOp.AddRouteTLS e.1 h e.2),
      L.ToLower op.sniHost = L.ToLower k :=
    ⟨RouteOp.AddRouteTLS k h c, List.mem_map.mpr ⟨(k, c), hmem, rfl⟩, rfl⟩
  obtain ⟨op, hop, hk, hget⟩ := registerAll_some_kept L _ r (L.ToLower k) hex
  obtain ⟨e, he, rfl⟩ := List.mem_map.mp hop
  refine ⟨e, he, hk, ?_⟩
  simp only [Router.HTTPSForwarder, HTTPSForwarder_loop]
  exact hget

theorem HTTPSForwarder_forwarder (L : StdLib) (r : Router)
    (order : List (String × Option TLSConfig)) (h : Handler) :
    (r.HTTPSForwarder L order h).httpsForwarder
      = some (Handler.TLSHandler h r.httpsTLSConfig) := by
  simp only [Router.HTTPSForwarder, HTTPSForwarder_loop, registerAll_httpsTLSConfig]

/-! ## The claims on truncated records, the negotiation and the decorators -/

open starttls

/-- C11: on a stream that delivers its bytes without fault, starts with 0x16, has
the 5 bytes of a record header and ends before `5 + L` bytes, `L` being 256 times
byte 3 plus byte 4 of the header whatever bytes 1 and 2, the sniffer returns
`("", true, peeked)` with `peeked` all that is buffered; and `ServeTCP` (the fast
path not applying, the lower case of "" being "") then calls the wildcard handler
when one is registered, else the HTTPS forwarder when one is installed, else closes
the connection: the handler it calls is the wildcard or the HTTPS forwarder. -/
theorem truncated_ClientHello (L : StdLib) (s : NetStream) (t : List Byte)
    (hs : NetStream.clean s) (hc : NetStream.content s = recordTypeHandshake :: t)
    (hhdr : 5 ≤ (NetStream.content s).length)
    (htrunc : (NetStream.content s).length
      < 5 + (256 * ((NetStream.content s).getD 3 0).toNat
        + ((NetStream.content s).getD 4 0).toNat)) :
    (sniff L (WriteCloser.net s)).serverName = "" ∧
      (sniff L (WriteCloser.net s)).tls = true ∧
      (sniff L (WriteCloser.net s)).peeked = (sniff L (WriteCloser.net s)).br.unread ∧
      (L.ToLower "" = "" → ∀ r : Router, ¬ r.fastPath →
        (∀ w, mapGet r.routingTable "*" = some w →
          r.ServeTCP L (WriteCloser.net s) = [Call.ServeTCP w (r.handed L (WriteCloser.net s))]) ∧
        (∀ f, mapGet r.routingTable "*" = none → r.httpsForwarder = some f →
          r.ServeTCP L (WriteCloser.net s) = [Call.ServeTCP f (r.handed L (WriteCloser.net s))]) ∧
        (mapGet r.routingTable "*" = none → r.httpsForwarder = none →
          r.ServeTCP L (WriteCloser.net s)
            = [Call.Close (sniff L (WriteCloser.net s)).br.rd]) ∧
        (∀ h c, Call.ServeTCP h c ∈ r.ServeTCP L (WriteCloser.net s) →
          mapGet r.routingTable "*" = some h ∨ r.httpsForwarder = some h)) := by
  rw [← declaredLen_eq, hc] at htrunc
  rw [hc] at hhdr
  simp only [List.length_cons] at htrunc hhdr
  have hrec := sniff_record L s t hs hc (by omega)
  have hname := hrec.2.2 (Or.inr htrunc)
  have hH := sniff_holds L (NewReader (WriteCloser.net s)) (NewReader_holds _)
  refine ⟨hname, hrec.1, hH.2.trans (Holds_unread hH.1).symm, ?_⟩
  intro hL r hfast
  have hd := ServeTCP_tls_cases L r (WriteCloser.net s) hfast hrec.1
  have hempty : L.ToLower (sniff L (WriteCloser.net s)).serverName = "" ∨
      mapGet r.routingTable (L.ToLower (sniff L (WriteCloser.net s)).serverName) = none := by
    left; rw [hname, hL]
  refine ⟨fun w hw => hd.2.1 w hempty hw, fun f hw hf => hd.2.2.1 f hempty hw hf,
    fun hw hf => hd.2.2.2 hempty hw hf, ?_⟩
  intro h c hmem
  cases hw : mapGet r.routingTable "*" with
  | some w =>
    rw [hd.2.1 w hempty hw] at hmem
    simp only [List.mem_singleton, Call.ServeTCP.injEq] at hmem
    left; rw [hmem.1]
  | none =>
    cases hf : r.httpsForwarder with
    | some f =>
      rw [hd.2.2.1 f hempty hw hf] at hmem
      simp only [List.mem_singleton, Call.ServeTCP.injEq] at hmem
      right; rw [hmem.1]
    | none =>
      rw [hd.2.2.2 hempty hw hf] at hmem
      simp at hmem

/-- C11, an instance: a record header that announces 10 bytes, followed by 3; with
the route "a.example" -> A and the HTTPS forwarder C the connection goes to C. -/
theorem truncated_ClientHello_witness :
    (sniff refLib (oneRead [0x16, 3, 1, 0, 10, 1, 2, 3])).serverName = "" ∧
      (sniff refLib (oneRead [0x16, 3, 1, 0, 10, 1, 2, 3])).tls = true ∧
      ({ Router.zero.AddRoute refLib "a.example" handlerA with
          httpsForwarder := some handlerC } : Router).ServeTCP refLib
          (oneRead [0x16, 3, 1, 0, 10, 1, 2, 3])
        = [Call.ServeTCP handlerC
            (({ Router.zero.AddRoute refLib "a.example" handlerA with
              httpsForwarder := some handlerC } : Router).handed refLib
              (oneRead [0x16, 3, 1, 0, 10, 1, 2, 3]))] :=
  have h := truncated_ClientHello refLib [⟨[0x16, 3, 1, 0, 10, 1, 2, 3], none⟩]
    [3, 1, 0, 10, 1, 2, 3] (by decide) (by decide) (by decide) (by decide)
  ⟨h.1, h.2.1,
    (h.2.2.2 (by decide)
      ({ Router.zero.AddRoute refLib "a.example" handlerA with
        httpsForwarder := some handlerC } : Router) (by decide)).2.1 handlerC
      (by decide) (by decide)⟩

/-- The successful negotiation, away from prefixed attributes: for a client that
sends, possibly between tokens that are not start elements, a `stream:stream` start
element none of whose prefixed attributes has the local name `to` and whose `to`
attribute has the non-empty value `v`, then a start element of local name
`starttls`, with every write succeeding (and a clock that does not read 0),
`StartTLS` returns no error, `ServerName()` is `v`, and what is written to the peer
is exactly the stream-open tag carrying `from='v'`, then the features element, then
the proceed element: no write is the stream-close tag or starts a stream error. -/
theorem StartTLS_negotiates (clock : Nat → Int) (hclock : clock 0 ≠ 0)
    (skip1 skip2 rest : List RawResult) (attrs : List Attr) (e2 : StartElement) (v : String)
    (we : List (Option GoError))
    (h1 : skippable skip1) (h2 : skippable skip2)
    (hnp : noPrefixedTo attrs) (hto : toAttribute attrs = some v) (hne : v ≠ "")
    (hst : e2.Name.Local = "starttls") (hw : AllOK we) :
    (XMPP.StartTLS clock XMPP.new
        ⟨skip1 ++ startTag "stream" "stream" attrs ::
          (skip2 ++ RawResult.token (Token.StartElement e2) :: rest), we, []⟩).1 = none ∧
      (XMPP.StartTLS clock XMPP.new
        ⟨skip1 ++ startTag "stream" "stream" attrs ::
          (skip2 ++ RawResult.token (Token.StartElement e2) :: rest), we, []⟩).2.ServerName = v ∧
      (XMPP.StartTLS clock XMPP.new
        ⟨skip1 ++ startTag "stream" "stream" attrs ::
          (skip2 ++ RawResult.token (Token.StartElement e2) :: rest), we, []⟩).2.conn.sent
        = [streamOpenTag (clock 0) ("from='" ++ v ++ "' "), featuresElement, proceedElement] ∧
      streamCloseTag ∉ (XMPP.StartTLS clock XMPP.new
        ⟨skip1 ++ startTag "stream" "stream" attrs ::
          (skip2 ++ RawResult.token (Token.StartElement e2) :: rest), we, []⟩).2.conn.sent ∧
      ∀ d ∈ (XMPP.StartTLS clock XMPP.new
        ⟨skip1 ++ startTag "stream" "stream" attrs ::
          (skip2 ++ RawResult.token (Token.StartElement e2) :: rest), we, []⟩).2.conn.sent,
        isStreamError d = false := by
  have hv : scanTo attrs "" = v := by rw [scanTo_toAttribute attrs hnp, hto]; rfl
  rw [StartTLS_ok clock hclock skip1 skip2 rest attrs e2 v we h1 h2 hv hne hst hw]
  have hsent : PeerConn.sent ⟨rest, we.tail.tail.tail,
      [⟨streamOpenTag (clock 0) ("from='" ++ v ++ "' "), none⟩, ⟨featuresElement, none⟩,
        ⟨proceedElement, none⟩]⟩
      = [streamOpenTag (clock 0) ("from='" ++ v ++ "' "), featuresElement, proceedElement] := by
    simp [PeerConn.sent, sentOf]
  refine ⟨rfl, rfl, hsent, ?_, ?_⟩
  · show streamCloseTag ∉ PeerConn.sent _
    rw [hsent]
    intro hmem
    simp only [List.mem_cons, List.mem_singleton, List.not_mem_nil, or_false] at hmem
    rcases hmem with h | h | h
    · exact openTag_ne_close _ _ h.symm
    · exact absurd h (by decide)
    · exact absurd h (by decide)
  · show ∀ d ∈ PeerConn.sent _, isStreamError d = false
    rw [hsent]
    intro d hd
    simp only [List.mem_cons, List.mem_singleton, List.not_mem_nil, or_false] at hd
    rcases hd with h | h | h
    · rw [h]; exact isStreamError_openTag _ _
    · rw [h]; decide
    · rw [h]; decide

/-- The successful negotiation, an instance: the client of "user@domain". -/
theorem StartTLS_negotiates_witness :
    (XMPP.StartTLS fixedClock XMPP.new (clientFor "user@domain")).1 = none ∧
      (XMPP.StartTLS fixedClock XMPP.new (clientFor "user@domain")).2.ServerName
        = "user@domain" ∧
      (XMPP.StartTLS fixedClock XMPP.new (clientFor "user@domain")).2.conn.sent
        = [streamOpenTag (fixedClock 0) "from='user@domain' ", featuresElement, proceedElement] :=
  have h := StartTLS_negotiates fixedClock (by decide) [RawResult.token Token.other] [] []
    [⟨⟨"", "to"⟩, "user@domain"⟩, ⟨⟨"", "version"⟩, "1.0"⟩, ⟨⟨"", "xmlns"⟩, "jabber:client"⟩,
      ⟨⟨"xmlns", "stream"⟩, "http://etherx.jabber.org/streams"⟩]
    ⟨⟨"", "starttls"⟩, [⟨⟨"", "xmlns"⟩, "urn:ietf:params:xml:ns:xmpp-tls"⟩]⟩ "user@domain" []
    (by decide) (by decide) (by decide) (by decide) (by decide) (by decide) (by decide)
  ⟨h.1, h.2.1, h.2.2.1⟩

/-- C12 (the code takes a prefixed attribute for `to`): the client opens with
`<stream:stream xmlns:to='urn:x' to='a.example' version='1.0' xmlns='jabber:client'
xmlns:stream='http://etherx.jabber.org/streams'>` and then sends
`<starttls xmlns='urn:ietf:params:xml:ns:xmpp-tls'/>`, every write succeeding.  The
`to` attribute of the opening has the non-empty value "a.example"; `StartTLS`
returns no error, but `ServerName()` is "urn:x", the value of the namespace
declaration `xmlns:to`, and what is written to the peer is the stream-open tag
carrying `from='urn:x'`, then the features element, then the proceed element:
`from='a.example'` occurs nowhere in the bytes written. -/
theorem prefixed_attribute_taken_for_to :
    toAttribute attrsPrefixDeclared = some "a.example" ∧
      (XMPP.StartTLS fixedClock XMPP.new
        ⟨[startTag "stream" "stream" attrsPrefixDeclared, starttlsTag], [], []⟩).1 = none ∧
      (XMPP.StartTLS fixedClock XMPP.new
        ⟨[startTag "stream" "stream" attrsPrefixDeclared, starttlsTag], [], []⟩).2.ServerName
        = "urn:x" ∧
      (XMPP.StartTLS fixedClock XMPP.new
        ⟨[startTag "stream" "stream" attrsPrefixDeclared, starttlsTag], [], []⟩).2.conn.sent
        = ["<stream:stream id='1730000000000000000' version='1.0' xml:lang='en' xmlns:stream='http://etherx.jabber.org/streams' from='urn:x' xmlns='jabber:client'>",
            featuresElement, proceedElement] ∧
      occurrences "from='a.example'".data
        (XMPP.StartTLS fixedClock XMPP.new
          ⟨[startTag "stream" "stream" attrsPrefixDeclared, starttlsTag], [], []⟩).2.conn.written
        = 0 := by
  refine ⟨by decide, by decide!, by decide!, by decide!, by decide!⟩

/-- The missing `to`, away from prefixed attributes: for a client whose first start
element is `stream:stream` with no `to` attribute and no prefixed attribute of local
name `to`, whatever the writes do, `StartTLS` returns an error, `ServerName()` is
empty, and every write is a stream-open tag, the stream error of improper addressing
or the stream-close tag, so that no write is the features element or the proceed
element; when every write succeeds (and the clock does not read 0) what is written
to the peer is exactly the stream-open tag without `from`, then the stream error of
improper addressing, then the stream-close tag. -/
theorem StartTLS_missing_to (clock : Nat → Int) (skip1 rest : List RawResult)
    (attrs : List Attr) (we : List (Option GoError)) (h1 : skippable skip1)
    (hnp : noPrefixedTo attrs) (hto : toAttribute attrs = none) :
    (XMPP.StartTLS clock XMPP.new ⟨skip1 ++ startTag "stream" "stream" attrs :: rest, we, []⟩).1
        = some (Error.New "client did not sent 'to' attribute in initial stream header") ∧
      (XMPP.StartTLS clock XMPP.new
        ⟨skip1 ++ startTag "stream" "stream" attrs :: rest, we, []⟩).2.ServerName = "" ∧
      (∀ e ∈ (XMPP.StartTLS clock XMPP.new
          ⟨skip1 ++ startTag "stream" "stream" attrs :: rest, we, []⟩).2.conn.log,
        isStreamOpen e.data = true ∨ e.data = streamError improperAddressing ∨
          e.data = streamCloseTag) ∧
      featuresElement ∉ (XMPP.StartTLS clock XMPP.new
        ⟨skip1 ++ startTag "stream" "stream" attrs :: rest, we, []⟩).2.conn.sent ∧
      proceedElement ∉ (XMPP.StartTLS clock XMPP.new
        ⟨skip1 ++ startTag "stream" "stream" attrs :: rest, we, []⟩).2.conn.sent ∧
      (clock 0 ≠ 0 → AllOK we →
        (XMPP.StartTLS clock XMPP.new
          ⟨skip1 ++ startTag "stream" "stream" attrs :: rest, we, []⟩).2.conn.sent
          = [streamOpenTag (clock 0) "", streamError improperAddressing, streamCloseTag]) := by
  have hv : scanTo attrs "" = "" := by rw [scanTo_toAttribute attrs hnp, hto]; rfl
  have herr := StartTLS_err_noTo clock skip1 rest attrs we h1 hv
  have hlog : ∀ e ∈ (XMPP.StartTLS clock XMPP.new
      ⟨skip1 ++ startTag "stream" "stream" attrs :: rest, we, []⟩).2.conn.log,
      isStreamOpen e.data = true ∨ e.data = streamError improperAddressing ∨
        e.data = streamCloseTag := by
    intro e he
    rw [herr.2] at he
    rcases sendError_log clock _ improperAddressing e he with h | h
    · simp at h
    · exact h
  refine ⟨herr.1, ?_, hlog, ?_, ?_, ?_⟩
  · rw [herr.2]
    exact sendError_from' clock _ _
  · intro hmem
    obtain ⟨e, he, hd, _⟩ := mem_sentOf hmem
    rcases hlog e he with h | h | h
    · rw [hd] at h; exact absurd h (by decide)
    · rw [hd] at h; exact absurd h (by decide)
    · rw [hd] at h; exact absurd h (by decide)
  · intro hmem
    obtain ⟨e, he, hd, _⟩ := mem_sentOf hmem
    rcases hlog e he with h | h | h
    · rw [hd] at h; exact absurd h (by decide)
    · rw [hd] at h; exact absurd h (by decide)
    · rw [hd] at h; exact absurd h (by decide)
  · intro hclock hw
    rw [StartTLS_noTo clock hclock skip1 rest attrs we h1 hv hw]
    simp [PeerConn.sent, sentOf]

/-- The missing `to`, an instance: the client that gives no `to`. -/
theorem StartTLS_missing_to_witness :
    (XMPP.StartTLS fixedClock XMPP.new ⟨clientWithoutTo, [], []⟩).1
        = some (Error.New "client did not sent 'to' attribute in initial stream header") ∧
      (XMPP.StartTLS fixedClock XMPP.new ⟨clientWithoutTo, [], []⟩).2.conn.sent
        = [streamOpenTag (fixedClock 0) "", streamError improperAddressing, streamCloseTag] :=
  have h := StartTLS_missing_to fixedClock [] []
    [⟨⟨"", "version"⟩, "1.0"⟩, ⟨⟨"", "xmlns"⟩, "jabber:client"⟩] [] (by decide) (by decide)
    (by decide)
  ⟨h.1, h.2.2.2.2.2 (by decide) (by decide)⟩

/-- C13 (the code takes a prefixed attribute for `to`): the client opens with
`<stream:stream xmlns:to='urn:x' version='1.0' xmlns='jabber:client'
xmlns:stream='http://etherx.jabber.org/streams'>`, which has no `to` attribute, and
then sends `<starttls xmlns='urn:ietf:params:xml:ns:xmpp-tls'/>`, every write
succeeding.  `StartTLS` returns no error, `ServerName()` is "urn:x", the value of
the namespace declaration `xmlns:to`, and what is written to the peer is the
stream-open tag carrying `from='urn:x'`, then the features element, then the proceed
element: the improper-addressing condition occurs nowhere in the bytes written. -/
theorem missing_to_not_detected :
    toAttribute attrsPrefixOnly = none ∧
      (XMPP.StartTLS fixedClock XMPP.new
        ⟨[startTag "stream" "stream" attrsPrefixOnly, starttlsTag], [], []⟩).1 = none ∧
      (XMPP.StartTLS fixedClock XMPP.new
        ⟨[startTag "stream" "stream" attrsPrefixOnly, starttlsTag], [], []⟩).2.ServerName
        = "urn:x" ∧
      (XMPP.StartTLS fixedClock XMPP.new
        ⟨[startTag "stream" "stream" attrsPrefixOnly, starttlsTag], [], []⟩).2.conn.sent
        = ["<stream:stream id='1730000000000000000' version='1.0' xml:lang='en' xmlns:stream='http://etherx.jabber.org/streams' from='urn:x' xmlns='jabber:client'>",
            featuresElement, proceedElement] ∧
      occurrences "<improper-addressing".data
        (XMPP.StartTLS fixedClock XMPP.new
          ⟨[startTag "stream" "stream" attrsPrefixOnly, starttlsTag], [], []⟩).2.conn.written
        = 0 := by
  refine ⟨by decide, by decide!, by decide!, by decide!, by decide!⟩

/-- C14 (the code passes an earlier connection's name): one decorator, whose original
`GetCertificate` reports the name it is given, serves the client of "a.example" and
then the client of "b.example"; both negotiations succeed and `Next` is called for
both; the identity negotiated on the second connection is "b.example"; and the name
the original callback receives through the configuration the decorator leaves
after each of them is "a.example" both times: the second connection gets the first
one's name. -/
theorem second_connection_gets_first_name :
    (STARTTLSHandler.serveAll fixedClock echoDecorator
        [clientFor "a.example", clientFor "b.example"]).map (fun r => r.next.length) = [1, 1] ∧
      (XMPP.StartTLS fixedClock XMPP.new (clientFor "b.example")).2.ServerName = "b.example" ∧
      (STARTTLSHandler.serveAll fixedClock echoDecorator
        [clientFor "a.example", clientFor "b.example"]).map
          (fun r => r.handler.Config.GetCertificate "") = ["a.example", "a.example"] := by
  refine ⟨by decide!, by decide!, by decide!⟩

/-- C15 (as stated, refuted): the client gives no `to`; the write of the stream-open
tag succeeds and the write of the stream error fails with a transport error; the
error `StartTLS` returns is the protocol-violation error, not that write failure. -/
theorem write_failure_not_surfaced :
    (XMPP.StartTLS fixedClock XMPP.new
        ⟨clientWithoutTo, [none, some (GoError.other 1)], []⟩).2.conn.log
        = [⟨streamOpenTag (fixedClock 0) "", none⟩,
            ⟨streamError improperAddressing, some (GoError.other 1)⟩] ∧
      (XMPP.StartTLS fixedClock XMPP.new
        ⟨clientWithoutTo, [none, some (GoError.other 1)], []⟩).1
        = some (Error.New "client did not sent 'to' attribute in initial stream header") ∧
      (XMPP.StartTLS fixedClock XMPP.new
        ⟨clientWithoutTo, [none, some (GoError.other 1)], []⟩).1
        ≠ some (Error.conn (GoError.other 1)) := by
  refine ⟨by decide!, by decide!, by decide!⟩

/-- C15 (amended): on each of the three paths of a protocol violation (the first
start element is not `stream:stream`; no `to`; the start element after the features
is not `starttls`, the stream-open tag and the features having been written), the
error `StartTLS` returns is the protocol-violation error, whatever the outcomes of
the writes of the stream error and of the stream-close tag. -/
theorem StartTLS_violation_error (clock : Nat → Int) (skip1 skip2 rest : List RawResult)
    (we : List (Option GoError)) (h1 : skippable skip1) (h2 : skippable skip2) :
    (∀ e : StartElement, e.Name.Space ≠ "stream" ∨ e.Name.Local ≠ "stream" →
        (XMPP.StartTLS clock XMPP.new
          ⟨skip1 ++ RawResult.token (Token.StartElement e) :: rest, we, []⟩).1
          = some (Error.New "client sent invalid initial stream header")) ∧
      (∀ attrs : List Attr, scanTo attrs "" = "" →
        (XMPP.StartTLS clock XMPP.new
          ⟨skip1 ++ startTag "stream" "stream" attrs :: rest, we, []⟩).1
          = some (Error.New "client did not sent 'to' attribute in initial stream header")) ∧
      (∀ (attrs : List Attr) (e2 : StartElement), scanTo attrs "" ≠ "" →
        e2.Name.Local ≠ "starttls" →
        (XMPP.StartTLS clock XMPP.new
          ⟨skip1 ++ startTag "stream" "stream" attrs ::
            (skip2 ++ RawResult.token (Token.StartElement e2) :: rest), none :: none :: we, []⟩).1
          = some (Error.New ("client requested invalid feature '" ++ e2.Name.Local ++ "'"))) :=
  ⟨fun e hbad => StartTLS_err_badHeader clock skip1 rest e we h1 hbad,
    fun attrs hv => (StartTLS_err_noTo clock skip1 rest attrs we h1 hv).1,
    fun attrs e2 hv hst =>
      StartTLS_err_notStartTLS clock skip1 skip2 rest attrs e2 _ we h1 h2 rfl hv hst⟩

/-- C15, an instance: the client asks for `auth`; the stream-open tag and the
features are written, the write of the stream error fails; the error returned is
the one of the unexpected element. -/
theorem StartTLS_violation_error_witness :
    (XMPP.StartTLS fixedClock XMPP.new
        ⟨clientAuth "a.example", [none, none, some GoError.EOF], []⟩).1
      = some (Error.New "client requested invalid feature 'auth'") :=
  (StartTLS_violation_error fixedClock [] [] [] [some GoError.EOF] (by decide) (by decide)).2.2
    [⟨⟨"", "to"⟩, "a.example"⟩, ⟨⟨"", "version"⟩, "1.0"⟩, ⟨⟨"", "xmlns"⟩, "jabber:client"⟩,
      ⟨⟨"xmlns", "stream"⟩, "http://etherx.jabber.org/streams"⟩]
    ⟨⟨"", "auth"⟩, [⟨⟨"", "mechanism"⟩, "PLAIN"⟩]⟩ (by decide) (by decide)

/-- C16 (as stated, refuted): after `AddRouteHTTPTLS("Example.COM", c)` the key of
the deferred table is "Example.COM", which is not lower case; and with
"example.com" recorded with configuration 1 and then "Example.COM" with
configuration 2, `HTTPSForwarder`, visiting "Example.COM" first, leaves the route
"example.com" with configuration 1, not with the one recorded most recently. -/
theorem deferred_key_not_lowercase :
    mapKeys (Router.zero.AddRouteHTTPTLS "Example.COM" (some ⟨1⟩)).hostHTTPTLSConfig
        = ["Example.COM"] ∧
      refLib.ToLower "Example.COM" ≠ "Example.COM" ∧
      (Router.zero.recordAll
        [("example.com", some ⟨1⟩), ("Example.COM", some ⟨2⟩)]).hostHTTPTLSConfig
        = some [("Example.COM", some ⟨2⟩), ("example.com", some ⟨1⟩)] ∧
      mapGet ((Router.zero.recordAll
          [("example.com", some ⟨1⟩), ("Example.COM", some ⟨2⟩)]).HTTPSForwarder refLib
            [("Example.COM", some ⟨2⟩), ("example.com", some ⟨1⟩)] handlerA).routingTable
          "example.com"
        = some (Handler.TLSHandler handlerA (some ⟨1⟩)) := by
  refine ⟨by decide, by decide, by decide, by decide⟩

/-- C16 (amended): the deferred table is keyed by the host name as given to
`AddRouteHTTPTLS`, the configuration kept for a spelling being the last one recorded
for it; when `HTTPSForwarder(h)` is then called, whatever the order in which it
visits the table, for every recorded host `k` the routing table maps lowercase(k)
to a TLS-terminating decorator around `h` that carries a configuration recorded
for a host of the same lower case, the one recorded for `k` when no other recorded
host has that lower case; and the HTTPS forwarder becomes a TLS-terminating
decorator around `h` carrying the default TLS configuration. -/
theorem deferred_configs_materialized (L : StdLib) (r : Router)
    (order : List (String × Option TLSConfig)) (h : Handler)
    (hperm : order.Perm (r.hostHTTPTLSConfig.getD [])) :
    (∀ (r0 : Router) (pre post : List (String × Option TLSConfig)) (k : String)
        (c : Option TLSConfig), (∀ e ∈ post, e.1 ≠ k) →
        mapGet (r0.recordAll (pre ++ (k, c) :: post)).hostHTTPTLSConfig k = some c) ∧
      (∀ k c, (k, c) ∈ r.hostHTTPTLSConfig.getD [] →
        ∃ e ∈ r.hostHTTPTLSConfig.getD [], L.ToLower e.1 = L.ToLower k ∧
          mapGet (r.HTTPSForwarder L order h).routingTable (L.ToLower k)
            = some (Handler.TLSHandler h e.2)) ∧
      (∀ k c, (k, c) ∈ r.hostHTTPTLSConfig.getD [] →
        (∀ e ∈ r.hostHTTPTLSConfig.getD [], L.ToLower e.1 = L.ToLower k → e = (k, c)) →
        mapGet (r.HTTPSForwarder L order h).routingTable (L.ToLower k)
          = some (Handler.TLSHandler h c)) ∧
      (r.HTTPSForwarder L order h).httpsForwarder
        = some (Handler.TLSHandler h r.httpsTLSConfig) := by
  have h2 : ∀ k c, (k, c) ∈ r.hostHTTPTLSConfig.getD [] →
      ∃ e ∈ r.hostHTTPTLSConfig.getD [], L.ToLower e.1 = L.ToLower k ∧
        mapGet (r.HTTPSForwarder L order h).routingTable (L.ToLower k)
          = some (Handler.TLSHandler h e.2) := by
    intro k c hmem
    obtain ⟨e, he, hk, hget⟩ := HTTPSForwarder_table L r order h k c (hperm.mem_iff.mpr hmem)
    exact ⟨e, hperm.mem_iff.mp he, hk, hget⟩
  refine ⟨fun r0 pre post k c hpost => recordAll_last_kept r0 pre post k c hpost, h2, ?_,
    HTTPSForwarder_forwarder L r order h⟩
  intro k c hmem honly
  obtain ⟨e, he, hk, hget⟩ := h2 k c hmem
  rw [hget, honly e he hk]

/-- C16, an instance: "Example.COM" is recorded with configuration 1 and
"other.example" with configuration 2, the default configuration is 9; after
`HTTPSForwarder(A)` the route "example.com" terminates TLS with configuration 1
around A, and the HTTPS forwarder with configuration 9. -/
theorem deferred_configs_materialized_witness :
    mapGet (((Router.zero.HTTPSHandler none (some ⟨9⟩)).recordAll
          [("Example.COM", some ⟨1⟩), ("other.example", some ⟨2⟩)]).HTTPSForwarder refLib
            [("Example.COM", some ⟨1⟩), ("other.example", some ⟨2⟩)] handlerA).routingTable
          (refLib.ToLower "Example.COM")
        = some (Handler.TLSHandler handlerA (some ⟨1⟩)) ∧
      (((Router.zero.HTTPSHandler none (some ⟨9⟩)).recordAll
          [("Example.COM", some ⟨1⟩), ("other.example", some ⟨2⟩)]).HTTPSForwarder refLib
            [("Example.COM", some ⟨1⟩), ("other.example", some ⟨2⟩)] handlerA).httpsForwarder
        = some (Handler.TLSHandler handlerA (some ⟨9⟩)) :=
  have h := deferred_configs_materialized refLib
    ((Router.zero.HTTPSHandler none (some ⟨9⟩)).recordAll
      [("Example.COM", some ⟨1⟩), ("other.example", some ⟨2⟩)])
    [("Example.COM", some ⟨1⟩), ("other.example", some ⟨2⟩)] handlerA
    (by decide)
  ⟨h.2.2.1 "Example.COM" (some ⟨1⟩) (by decide) (by decide), h.2.2.2⟩

/-- C17: `IsSTARTTLSProtocolSupported(p)` is true exactly when `p` is "xmpp"; for a
protocol it does not support, `STARTTLSHandler.ServeTCP` leaves the connection as
it was (no token read, no write), leaves the configuration as it was and does not
call `Next`; for a protocol it supports, the connection is left as the XMPP
negotiation leaves it, and `Next` is called exactly when the negotiation succeeds. -/
theorem unsupported_protocol_noop {α : Type} (clock : Nat → Int) (s : STARTTLSHandler α)
    (conn : PeerConn) :
    (∀ p, IsSTARTTLSProtocolSupported p = true ↔ p = "xmpp") ∧
      (IsSTARTTLSProtocolSupported s.Protocol = false →
        (STARTTLSHandler.ServeTCP clock s conn).conn = conn ∧
          (STARTTLSHandler.ServeTCP clock s conn).next = [] ∧
          (STARTTLSHandler.ServeTCP clock s conn).handler.Config.GetCertificate
            = s.Config.GetCertificate) ∧
      (IsSTARTTLSProtocolSupported s.Protocol = true →
        (STARTTLSHandler.ServeTCP clock s conn).conn
            = (XMPP.StartTLS clock XMPP.new conn).2.conn ∧
          ((STARTTLSHandler.ServeTCP clock s conn).next ≠ [] ↔
            (XMPP.StartTLS clock XMPP.new conn).1 = none)) := by
  have hsup : ∀ p, IsSTARTTLSProtocolSupported p = true ↔ p = "xmpp" := by
    intro p
    simp [IsSTARTTLSProtocolSupported, supportedSTARTTLSProtocols, eq_comm]
  refine ⟨hsup, ?_, ?_⟩
  · intro h
    have hp : ¬ s.Protocol = "xmpp" := by
      intro hx
      rw [(hsup _).mpr hx] at h
      exact absurd h (by decide)
    simp only [STARTTLSHandler.ServeTCP, hp, if_false, and_self]
  · intro h
    have hp : s.Protocol = "xmpp" := (hsup _).mp h
    simp only [STARTTLSHandler.ServeTCP, hp, if_true]
    cases hr : (XMPP.StartTLS clock XMPP.new conn).1 with
    | none => simp
    | some e => simp

/-- C17, an instance: a decorator for "smtp" leaves the client of "a.example"
unread and unanswered. -/
theorem unsupported_protocol_noop_witness :
    (STARTTLSHandler.ServeTCP fixedClock
        (⟨handlerA, ⟨fun serverName => serverName⟩, "smtp"⟩ : STARTTLSHandler String)
        (clientFor "a.example")).conn = clientFor "a.example" ∧
      (STARTTLSHandler.ServeTCP fixedClock
        (⟨handlerA, ⟨fun serverName => serverName⟩, "smtp"⟩ : STARTTLSHandler String)
        (clientFor "a.example")).next = [] :=
  have h := (unsupported_protocol_noop fixedClock
    (⟨handlerA, ⟨fun serverName => serverName⟩, "smtp"⟩ : STARTTLSHandler String)
    (clientFor "a.example")).2.1 (by decide)
  ⟨h.1, h.2.1⟩

/-- The unexpected element, away from prefixed attributes and write by write: for
a client that opens the stream with a non-empty `to` attribute `v`, no prefixed
attribute having the local name `to`, and then sends a start element whose local
name is not `starttls`, every write succeeding (and the clock not reading 0),
`StartTLS` returns an error and the writes that reach the peer are the stream-open
tag, the features element, then the stream error of policy violation, then the
stream-close tag.  And on every run of `StartTLS` that returns an error, whatever
the input, the writes and the clock, no write that reached the peer is the proceed
element. -/
theorem StartTLS_policy_violation (clock : Nat → Int) :
    (∀ (skip1 skip2 rest : List RawResult) (attrs : List Attr) (e2 : StartElement)
        (v : String) (we : List (Option GoError)),
        clock 0 ≠ 0 → skippable skip1 → skippable skip2 → noPrefixedTo attrs →
        toAttribute attrs = some v → v ≠ "" →
        e2.Name.Local ≠ "starttls" → AllOK we →
        (XMPP.StartTLS clock XMPP.new
          ⟨skip1 ++ startTag "stream" "stream" attrs ::
            (skip2 ++ RawResult.token (Token.StartElement e2) :: rest), we, []⟩).1
          = some (Error.New ("client requested invalid feature '" ++ e2.Name.Local ++ "'")) ∧
        (XMPP.StartTLS clock XMPP.new
          ⟨skip1 ++ startTag "stream" "stream" attrs ::
            (skip2 ++ RawResult.token (Token.StartElement e2) :: rest), we, []⟩).2.conn.sent
          = [streamOpenTag (clock 0) ("from='" ++ v ++ "' "), featuresElement,
              streamError policyViolation, streamCloseTag]) ∧
      (∀ (toks : List RawResult) (we : List (Option GoError)),
        (XMPP.StartTLS clock XMPP.new ⟨toks, we, []⟩).1 ≠ none →
        proceedElement ∉ (XMPP.StartTLS clock XMPP.new ⟨toks, we, []⟩).2.conn.sent) := by
  refine ⟨?_, ?_⟩
  · intro skip1 skip2 rest attrs e2 v we hclock h1 h2 hnp hto hne hst hw
    have hv : scanTo attrs "" = v := by rw [scanTo_toAttribute attrs hnp, hto]; rfl
    rw [StartTLS_notStartTLS clock hclock skip1 skip2 rest attrs e2 v we h1 h2 hv hne hst hw]
    exact ⟨rfl, by simp [PeerConn.sent, sentOf]⟩
  · intro toks we hfail hmem
    obtain ⟨e, he, hd, hnone⟩ := mem_sentOf hmem
    rcases StartTLS_log clock XMPP.new ⟨toks, we, []⟩ e he with h | h | h
    · simp at h
    · rw [hd] at h
      rcases h with h | h | h | h | h | h
      · exact absurd h (by decide)
      · exact absurd h (by decide)
      · exact absurd h (by decide)
      · exact absurd h (by decide)
      · exact absurd h (by decide)
      · exact absurd h (by decide)
    · exact hfail (h.2 hnone)

/-- The unexpected element, an instance: the client asks for `auth` instead of
`starttls`. -/
theorem StartTLS_policy_violation_witness :
    (XMPP.StartTLS fixedClock XMPP.new ⟨clientAuth "a.example", [], []⟩).1
        = some (Error.New "client requested invalid feature 'auth'") ∧
      (XMPP.StartTLS fixedClock XMPP.new ⟨clientAuth "a.example", [], []⟩).2.conn.sent
        = [streamOpenTag (fixedClock 0) "from='a.example' ", featuresElement,
            streamError policyViolation, streamCloseTag] ∧
      proceedElement ∉
        (XMPP.StartTLS fixedClock XMPP.new ⟨clientAuth "a.example", [], []⟩).2.conn.sent :=
  have h := (StartTLS_policy_violation fixedClock).1 [] [] []
    [⟨⟨"", "to"⟩, "a.example"⟩, ⟨⟨"", "version"⟩, "1.0"⟩, ⟨⟨"", "xmlns"⟩, "jabber:client"⟩,
      ⟨⟨"xmlns", "stream"⟩, "http://etherx.jabber.org/streams"⟩]
    ⟨⟨"", "auth"⟩, [⟨⟨"", "mechanism"⟩, "PLAIN"⟩]⟩ "a.example" []
    (by decide) (by decide) (by decide) (by decide) (by decide) (by decide) (by decide)
    (by decide)
  ⟨h.1, h.2,
    (StartTLS_policy_violation fixedClock).2 (clientAuth "a.example") [] (by decide)⟩

/-- C18 (the code does not escape the identity, and takes a prefixed attribute for
`to`): two clients that open the stream with a non-empty `to` attribute and then
send `<auth mechanism='PLAIN'/>`, every write succeeding.  The first gives a `to`
attribute whose value, once decoded, is
`a'><proceed xmlns='urn:ietf:params:xml:ns:xmpp-tls'/><x y='`: `StartTLS` returns
the error of the unexpected element, and the first write that reaches the peer is a
stream-open tag that ends after `from='a'`, followed by the proceed element and by
the start of an element `x`; the proceed element occurs in the bytes written on
this failing run.  The second opens with
`<stream:stream xmlns:x='urn:x' x:to='' to='a.example' ...>`: `StartTLS` returns the
error of the missing `to`, and what is written to the peer is the stream-open tag
without `from`, the stream error of improper addressing and the stream-close tag;
the features element and the policy-violation error are not written. -/
theorem policy_violation_diverges :
    (clientAuth identityWithProceed
          = [startTag "stream" "stream"
              [⟨⟨"", "to"⟩, identityWithProceed⟩, ⟨⟨"", "version"⟩, "1.0"⟩,
                ⟨⟨"", "xmlns"⟩, "jabber:client"⟩,
                ⟨⟨"xmlns", "stream"⟩, "http://etherx.jabber.org/streams"⟩], authTag] ∧
        (XMPP.StartTLS fixedClock XMPP.new ⟨clientAuth identityWithProceed, [], []⟩).1
          = some (Error.New "client requested invalid feature 'auth'") ∧
        (XMPP.StartTLS fixedClock XMPP.new ⟨clientAuth identityWithProceed, [], []⟩).2.conn.sent
          = ["<stream:stream id='1730000000000000000' version='1.0' xml:lang='en' xmlns:stream='http://etherx.jabber.org/streams' from='a'>"
                ++ proceedElement ++ "<x y='' xmlns='jabber:client'>",
              featuresElement, streamError policyViolation, streamCloseTag] ∧
        occurrences proceedElement.data
          (XMPP.StartTLS fixedClock XMPP.new
            ⟨clientAuth identityWithProceed, [], []⟩).2.conn.written = 1) ∧
      (toAttribute attrsEmptyPrefixed = some "a.example" ∧
        (XMPP.StartTLS fixedClock XMPP.new
          ⟨[startTag "stream" "stream" attrsEmptyPrefixed, authTag], [], []⟩).1
          = some (Error.New "client did not sent 'to' attribute in initial stream header") ∧
        (XMPP.StartTLS fixedClock XMPP.new
          ⟨[startTag "stream" "stream" attrsEmptyPrefixed, authTag], [], []⟩).2.conn.sent
          = ["<stream:stream id='1730000000000000000' version='1.0' xml:lang='en' xmlns:stream='http://etherx.jabber.org/streams' xmlns='jabber:client'>",
              streamError improperAddressing, streamCloseTag]) := by
  refine ⟨⟨rfl, by decide!, by decide!, by decide!⟩, by decide, by decide!, by decide!⟩

/-- The guard of the stream, write by write: `startStream` on a stream that is open
(`streamId` not 0) fails, writes nothing and leaves the state as it was;
`closeStream` on a stream that is not open fails and writes nothing; with the writes
succeeding, `closeStream` on an open stream succeeds, writes the end tag and sets
`streamId` to 0, and `send` on a stream not yet open succeeds and writes the
stream-open tag and then the payload; a `send` on an open stream writes the payload
only.  Hence, the clock never reading 0, among the writes of `StartTLS` that reach
the peer the stream-close tag comes only while the stream is open and a write that
starts a stream-open tag only while it is not, and the stream is open at the end
exactly when `streamId` is not 0. -/
theorem stream_guard (clock : Nat → Int) (x : XMPP) (d : String) :
    (x.state.streamId ≠ 0 →
        x.startStream clock = (some (Error.New "stream already started"), x)) ∧
      (x.state.streamId = 0 → x.closeStream = (some (Error.New "stream not started"), x)) ∧
      (x.state.streamId ≠ 0 → AllOK x.conn.writeErrs →
        x.closeStream.1 = none ∧
          x.closeStream.2.conn.log = x.conn.log ++ [⟨streamCloseTag, none⟩] ∧
          x.closeStream.2.state.streamId = 0) ∧
      (x.state.streamId = 0 → AllOK x.conn.writeErrs →
        (x.send clock d).1 = none ∧
          (x.send clock d).2.conn.log
            = x.conn.log ++ [⟨streamOpenTag (clock x.ticks) (fromAttrOf x.state.from'), none⟩,
                ⟨d, none⟩]) ∧
      (x.state.streamId ≠ 0 →
        (x.send clock d).2.conn.log = x.conn.log ++ [⟨d, (x.Write d).1⟩] ∧
          (x.send clock d).2.state = x.state) ∧
      ((∀ n, clock n ≠ 0) → ∀ (toks : List RawResult) (we : List (Option GoError)),
        bracket (XMPP.StartTLS clock XMPP.new ⟨toks, we, []⟩).2.conn.sent
          = some (decide ((XMPP.StartTLS clock XMPP.new ⟨toks, we, []⟩).2.state.streamId ≠ 0))) := by
  refine ⟨?_, ?_, ?_, ?_, ?_, ?_⟩
  · intro h
    simp only [XMPP.startStream, h, ne_eq, not_false_eq_true, if_true]
  · intro h
    simp only [XMPP.closeStream, h, if_true]
  · intro h0 hw
    have hok := closeStream_ok x h0 hw
    exact ⟨hok, closeStream_ok_log x hok⟩
  · intro h0 hw
    have hok := send_closed_ok clock x d h0 hw
    exact ⟨hok, send_closed_ok_log clock x d h0 hok⟩
  · intro h0
    have hw := XWrite_log x d
    simp only [XMPP.send, h0, if_false]
    exact ⟨hw.1, hw.2.2.1⟩
  · intro hclock toks we
    exact StartTLS_bracketed clock hclock XMPP.new ⟨toks, we, []⟩ rfl

/-- The guard of the stream, an instance: on the run of the client that gives no
`to`, the stream is opened once and closed once. -/
theorem stream_guard_witness :
    bracket (XMPP.StartTLS fixedClock XMPP.new ⟨clientWithoutTo, [], []⟩).2.conn.sent
        = some false ∧
      (XMPP.StartTLS fixedClock XMPP.new ⟨clientWithoutTo, [], []⟩).2.closeStream
        = (some (Error.New "stream not started"),
            (XMPP.StartTLS fixedClock XMPP.new ⟨clientWithoutTo, [], []⟩).2) :=
  ⟨((stream_guard fixedClock XMPP.new "").2.2.2.2.2 (fun _ => by unfold fixedClock; decide)
      clientWithoutTo []).trans
      (by decide),
    (stream_guard fixedClock
      (XMPP.StartTLS fixedClock XMPP.new ⟨clientWithoutTo, [], []⟩).2 "").2.1 (by decide)⟩

/-- C19 (the code does not escape the identity): the client's `to` attribute decodes
to `a'><stream:stream x='b`, and the client then asks for `starttls`, every write
succeeding.  The negotiation succeeds and the clock is read once, `startStream`
having written once; but what that one write sends is a stream-open tag that ends
after `from='a'`, followed by a second stream-open tag
`<stream:stream x='b' xmlns='jabber:client'>`: in the bytes written to the peer a
stream-open tag starts at two places and no stream-close tag stands anywhere, so
the second one is written while the stream is open.  For "user@domain" a stream-open
tag starts at one place. -/
theorem second_stream_open_tag_written :
    (XMPP.StartTLS fixedClock XMPP.new (clientFor identityWithStreamOpen)).1 = none ∧
      (XMPP.StartTLS fixedClock XMPP.new (clientFor identityWithStreamOpen)).2.ticks = 1 ∧
      (XMPP.StartTLS fixedClock XMPP.new (clientFor identityWithStreamOpen)).2.conn.sent
        = ["<stream:stream id='1730000000000000000' version='1.0' xml:lang='en' xmlns:stream='http://etherx.jabber.org/streams' from='a'>"
              ++ "<stream:stream x='b' xmlns='jabber:client'>",
            featuresElement, proceedElement] ∧
      occurrences "<stream:stream ".data
        (XMPP.StartTLS fixedClock XMPP.new (clientFor identityWithStreamOpen)).2.conn.written
        = 2 ∧
      occurrences streamCloseTag.data
        (XMPP.StartTLS fixedClock XMPP.new (clientFor identityWithStreamOpen)).2.conn.written
        = 0 ∧
      occurrences "<stream:stream ".data
        (XMPP.StartTLS fixedClock XMPP.new (clientFor "user@domain")).2.conn.written = 1 := by
  refine ⟨by decide!, by decide!, by decide!, by decide!, by decide!, by decide!⟩

/-- C20 (the code does not escape the identity): the client's `to` attribute decodes
to the three characters a, single quote, b; the negotiation succeeds with that
identity; the stream-open tag written carries `from=` followed by the identity as
it is, between single quotes; and the text between `from='` and the next single
quote of that tag is "a", not the identity.  For "user@domain" it is the
identity. -/
theorem from_attribute_not_escaped :
    (XMPP.StartTLS fixedClock XMPP.new (clientFor "a'b")).1 = none ∧
      (XMPP.StartTLS fixedClock XMPP.new (clientFor "a'b")).2.ServerName = "a'b" ∧
      (XMPP.StartTLS fixedClock XMPP.new (clientFor "a'b")).2.conn.sent.head?
        = some (streamOpenTag (fixedClock 0) "from='a'b' ") ∧
      fromValue (streamOpenTag (fixedClock 0) "from='a'b' ") = some "a" ∧
      fromValue (streamOpenTag (fixedClock 0) (fromAttrOf "user@domain")) = some "user@domain" := by
  refine ⟨by decide!, by decide!, by decide!, by decide!, by decide!⟩

end Tcp
